import Mathlib

/-!
# Caption extraction and daily quota: a verification development

A shallow embedding of `src/server/services/captionGenerator.js` (class
`CaptionGenerator`), `src/server/utils/rateLimiter.js` (class `RateLimiter`) and
the `POST /generate` handler of `src/server/routes/captions.js`.

A JavaScript string is a finite sequence of UTF-16 code units; it is embedded
as a list of natural numbers, one per code unit, so that `.length`, the
regular-expression quantifiers and `.trim()` count and inspect exactly what the
engine counts and inspects.
-/

set_option autoImplicit false

/-- A JavaScript string: the list of its UTF-16 code units. -/
abbrev Str := List Nat

/-- Code units of one Unicode scalar value (a surrogate pair above the BMP). -/
def utf16Char (c : Char) : List Nat :=
  if c.toNat < 65536 then [c.toNat]
  else [55296 + (c.toNat - 65536) / 1024, 56320 + (c.toNat - 65536) % 1024]

/-- The JavaScript string written by a source-code string literal. -/
def utf16 (s : String) : Str := s.toList.flatMap utf16Char

namespace JS

def quote : Nat := 34
def lbrack : Nat := 91
def rbrack : Nat := 93
def star : Nat := 42
def newline : Nat := 10
def comma : Nat := 44
def dash : Nat := 45
def bullet : Nat := 8226
def space : Nat := 32

/-- The class `\s` of a JavaScript regular expression, which is also the set
of characters removed by `String.prototype.trim`: WhiteSpace and
LineTerminator of ECMA-262. -/
def isWhiteSpace (c : Nat) : Bool :=
  c == 9 || c == 10 || c == 11 || c == 12 || c == 13 || c == 32 || c == 160 ||
  c == 5760 || (8192 ≤ c && c ≤ 8202) || c == 8232 || c == 8233 || c == 8239 ||
  c == 8287 || c == 12288 || c == 65279

/-- The class `\d`. -/
def isDigit (c : Nat) : Bool := 48 ≤ c && c ≤ 57

/-- The class `[a-zA-Z]`. -/
def isLetter (c : Nat) : Bool := (97 ≤ c && c ≤ 122) || (65 ≤ c && c ≤ 90)

/-- The method `String.prototype.trim`. -/
def trim (s : Str) : Str :=
  ((s.dropWhile isWhiteSpace).reverse.dropWhile isWhiteSpace).reverse

/-- The method `String.prototype.startsWith`. -/
def startsWith (s p : Str) : Bool := p.isPrefixOf s

/-- The method `String.prototype.includes`. -/
def includes : Str → Str → Bool
  | [], p => p.isPrefixOf []
  | c :: cs, p => p.isPrefixOf (c :: cs) || includes cs p

/-- The first occurrence of a non-empty separator: the text before it and the
text after it. -/
def splitFirst (sep : Str) : Str → Option (Str × Str)
  | [] => none
  | c :: cs =>
    if sep.isPrefixOf (c :: cs) then some ([], (c :: cs).drop sep.length)
    else (splitFirst sep cs).map fun p => (c :: p.1, p.2)

/-- The value of `s.split(sep)[1]` for a non-empty separator string: `none`
(undefined) when the separator does not occur, else the text between its first
and its second occurrence (up to the end when there is no second one). -/
def splitSecond (sep s : Str) : Option Str :=
  match splitFirst sep s with
  | none => none
  | some (_, a) =>
    match splitFirst sep a with
    | none => some a
    | some (b, _) => some b

/-- The call `s.split(d)` for a separator of one code unit. -/
def splitOnChar (d : Nat) : Str → List Str
  | [] => [[]]
  | c :: cs =>
    match splitOnChar d cs with
    | [] => [[c]]
    | h :: t => if c = d then [] :: h :: t else (c :: h) :: t

/-- The call `s.split(/\s+/)`: the pieces between maximal runs of white space; the flag
tells whether the code unit just before was white space. -/
def splitWsAux : Bool → Str → List Str
  | _, [] => [[]]
  | prevWs, c :: cs =>
    if isWhiteSpace c then
      (if prevWs then splitWsAux true cs else [] :: splitWsAux true cs)
    else
      match splitWsAux false cs with
      | [] => [[c]]
      | h :: t => (c :: h) :: t

/-- The call `s.split(/\s+/)`. -/
def splitWs (s : Str) : List Str := splitWsAux false s

/-- The call `s.replace(/pat/g, '')` for a literal pattern: the occurrences are removed
left to right without overlap; the counter is the number of code units of the
current occurrence still to be dropped. -/
def removeAll (pat : Str) : Nat → Str → Str
  | _, [] => []
  | skip + 1, _ :: cs => removeAll pat skip cs
  | 0, c :: cs =>
    if pat.isPrefixOf (c :: cs) then removeAll pat (pat.length - 1) cs
    else c :: removeAll pat 0 cs

/-- The call `words.join(' ')`. -/
def joinSpace : List Str → Str
  | [] => []
  | [w] => w
  | w :: ws => w ++ space :: joinSpace ws

end JS

namespace Rx

/-- A matcher anchored at the start of its input: on success the matched text
and the input that remains. The regular expressions of the source are built
from these; every quantifier below is greedy and is followed by a pattern that
none of the repeated code units can start, so taking the longest run is the
only way the backtracking engine can succeed. -/
abbrev Matcher := Str → Option (Str × Str)

/-- A literal. -/
def lit (p : Str) : Matcher := fun s =>
  if p.isPrefixOf s then some (p, s.drop p.length) else none

/-- An optional literal, `(?:p)?`. -/
def optLit (p : Str) : Matcher := fun s =>
  if p.isPrefixOf s then some (p, s.drop p.length) else some ([], s)

/-- A starred class, `c*`. -/
def many (f : Nat → Bool) : Matcher := fun s =>
  some (s.takeWhile f, s.dropWhile f)

/-- A class repeated at least once, `c+`. -/
def many1 (f : Nat → Bool) : Matcher := fun s =>
  if (s.takeWhile f).isEmpty then none else some (s.takeWhile f, s.dropWhile f)

/-- A class repeated between `lo` and `hi` times, `c{lo,hi}`. -/
def repeatRange (f : Nat → Bool) (lo hi : Nat) : Matcher := fun s =>
  if lo ≤ ((s.takeWhile f).take hi).length then
    some ((s.takeWhile f).take hi, s.drop ((s.takeWhile f).take hi).length)
  else none

/-- Concatenation of two patterns. -/
def seq (a b : Matcher) : Matcher := fun s =>
  match a s with
  | none => none
  | some (m1, r1) =>
    match b r1 with
    | none => none
    | some (m2, r2) => some (m1 ++ m2, r2)

/-- Concatenation of a list of patterns. -/
def seqAll : List Matcher → Matcher
  | [] => fun s => some ([], s)
  | a :: rest => seq a (seqAll rest)

/-- The call `s.match(re)` without the `g` flag: the leftmost start position at which
the pattern matches. -/
def firstMatch {α : Type} (m : Str → Option α) : Str → Option α
  | [] => m []
  | c :: cs =>
    match m (c :: cs) with
    | some r => some r
    | none => firstMatch m cs

/-- The call `s.match(re)` with the `g` flag: all matches, left to right, each search
resuming after the previous match; the counter is the number of code units of
the previous match still to be passed. An empty list stands for `null`. -/
def matchAll (m : Matcher) : Nat → Str → List Str
  | _, [] => []
  | skip + 1, _ :: cs => matchAll m skip cs
  | 0, c :: cs =>
    match m (c :: cs) with
    | some (t, _) => t :: matchAll m (t.length - 1) cs
    | none => matchAll m 0 cs

/-- A matcher splits its input: the matched text followed by the rest. -/
def Sound (m : Matcher) : Prop := ∀ s t r, m s = some (t, r) → s = t ++ r

/-- A matcher fails on every input in which the code unit `ch` does not occur. -/
def Needs (ch : Nat) (m : Matcher) : Prop := ∀ s, ch ∉ s → m s = none

end Rx

namespace CaptionGenerator

open JS Rx

/-- A string between double quotes. -/
def quoted (s : Str) : Str := quote :: s ++ [quote]

/-- The code fence. -/
def fence : Str := utf16 "```"

def notQuote (c : Nat) : Bool := c != quote
def notRBrack (c : Nat) : Bool := c != rbrack
def notStar (c : Nat) : Bool := c != star

/-- The part of the fenced-block patterns before the capture group:
a fence, `(?:json)?`, `\s*` and an opening square bracket. -/
def codeBlockOpen : Matcher :=
  seqAll [lit fence, optLit (utf16 "json"), many isWhiteSpace, lit [lbrack]]

/-- Group 1 of the fenced-block pattern anchored at the start of the input:
with `closed` the pattern that ends in a closing bracket and a fence (line 333),
without it the pattern of the unterminated block (line 350). -/
def matchCodeBlock (closed : Bool) (s : Str) : Option Str :=
  match codeBlockOpen s with
  | none => none
  | some (_, r) =>
    match many1 notRBrack r with
    | none => none
    | some (g, r2) =>
      if closed then
        match lit (rbrack :: fence) r2 with
        | some _ => some g
        | none => none
      else some g

/-- The pattern `/"([^"]{20,200})"/`. -/
def quotedRx : Matcher :=
  seqAll [lit [quote], repeatRange notQuote 20 200, lit [quote]]

/-- The pattern `/\[(\d+)\]\s*\*\*([^*]+)\*\*:\s*"([^"]+)"/`. -/
def numberedRx : Matcher :=
  seqAll [lit [lbrack], many1 isDigit, lit [rbrack], many isWhiteSpace,
    lit [star, star], many1 notStar, lit (utf16 "**:"), many isWhiteSpace,
    lit [quote], many1 notQuote, lit [quote]]

/-- Group 1 of the pattern `/"([^"]+)"/` anchored at the start of the input. -/
def quotedGroup (s : Str) : Option Str :=
  match lit [quote] s with
  | none => none
  | some (_, r) =>
    match many1 notQuote r with
    | none => none
    | some (g, r2) =>
      match lit [quote] r2 with
      | some _ => some g
      | none => none

/-- The test `caption.length > 20 && caption.length < 200`. -/
def lengthOk (caption : Str) : Bool :=
  decide (20 < caption.length) && decide (caption.length < 200)

/-- The call `match.replace(/"/g, '')`. -/
def removeQuotes (m : Str) : Str := m.filter notQuote

/-- Lines 332-364: the fenced-block tier, terminated (`closed`) or not.
`none` stands for falling through to the next tier. -/
def tierCodeBlock (closed : Bool) (sec : Str) : Option (List Str) :=
  match firstMatch (matchCodeBlock closed) sec with
  | none => none
  | some jsonContent =>
    let captionMatches := matchAll quotedRx 0 jsonContent
    if 3 ≤ captionMatches.length then
      some (((captionMatches.map fun m => trim (removeQuotes m)).filter lengthOk).take 3)
    else none

/-- Lines 366-380: the tier of `[n] **label**: "text"` entries. -/
def tierNumbered (sec : Str) : Option (List Str) :=
  let numberedMatches := matchAll numberedRx 0 sec
  if 3 ≤ numberedMatches.length then
    some (((numberedMatches.filterMap fun m =>
      (firstMatch quotedGroup m).map trim).filter lengthOk).take 3)
  else none

/-- Lines 382-393: the tier of quoted strings. -/
def tierQuoted (sec : Str) : Option (List Str) :=
  let quotedMatches := matchAll quotedRx 0 sec
  if 3 ≤ quotedMatches.length then
    some (((quotedMatches.map removeQuotes).filter lengthOk).take 3)
  else none

/-- The call `trimmed.replace(/^\d+\.\s*/, '')`. -/
def stripNumber (trimmed : Str) : Str :=
  match seqAll [many1 isDigit, lit (utf16 "."), many isWhiteSpace] trimmed with
  | some (_, r) => r
  | none => trimmed

/-- The call `trimmed.replace(/^[-•]\s*/, '')`. -/
def stripBullet (trimmed : Str) : Str :=
  match trimmed with
  | c :: r => if c = dash ∨ c = bullet then r.dropWhile isWhiteSpace else trimmed
  | [] => trimmed

/-- Lines 397-414, the body of the loop over the lines: the caption pushed
for one line, if any. -/
def lineCaption (line : Str) : Option Str :=
  let trimmed := trim line
  match seqAll [many1 isDigit, lit (utf16 ".")] trimmed with
  | some _ =>
    let caption := trim (stripNumber trimmed)
    if lengthOk caption then some caption else none
  | none =>
    if startsWith trimmed [dash] || startsWith trimmed [bullet] then
      let caption := trim (stripBullet trimmed)
      if lengthOk caption then some caption else none
    else none

/-- Lines 395-420: the tier of numbered and bulleted lines. -/
def tierLines (sec : Str) : Option (List Str) :=
  let lines := (splitOnChar newline sec).filter fun line => !(trim line).isEmpty
  let captions := lines.filterMap lineCaption
  if 3 ≤ captions.length then some (captions.take 3) else none

/-- The test of line 429-430 on a window of words. -/
def windowOk (c : Str) : Bool :=
  decide (30 < c.length) && decide (c.length < 200) &&
  !includes c (utf16 "STEP") && !includes c (utf16 "CAPTIONS")

/-- The candidate of the window that starts at word `i`:
`words.slice(i, i + 15).join(' ').trim()`. -/
def windowAt (words : List Str) (i : Nat) : Str :=
  trim (joinSpace ((words.drop i).take 15))

/-- Lines 422-439: the sliding window over the words; the loop runs over
`i < words.length - 10` and stops at the third candidate kept. -/
def tierWindow (sec : Str) : Option (List Str) :=
  let allText := (removeAll fence 0 sec).filter fun c => c != lbrack && c != rbrack
  let words := splitWs allText
  let potentialCaptions :=
    (((List.range (words.length - 10)).map (windowAt words)).filter windowOk).take 3
  if 3 ≤ potentialCaptions.length then some (potentialCaptions.take 3) else none

/-- The method `parseFromSection(section, mood, username)`; `mood` and
`username` are not read by its body. Each tier either returns or falls through
to the next one; the last line returns the empty array. -/
def parseFromSection (sec : Str) : List Str :=
  match tierCodeBlock true sec with
  | some r => r
  | none =>
  match tierCodeBlock false sec with
  | some r => r
  | none =>
  match tierNumbered sec with
  | some r => r
  | none =>
  match tierQuoted sec with
  | some r => r
  | none =>
  match tierLines sec with
  | some r => r
  | none =>
  match tierWindow sec with
  | some r => r
  | none => []

/-- The section marker of line 218. -/
def stepMarker : Str := utf16 "**STEP 3: CAPTIONS**"

/-- The alternative section names of line 225. -/
def altSections : List Str :=
  [utf16 "STEP 3: CAPTIONS", utf16 "CAPTIONS:", utf16 "GENERATE CAPTIONS:",
   utf16 "CREATE CAPTIONS:"]

/-- The value of `response.split(marker)[1]` when it is truthy, that is
defined and not the empty string. -/
def sectionAfter (marker response : Str) : Option Str :=
  match splitSecond marker response with
  | some (c :: cs) => some (c :: cs)
  | _ => none

/-- The method `parseCaptionsFromResponse(response, mood, username)` on a
string response, where nothing in the `try` block throws. -/
def parseCaptionsFromResponse (response : Str) : List Str :=
  match sectionAfter stepMarker response with
  | some captionSection => parseFromSection captionSection
  | none =>
    match altSections.findSome? fun marker => sectionAfter marker response with
    | some altSection => parseFromSection altSection
    | none => parseFromSection response

/-- Lines 276-319 of `getMoodEmoji`: the two keywords of each `if`, in source
order, and the emoji it returns. -/
def moodTable : List (Str × Str × Str) :=
  [
   (utf16 "fun", utf16 "playful", utf16 "😜"),
   (utf16 "creative", utf16 "artistic", utf16 "🎭"),
   (utf16 "professional", utf16 "business", utf16 "💼"),
   (utf16 "romantic", utf16 "emotional", utf16 "❤️"),
   (utf16 "tech", utf16 "modern", utf16 "🤖"),
   (utf16 "travel", utf16 "adventure", utf16 "🌍"),
   (utf16 "food", utf16 "lifestyle", utf16 "🍔"),
   (utf16 "music", utf16 "entertainment", utf16 "🎵"),
   (utf16 "fitness", utf16 "health", utf16 "🏃‍♂️"),
   (utf16 "fashion", utf16 "style", utf16 "🎨"),
   (utf16 "home", utf16 "interior", utf16 "🏠"),
   (utf16 "pet", utf16 "animal", utf16 "🐾"),
   (utf16 "nature", utf16 "environment", utf16 "🌱"),
   (utf16 "gaming", utf16 "entertainment", utf16 "🎮"),
   (utf16 "education", utf16 "learning", utf16 "📚"),
   (utf16 "party", utf16 "celebration", utf16 "🎪"),
   (utf16 "wellness", utf16 "mindfulness", utf16 "🧘‍♀️"),
   (utf16 "automotive", utf16 "transport", utf16 "🚗"),
   (utf16 "architecture", utf16 "design", utf16 "🏢"),
   (utf16 "social media", utf16 "viral", utf16 "📱"),
   (utf16 "movie", utf16 "tv", utf16 "🎬"),
   (utf16 "sports", utf16 "athletics", utf16 "🏈"),
   (utf16 "aviation", utf16 "flight", utf16 "✈️"),
   (utf16 "marine", utf16 "ocean", utf16 "🚢"),
   (utf16 "mountain", utf16 "hiking", utf16 "🏔️"),
   (utf16 "beach", utf16 "summer", utf16 "🏖️"),
   (utf16 "winter", utf16 "snow", utf16 "❄️"),
   (utf16 "autumn", utf16 "fall", utf16 "🍂"),
   (utf16 "spring", utf16 "bloom", utf16 "🌸"),
   (utf16 "holiday", utf16 "christmas", utf16 "🎄"),
   (utf16 "cozy", utf16 "warm", utf16 "🕯️"),
   (utf16 "mystical", utf16 "magical", utf16 "✨"),
   (utf16 "vintage", utf16 "retro", utf16 "📷"),
   (utf16 "modern", utf16 "futuristic", utf16 "🚀"),
   (utf16 "minimalist", utf16 "simple", utf16 "⚪"),
   (utf16 "bold", utf16 "strong", utf16 "💪"),
   (utf16 "elegant", utf16 "sophisticated", utf16 "👑"),
   (utf16 "casual", utf16 "relaxed", utf16 "😊"),
   (utf16 "formal", utf16 "professional", utf16 "🎯"),
   (utf16 "energetic", utf16 "dynamic", utf16 "⚡"),
   (utf16 "calm", utf16 "peaceful", utf16 "🧘‍♀️"),
   (utf16 "inspirational", utf16 "motivational", utf16 "💡"),
   (utf16 "special", utf16 "unique", utf16 "🌟"),
   (utf16 "themed", utf16 "costume", utf16 "🎭")
  ]

/-- The method `getMoodEmoji(mood)`. The host function
`String.prototype.toLowerCase` is a parameter. -/
def getMoodEmoji (toLowerCase : Str → Str) (mood : Str) : Str :=
  let moodLower := toLowerCase mood
  match moodTable.find? fun e => includes moodLower e.1 || includes moodLower e.2.1 with
  | some e => e.2.2
  | none => utf16 "✨"

/-- The value `mood.replace(/[^a-zA-Z\s]/g, '').trim()`. -/
def moodNameOf (mood : Str) : Str :=
  trim (mood.filter fun c => isLetter c || isWhiteSpace c)

/-- The value `moodName.replace(/\s+/g, '')`. -/
def hashtagOf (moodName : Str) : Str :=
  moodName.filter fun c => !isWhiteSpace c

/-- The method `generateEnhancedTemplates(mood, username)`. -/
def generateEnhancedTemplates (toLowerCase : Str → Str) (mood username : Str) : List Str :=
  let moodEmoji := getMoodEmoji toLowerCase mood
  let moodName := moodNameOf mood
  [ utf16 "📸 " ++ moodEmoji ++ utf16 " The way this " ++ moodName ++
      utf16 " scene unfolds is pure visual poetry. Every element, from the lighting to the composition, tells its own story. #" ++
      hashtagOf moodName ++ utf16 " #VisualPoetry #Storytelling #" ++ username,
    utf16 "💫 " ++ moodEmoji ++ utf16 " There\x27s something about " ++ moodName ++
      utf16 " that hits you right in the feels. This moment captures that energy perfectly. #" ++
      hashtagOf moodName ++ utf16 " #Feels #Moment #" ++ username,
    utf16 "🚀 " ++ moodEmoji ++ utf16 " This is what living the " ++ moodName ++
      utf16 " dream looks like. No filters, no faking - just pure authentic vibes. #" ++
      hashtagOf moodName ++ utf16 " #DreamLife #Authentic #" ++ username ]

/-- The method `generateFallbackCaptions(mood, username)`. -/
def generateFallbackCaptions (toLowerCase : Str → Str) (mood username : Str) : List Str :=
  let moodEmoji := getMoodEmoji toLowerCase mood
  let moodName := moodNameOf mood
  [ utf16 "Amazing " ++ moodEmoji ++ utf16 " " ++ moodName ++ utf16 " vibes! ✨ #" ++
      hashtagOf moodName ++ utf16 " #Vibes #Mood #" ++ username,
    utf16 "This is giving me major " ++ moodEmoji ++ utf16 " " ++ moodName ++
      utf16 " energy! 🔥 #" ++ hashtagOf moodName ++ utf16 " #Energy #Goals #" ++ username,
    utf16 "Living that " ++ moodEmoji ++ utf16 " " ++ moodName ++ utf16 " life! 💫 #" ++
      hashtagOf moodName ++ utf16 " #Lifestyle #Mood #" ++ username ]

/-- The fields of a `CaptionGenerator` instance. The client `genAI` is
identified by the key it was constructed with. `modelCalls` is not a field of
the source: it counts the calls of `model.generateContent` made so far. -/
structure GenState where
  geminiKey : Option Str
  initialized : Bool
  genAI : Option Str
  currentKeyIndex : Nat
  modelCalls : Nat
  deriving DecidableEq, Repr

/-- The state set up by the constructor. -/
def GenState.new : GenState :=
  { geminiKey := none, initialized := false, genAI := none, currentKeyIndex := 0,
    modelCalls := 0 }

/-- The value of `process.env.GEMINI_KEYS || process.env.DISCORD_GEMINI_KEYS`
when it is truthy, split at the commas, each key trimmed; `none` when the value
is undefined or the empty string. -/
def keyArrayOf (geminiKeys : Option Str) : Option (List Str) :=
  match geminiKeys with
  | some (c :: cs) => some ((splitOnChar comma (c :: cs)).map trim)
  | _ => none

/-- The method `initialize()`; `none` stands for the thrown
error `No Gemini API keys configured`. -/
def initializeKeys (geminiKeys : Option Str) (st : GenState) : Option GenState :=
  if st.initialized then some st
  else
    match keyArrayOf geminiKeys with
    | none => none
    | some keyArray =>
      let key := keyArray.getD (st.currentKeyIndex % keyArray.length) []
      some { st with geminiKey := some key, genAI := some key, initialized := true }

/-- The method `rotateKey()`. -/
def rotateKey (geminiKeys : Option Str) (st : GenState) : GenState :=
  match keyArrayOf geminiKeys with
  | none => st
  | some keyArray =>
    let idx := (st.currentKeyIndex + 1) % keyArray.length
    let key := keyArray.getD idx []
    { st with currentKeyIndex := idx, geminiKey := some key, genAI := some key }

/-- The world outside the generator. `download url` tells whether
`downloadImage(url)` returns (it throws otherwise); `infer n key` is the outcome
of the `n`-th call (counted from 0) of `model.generateContent` on a client built
with `key`, followed by `response.text()`: the raw text, or `none` when either
throws. -/
structure Boundary where
  download : Str → Bool
  infer : Nat → Str → Option Str

/-- The method `generateWithRealImageAnalysis(imageUrl, mood, username)`. Its
whole body is inside a `try` whose `catch` returns the enhanced templates, so
every thrown error ends there. -/
def generateWithRealImageAnalysis (toLowerCase : Str → Str) (b : Boundary) (st : GenState)
    (imageUrl mood username : Str) : List Str × GenState :=
  match st.genAI with
  | none => (generateEnhancedTemplates toLowerCase mood username, st)
  | some key =>
    if b.download imageUrl then
      match b.infer st.modelCalls key with
      | none =>
        (generateEnhancedTemplates toLowerCase mood username,
          { st with modelCalls := st.modelCalls + 1 })
      | some text =>
        let captions := parseCaptionsFromResponse text
        if 3 ≤ captions.length then (captions, { st with modelCalls := st.modelCalls + 1 })
        else
          (generateEnhancedTemplates toLowerCase mood username,
            { st with modelCalls := st.modelCalls + 1 })
    else (generateEnhancedTemplates toLowerCase mood username, st)

/-- The method `generateCaptions(imageUrl, mood, username)`. In the `try`
block only `initialize()` can throw, since `generateWithRealImageAnalysis`
catches every error itself; the `catch` block rotates the key, retries and
falls back. -/
def generateCaptions (toLowerCase : Str → Str) (b : Boundary) (geminiKeys : Option Str)
    (st : GenState) (imageUrl mood username : Str) : List Str × GenState :=
  match initializeKeys geminiKeys st with
  | some st1 => generateWithRealImageAnalysis toLowerCase b st1 imageUrl mood username
  | none =>
    let st2 := rotateKey geminiKeys st
    let retry := generateWithRealImageAnalysis toLowerCase b st2 imageUrl mood username
    if 0 < retry.1.length then retry
    else (generateFallbackCaptions toLowerCase mood username, retry.2)

/-- A model boundary whose download succeeds and whose model always throws. -/
def throwingModel : Boundary := { download := fun _ => true, infer := fun _ _ => none }

/-- A model boundary whose download succeeds and whose model always answers
with the same text. -/
def modelSaying (text : Str) : Boundary :=
  { download := fun _ => true, infer := fun _ _ => some text }

/-- An environment with two configured keys. -/
def twoKeys : Option Str := some (utf16 "key-one,key-two")

/-- A lower-casing function for evaluation: it agrees with
`String.prototype.toLowerCase` on every string of ASCII characters. -/
def asciiLower (s : Str) : Str :=
  s.map fun c => if 65 ≤ c ∧ c ≤ 90 then c + 32 else c

end CaptionGenerator

namespace RateLimiter

/-- The fields of a `RateLimiter` instance that the quota methods read. -/
structure Limiter where
  defaultLimit : Int
  resetTime : Int
  whitelist : List Str
  deriving DecidableEq, Repr

/-- The state set up by the constructor. -/
def Limiter.new : Limiter :=
  { defaultLimit := 25
    resetTime := 24 * 60 * 60 * 1000
    whitelist := [utf16 "1411597717360214018", utf16 "1310471160072241172"] }

/-- The persistence boundary read by the limiter:
`CaptionModel.countDocuments` with a filter on `userId` and on `createdAt`
(`$gte` the first time, `$lt` the second); `none` stands for a query that throws. -/
structure Store where
  countDocuments : Str → Int → Int → Option Nat

/-- The time zone of the host, as `Date` reads it, in milliseconds:
`utcOffset t` is local time minus UTC at the instant `t` (the getters
`getFullYear`, `getMonth`, `getDate` read the fields of `t + utcOffset t`), and
`localOffset l` is the offset by which the constructor `new Date(y, m, d)` turns
the local time value `l` into an instant. The two differ around a change of the
offset (daylight saving time). -/
structure TimeZone where
  utcOffset : Int → Int
  localOffset : Int → Int

/-- A host whose local time is UTC plus a fixed offset `tz` (in milliseconds). -/
def fixedOffset (tz : Int) : TimeZone :=
  { utcOffset := fun _ => tz, localOffset := fun _ => tz }

/-- The value of `new Date(now.getFullYear(), now.getMonth(), now.getDate())`
in milliseconds: the instant of the host-local midnight that starts the local
calendar day of `now`. -/
def startOfDay (zone : TimeZone) (now : Int) : Int :=
  let localNow := now + zone.utcOffset now
  let localMidnight := localNow - localNow % 86400000
  localMidnight - zone.localOffset localMidnight

/-- The local calendar day of an instant, as a day number. -/
def calendarDay (zone : TimeZone) (t : Int) : Int := (t + zone.utcOffset t) / 86400000

/-- The zone `America/New_York` between its changes of 9 March 2025 and of
8 March 2026: four hours behind UTC until 2 November 2025, 06:00 UTC (02:00 local
time), five hours behind from then on; a local time value before 02:00 of
2 November is read four hours behind UTC. The local day 2 November 2025 lasts
25 hours, from 04:00 UTC to 05:00 UTC of 3 November. -/
def newYork : TimeZone :=
  { utcOffset := fun t => if t < 1762063200000 then -14400000 else -18000000
    localOffset := fun l => if l < 1762048800000 then -14400000 else -18000000 }

/-- The object returned by `canMakeRequest`; the property `whitelisted` is
absent from the object built in the `catch` block. -/
structure Check where
  allowed : Bool
  remaining : Int
  limit : Int
  resetTime : Int
  todayRequests : Nat
  whitelisted : Option Bool
  deriving DecidableEq, Repr

/-- The method `canMakeRequest(userId, limit)` at clock reading `now`. -/
def canMakeRequest (rl : Limiter) (store : Store) (zone : TimeZone) (now : Int) (userId : Str)
    (limit : Int) : Check :=
  if rl.whitelist.contains userId then
    { allowed := true, remaining := 999999, limit := 999999,
      resetTime := now + rl.resetTime, todayRequests := 0, whitelisted := some true }
  else
    let startOfDay := startOfDay zone now
    let endOfDay := startOfDay + rl.resetTime
    match store.countDocuments userId startOfDay endOfDay with
    | some todayRequests =>
      let remaining := max 0 (limit - (todayRequests : Int))
      { allowed := decide (remaining > 0), remaining := remaining, limit := limit,
        resetTime := startOfDay + rl.resetTime, todayRequests := todayRequests,
        whitelisted := some false }
    | none =>
      { allowed := true, remaining := limit, limit := limit,
        resetTime := now + rl.resetTime, todayRequests := 0, whitelisted := none }

/-- A store whose count query always throws. -/
def storeDown : Store := { countDocuments := fun _ _ _ => none }

/-- A store that reports 24 records for every user and window. -/
def store24 : Store := { countDocuments := fun _ _ _ => some 24 }

/-- A persisted caption record (schema of `src/server/models/Caption.js`, the
fields written by the routes). -/
structure Record where
  userId : Str
  imageUrl : Str
  imageName : Str
  mood : Str
  captions : List Str
  createdAt : Int
  deriving DecidableEq, Repr

/-- The collection of caption records. -/
abbrev Db := List Record

/-- The filter of the count query: the user's records created in `[gte, lt)`. -/
def inQuery (userId : Str) (gte lt : Int) (r : Record) : Bool :=
  r.userId == userId && decide (gte ≤ r.createdAt) && decide (r.createdAt < lt)

/-- The store backed by an explicit collection; its queries never throw. -/
def dbStore (db : Db) : Store :=
  { countDocuments := fun userId gte lt => some ((db.filter (inQuery userId gte lt)).length) }

/-- The result of `clearUserRecords` (the `message` string is left out). -/
structure ClearResult where
  userId : Str
  deletedCount : Nat
  deriving DecidableEq, Repr

/-- The method `clearUserRecords(userId)` over an explicit collection:
`CaptionModel.deleteMany` with a filter on `userId`. -/
def clearUserRecords (db : Db) (userId : Str) : ClearResult × Db :=
  ({ userId := userId, deletedCount := (db.filter fun r => r.userId == userId).length },
    db.filter fun r => !(r.userId == userId))

/-- The calendar day, in local time, of a time stamp, on a host at the fixed
offset `tz`. -/
def localDay (tz t : Int) : Int := (t + tz) / 86400000

/-- The method `addToWhitelist(userId)`, as the new value of the field. -/
def addToWhitelist (rl : Limiter) (userId : Str) : Limiter :=
  if rl.whitelist.contains userId then rl
  else { rl with whitelist := rl.whitelist ++ [userId] }

/-- The method `removeFromWhitelist(userId)`: `indexOf` and `splice(index, 1)`
remove the first occurrence. -/
def removeFromWhitelist (rl : Limiter) (userId : Str) : Limiter :=
  { rl with whitelist := rl.whitelist.erase userId }

/-- Round-half-even of the quotient `n / d`. -/
def roundHalfEven (n d : Nat) : Nat :=
  if 2 * (n % d) < d then n / d
  else if d < 2 * (n % d) then n / d + 1
  else if (n / d) % 2 = 0 then n / d else n / d + 1

/-- The number of halvings that bring `n` below 2, counted with fuel. -/
def log2Aux : Nat → Nat → Nat
  | 0, _ => 0
  | fuel + 1, n => if 2 ≤ n then log2Aux fuel (n / 2) + 1 else 0

/-- The integer `k` with `2 ^ k ≤ n < 2 ^ (k + 1)`, for positive `n`. -/
def log2 (n : Nat) : Nat := log2Aux n n

/-- The integer `e` with `2 ^ e ≤ a / b < 2 ^ (e + 1)`, for positive `a`, `b`. -/
def floorLog2 (a b : Nat) : Int :=
  if log2 b ≤ log2 a then
    (if b * 2 ^ (log2 a - log2 b) ≤ a then ((log2 a - log2 b : Nat) : Int)
     else ((log2 a - log2 b : Nat) : Int) - 1)
  else
    (if b ≤ a * 2 ^ (log2 b - log2 a) then -((log2 b - log2 a : Nat) : Int)
     else -((log2 b - log2 a : Nat) : Int) - 1)

/-- The IEEE-754 binary64 number nearest to the positive rational `a / b`
(round to nearest, ties to even; normal range), as a numerator and a
denominator: the quotient is scaled into `[2 ^ 52, 2 ^ 53)`, rounded to an
integer and scaled back. -/
def toDouble (a b : Nat) : Nat × Nat :=
  if 0 ≤ 52 - floorLog2 a b then
    (roundHalfEven (a * 2 ^ (52 - floorLog2 a b).toNat) b, 2 ^ (52 - floorLog2 a b).toNat)
  else
    (roundHalfEven a (b * 2 ^ (floorLog2 a b - 52).toNat) * 2 ^ (floorLog2 a b - 52).toNat, 1)

/-- The value `Math.round((used / limit) * 100)` in double arithmetic, for
integers below `2 ^ 53` in magnitude: the quotient is rounded to a double, so is
its product with 100, and `Math.round` is the floor of the value plus one half.
`none` stands for the `NaN` or `Infinity` that a zero limit produces. -/
def percentageUsed (used : Nat) (limit : Int) : Option Int :=
  if limit = 0 then none
  else if used = 0 then some 0
  else
    let x := toDouble used limit.natAbs
    let y := toDouble (x.1 * 100) x.2
    some ((2 * (limit.sign * (y.1 : Int)) + (y.2 : Int)) / (2 * (y.2 : Int)))

/-- The object returned by `getUserStatus`; `whitelisted` is absent from the
object built in the `catch` block. -/
structure Status where
  userId : Str
  used : Nat
  remaining : Int
  limit : Int
  resetTime : Int
  percentageUsed : Option Int
  isLimited : Bool
  whitelisted : Option Bool
  deriving DecidableEq, Repr

/-- The method `getUserStatus(userId, limit)` at clock reading `now`. -/
def getUserStatus (rl : Limiter) (store : Store) (zone : TimeZone) (now : Int) (userId : Str)
    (limit : Int) : Status :=
  if rl.whitelist.contains userId then
    { userId := userId, used := 0, remaining := 999999, limit := 999999,
      resetTime := now + rl.resetTime, percentageUsed := some 0, isLimited := false,
      whitelisted := some true }
  else
    let startOfDay := startOfDay zone now
    let endOfDay := startOfDay + rl.resetTime
    match store.countDocuments userId startOfDay endOfDay with
    | some todayRequests =>
      let remaining := max 0 (limit - (todayRequests : Int))
      { userId := userId, used := todayRequests, remaining := remaining, limit := limit,
        resetTime := startOfDay + rl.resetTime,
        percentageUsed := percentageUsed todayRequests limit,
        isLimited := decide (remaining = 0), whitelisted := some false }
    | none =>
      { userId := userId, used := 0, remaining := limit, limit := limit,
        resetTime := now + rl.resetTime, percentageUsed := some 0, isLimited := false,
        whitelisted := none }

/-- The method `resetUserLimit(userId)` over an explicit collection: the
status returned, and the limiter and the collection after the call. -/
def resetUserLimit (rl : Limiter) (db : Db) (zone : TimeZone) (now : Int) (userId : Str) :
    Status × Limiter × Db :=
  if rl.whitelist.contains userId then
    ({ userId := userId, used := 0, remaining := 999999, limit := 999999,
       resetTime := now + rl.resetTime, percentageUsed := some 0, isLimited := false,
       whitelisted := some true }, rl, db)
  else (getUserStatus rl (dbStore db) zone now userId rl.defaultLimit, rl, db)

/-- Two records of `user42` and one of another user. -/
def sampleDb : Db :=
  [ Record.mk (utf16 "user42") (utf16 "u1") (utf16 "a.png") (utf16 "fun") [] 1000,
    Record.mk (utf16 "other") (utf16 "u2") (utf16 "b.png") (utf16 "fun") [] 2000,
    Record.mk (utf16 "user42") (utf16 "u3") (utf16 "c.png") (utf16 "fun") [] 3000 ]

/-- A store that reports `n` records for every user and window. -/
def storeReporting (n : Nat) : Store := { countDocuments := fun _ _ _ => some n }

end RateLimiter

namespace Routes

open CaptionGenerator RateLimiter

/-- The state behind `src/server/routes/captions.js`: the module-level
caption generator and the collection of records. -/
structure Server where
  gen : GenState
  db : Db

/-- A `POST /generate` request: the fields of the body (an absent field is
the empty string, which is falsy as well), the address `req.ip`, the clock
reading at the quota check and the later one taken by `createdAt: new Date()`. -/
structure GenerateRequest where
  imageUrl : Str
  mood : Str
  userId : Str
  imageName : Str
  ip : Str
  now : Int
  savedAt : Int

/-- The answers of `POST /generate`. -/
inductive Response where
  | badRequest
  | rateLimited (remaining : Int) (resetTime : Int)
  | serverError
  | ok (captions : List Str) (remaining : Int)
  deriving DecidableEq, Repr

/-- The value `a || b` for two strings. -/
def orElseStr (a b : Str) : Str := if a = [] then b else a

/-- The handler of `POST /generate` (lines 12-76) over a store that never
fails. `CaptionModel.create` rejects a record whose required `userId` is empty;
the handler then answers 500 from its `catch` block and nothing is saved. -/
def postGenerate (toLowerCase : Str → Str) (b : Boundary) (geminiKeys : Option Str)
    (rl : Limiter) (zone : TimeZone) (sv : Server) (req : GenerateRequest) : Response × Server :=
  if req.imageUrl = [] ∨ req.mood = [] then (Response.badRequest, sv)
  else
    let rateLimitCheck :=
      canMakeRequest rl (dbStore sv.db) zone req.now (orElseStr req.userId req.ip) 25
    if rateLimitCheck.allowed = false then
      (Response.rateLimited rateLimitCheck.remaining rateLimitCheck.resetTime, sv)
    else
      let out := generateCaptions toLowerCase b geminiKeys sv.gen req.imageUrl req.mood
        (orElseStr req.userId (utf16 "anonymous"))
      if out.1 = [] then (Response.serverError, { sv with gen := out.2 })
      else if orElseStr req.userId req.ip = [] then
        (Response.serverError, { sv with gen := out.2 })
      else
        (Response.ok out.1 rateLimitCheck.remaining,
          { gen := out.2,
            db := sv.db ++ [Record.mk (orElseStr req.userId req.ip) req.imageUrl
              (orElseStr req.imageName (utf16 "uploaded_image")) req.mood out.1 req.savedAt] })

/-- A sequential run of requests: the server after the last one. -/
def run (toLowerCase : Str → Str) (b : Boundary) (geminiKeys : Option Str)
    (rl : Limiter) (zone : TimeZone) (sv : Server) (reqs : List GenerateRequest) : Server :=
  reqs.foldl (fun s req => (postGenerate toLowerCase b geminiKeys rl zone s req).2) sv

/-- The number of records of user `u` created in the day that starts at `s`. -/
def countToday (db : Db) (u : Str) (s : Int) : Nat :=
  (db.filter (inQuery u s (s + 86400000))).length

/-- A request of user `u` whose quota check reads the day that starts at `s`
and whose record is saved within the 24 hours that follow `s`. -/
def InDay (zone : TimeZone) (u : Str) (s : Int) (req : GenerateRequest) : Prop :=
  orElseStr req.userId req.ip = u ∧ startOfDay zone req.now = s ∧
    s ≤ req.savedAt ∧ req.savedAt < s + 86400000

instance (zone : TimeZone) (u : Str) (s : Int) (req : GenerateRequest) :
    Decidable (InDay zone u s req) := by
  unfold InDay
  infer_instance

/-- A request of `user42` at time 5000. -/
def sampleRequest : GenerateRequest :=
  { imageUrl := utf16 "http://img", mood := utf16 "fun", userId := utf16 "user42",
    imageName := utf16 "a.png", ip := utf16 "10.0.0.1", now := 5000, savedAt := 6000 }

/-- The answers of a sequential run of requests, in order. -/
def runResponses (toLowerCase : Str → Str) (b : Boundary) (geminiKeys : Option Str)
    (rl : Limiter) (zone : TimeZone) : Server → List GenerateRequest → List Response
  | _, [] => []
  | sv, req :: reqs =>
    (postGenerate toLowerCase b geminiKeys rl zone sv req).1 ::
      runResponses toLowerCase b geminiKeys rl zone
        (postGenerate toLowerCase b geminiKeys rl zone sv req).2 reqs

/-- The field `remaining` of a 200 answer. -/
def okRemaining : Response → Option Int
  | Response.ok _ remaining => some remaining
  | _ => none

/-- The number of records of user `u` created on the local calendar day `day`. -/
def countOnDay (zone : TimeZone) (db : Db) (u : Str) (day : Int) : Nat :=
  (db.filter fun r => r.userId == u && decide (calendarDay zone r.createdAt = day)).length

/-- A record of `user42` created on 2 November 2025 at 10:00 New York time
(15:00 UTC). -/
def morningRecord : Record :=
  Record.mk (utf16 "user42") (utf16 "http://img") (utf16 "a.png") (utf16 "fun") []
    1762095600000

/-- A server that holds 24 records of `user42`, all of that morning. -/
def longDayServer : Server := { gen := GenState.new, db := List.replicate 24 morningRecord }

/-- A request of `user42` whose quota check reads the clock at `now` and whose
record is created one second later. -/
def requestAt (now : Int) : GenerateRequest :=
  { imageUrl := utf16 "http://img", mood := utf16 "fun", userId := utf16 "user42",
    imageName := utf16 "a.png", ip := utf16 "10.0.0.1", now := now, savedAt := now + 1000 }

/-- Five requests of `user42` on 2 November 2025, one a minute from 23:30 New
York time (04:30 UTC of 3 November). -/
def lateRequests : List GenerateRequest :=
  [requestAt 1762144200000, requestAt 1762144260000, requestAt 1762144320000,
   requestAt 1762144380000, requestAt 1762144440000]

end Routes

namespace CaptionGenerator

open JS Rx

/-- The words of the sliding-window tier (lines 423-424): the section without
code fences and square brackets, split at the runs of white space. -/
def windowWords (sec : Str) : List Str :=
  splitWs ((removeAll fence 0 sec).filter fun c => c != lbrack && c != rbrack)

/-- Following the words of the specification of the line tier: for a line
that, once trimmed, begins with a number and a dot or with a bullet marker
(`-` or `•`), the text after the marker, trimmed. -/
def markedText (line : Str) : Option Str :=
  if (trim line).takeWhile isDigit ≠ [] ∧
      ((trim line).dropWhile isDigit).head? = some 46 then
    some (trim (((trim line).dropWhile isDigit).drop 1))
  else if (trim line).head? = some dash ∨ (trim line).head? = some bullet then
    some (trim ((trim line).drop 1))
  else none

/-- The core moods of `GET /moods/available` (lines 183-209 of
`src/server/routes/captions.js`); in every entry `name` and `value` are the
same string. -/
def coreMoods : List Str :=
  [ utf16 "😜 Fun / Playful",
    utf16 "🎭 Creative / Artistic",
    utf16 "💼 Professional / Business",
    utf16 "❤️ Romantic / Emotional",
    utf16 "🤖 Tech / Modern",
    utf16 "🌍 Travel / Adventure",
    utf16 "🍔 Food / Lifestyle",
    utf16 "🎵 Music / Entertainment",
    utf16 "🏃‍♂️ Fitness / Health",
    utf16 "🎨 Fashion / Style",
    utf16 "🏠 Home / Interior",
    utf16 "🐾 Pet / Animal",
    utf16 "🌱 Nature / Environment",
    utf16 "🎮 Gaming / Entertainment",
    utf16 "📚 Education / Learning",
    utf16 "🎪 Party / Celebration",
    utf16 "🧘‍♀️ Wellness / Mindfulness",
    utf16 "🚗 Automotive / Transport",
    utf16 "🏢 Architecture / Design",
    utf16 "📱 Social Media / Viral",
    utf16 "🎬 Movie / TV Show",
    utf16 "🏈 Sports / Athletics",
    utf16 "✈️ Aviation / Flight",
    utf16 "🚢 Marine / Ocean",
    utf16 "🏔️ Mountain / Hiking" ]

/-- The seasonal moods of `GET /moods/available` (lines 211-234); in every
entry `name` and `value` are the same string. -/
def seasonalMoods : List Str :=
  [ utf16 "🏖️ Beach / Summer",
    utf16 "❄️ Winter / Snow",
    utf16 "🍂 Autumn / Fall",
    utf16 "🌸 Spring / Bloom",
    utf16 "🎄 Holiday / Christmas",
    utf16 "🎉 Celebration / Party",
    utf16 "🕯️ Cozy / Warm",
    utf16 "🗺️ Adventure / Explore",
    utf16 "✨ Mystical / Magical",
    utf16 "📷 Vintage / Retro",
    utf16 "🚀 Modern / Futuristic",
    utf16 "🎨 Artistic / Creative",
    utf16 "⚪ Minimalist / Simple",
    utf16 "💪 Bold / Strong",
    utf16 "👑 Elegant / Sophisticated",
    utf16 "😊 Casual / Relaxed",
    utf16 "🎯 Formal / Professional",
    utf16 "⚡ Energetic / Dynamic",
    utf16 "🧘‍♀️ Calm / Peaceful",
    utf16 "💡 Inspirational / Motivational",
    utf16 "🌟 Special / Unique",
    utf16 "🎭 Themed / Costume" ]

/-- The emoji that a mood name starts with: the text before the first space. -/
def nameEmoji (name : Str) : Str := name.takeWhile fun c => c != space

end CaptionGenerator

namespace RateLimiter

/-- The object returned by `getTimeUntilReset`. -/
structure TimeLeft where
  hours : Int
  minutes : Int
  seconds : Int
  deriving DecidableEq, Repr

/-- The method `getTimeUntilReset(resetTime)` at clock reading `now`, both in
integer milliseconds. -/
def getTimeUntilReset (resetTime now : Int) : TimeLeft :=
  if resetTime - now ≤ 0 then { hours := 0, minutes := 0, seconds := 0 }
  else
    { hours := (resetTime - now) / (1000 * 60 * 60),
      minutes := ((resetTime - now) % (1000 * 60 * 60)) / (1000 * 60),
      seconds := ((resetTime - now) % (1000 * 60)) / 1000 }

/-- A call that mutates the whitelist. -/
inductive WhitelistCall where
  | add (userId : Str)
  | remove (userId : Str)
  deriving DecidableEq, Repr

/-- The limiter after one call. -/
def applyCall (rl : Limiter) : WhitelistCall → Limiter
  | WhitelistCall.add userId => addToWhitelist rl userId
  | WhitelistCall.remove userId => removeFromWhitelist rl userId

/-- The limiter after a sequence of calls. -/
def applyCalls (rl : Limiter) (calls : List WhitelistCall) : Limiter :=
  calls.foldl applyCall rl

end RateLimiter

/-! ## Facts about the extractor -/

namespace CaptionGenerator

open JS Rx

theorem lengthOk_iff (c : Str) : lengthOk c = true ↔ 20 < c.length ∧ c.length < 200 := by
  simp [lengthOk]

theorem tierCodeBlock_mem (closed : Bool) (sec : Str) (r : List Str)
    (h : tierCodeBlock closed sec = some r) : r.length ≤ 3 ∧ ∀ c ∈ r, lengthOk c = true := by
  unfold tierCodeBlock at h
  split at h
  · simp at h
  · simp only at h
    split at h
    · injection h with h
      subst h
      refine ⟨List.length_take_le _ _, ?_⟩
      intro c hc
      exact (List.mem_filter.mp (List.mem_of_mem_take hc)).2
    · simp at h

theorem tierNumbered_mem (sec : Str) (r : List Str)
    (h : tierNumbered sec = some r) : r.length ≤ 3 ∧ ∀ c ∈ r, lengthOk c = true := by
  unfold tierNumbered at h
  simp only at h
  split at h
  · injection h with h
    subst h
    refine ⟨List.length_take_le _ _, ?_⟩
    intro c hc
    exact (List.mem_filter.mp (List.mem_of_mem_take hc)).2
  · simp at h

theorem tierQuoted_mem (sec : Str) (r : List Str)
    (h : tierQuoted sec = some r) : r.length ≤ 3 ∧ ∀ c ∈ r, lengthOk c = true := by
  unfold tierQuoted at h
  simp only at h
  split at h
  · injection h with h
    subst h
    refine ⟨List.length_take_le _ _, ?_⟩
    intro c hc
    exact (List.mem_filter.mp (List.mem_of_mem_take hc)).2
  · simp at h

theorem lineCaption_ok (line c : Str) (h : lineCaption line = some c) : lengthOk c = true := by
  unfold lineCaption at h
  simp only at h
  split at h
  · split at h
    · injection h with h; subst h; assumption
    · simp at h
  · split at h
    · split at h
      · injection h with h; subst h; assumption
      · simp at h
    · simp at h

theorem tierLines_mem (sec : Str) (r : List Str)
    (h : tierLines sec = some r) : r.length ≤ 3 ∧ ∀ c ∈ r, lengthOk c = true := by
  unfold tierLines at h
  simp only at h
  split at h
  · injection h with h
    subst h
    refine ⟨List.length_take_le _ _, ?_⟩
    intro c hc
    obtain ⟨line, _, hl⟩ := List.mem_filterMap.mp (List.mem_of_mem_take hc)
    exact lineCaption_ok line c hl
  · simp at h

theorem windowOk_lengthOk (c : Str) (h : windowOk c = true) : lengthOk c = true := by
  simp [windowOk] at h
  simp [lengthOk]
  omega

theorem tierWindow_mem (sec : Str) (r : List Str)
    (h : tierWindow sec = some r) : r.length ≤ 3 ∧ ∀ c ∈ r, lengthOk c = true := by
  unfold tierWindow at h
  simp only at h
  split at h
  · injection h with h
    subst h
    refine ⟨List.length_take_le _ _, ?_⟩
    intro c hc
    exact windowOk_lengthOk c
      (List.mem_filter.mp (List.mem_of_mem_take (List.mem_of_mem_take hc))).2
  · simp at h

/-- Every tier returns at most three strings, each longer than 20 and shorter
than 200 code units. -/
theorem parseFromSection_mem (sec : Str) :
    (parseFromSection sec).length ≤ 3 ∧ ∀ c ∈ parseFromSection sec, lengthOk c = true := by
  unfold parseFromSection
  split
  · exact tierCodeBlock_mem _ _ _ (by assumption)
  · split
    · exact tierCodeBlock_mem _ _ _ (by assumption)
    · split
      · exact tierNumbered_mem _ _ (by assumption)
      · split
        · exact tierQuoted_mem _ _ (by assumption)
        · split
          · exact tierLines_mem _ _ (by assumption)
          · split
            · exact tierWindow_mem _ _ (by assumption)
            · simp

theorem parseCaptionsFromResponse_mem (response : Str) :
    (parseCaptionsFromResponse response).length ≤ 3 ∧
      ∀ c ∈ parseCaptionsFromResponse response, lengthOk c = true := by
  unfold parseCaptionsFromResponse
  split
  · exact parseFromSection_mem _
  · split
    · exact parseFromSection_mem _
    · exact parseFromSection_mem _

theorem append_ne_nil_of_pos (a t : Str) (h : 0 < a.length) : a ++ t ≠ [] := by
  cases a with
  | nil => simp at h
  | cons x xs => simp

theorem generateEnhancedTemplates_shape (toLowerCase : Str → Str) (mood username : Str) :
    (generateEnhancedTemplates toLowerCase mood username).length = 3 ∧
      ∀ c ∈ generateEnhancedTemplates toLowerCase mood username, c ≠ [] := by
  refine ⟨rfl, ?_⟩
  intro c hc
  simp only [generateEnhancedTemplates, List.mem_cons, List.mem_singleton, List.not_mem_nil,
    or_false, List.append_assoc] at hc
  rcases hc with h | h | h <;> subst h
  · exact append_ne_nil_of_pos _ _ (by decide)
  · exact append_ne_nil_of_pos _ _ (by decide)
  · exact append_ne_nil_of_pos _ _ (by decide)

theorem generateWithRealImageAnalysis_shape (toLowerCase : Str → Str) (b : Boundary)
    (st : GenState) (imageUrl mood username : Str) :
    (generateWithRealImageAnalysis toLowerCase b st imageUrl mood username).1.length = 3 ∧
      ∀ c ∈ (generateWithRealImageAnalysis toLowerCase b st imageUrl mood username).1,
        c ≠ [] := by
  unfold generateWithRealImageAnalysis
  split
  · exact generateEnhancedTemplates_shape _ _ _
  · split
    · split
      · exact generateEnhancedTemplates_shape _ _ _
      · rename_i text _
        simp only
        split
        · rename_i h3
          have hm := parseCaptionsFromResponse_mem text
          refine ⟨by simp only; omega, ?_⟩
          intro c hc hnil
          have := (lengthOk_iff c).mp (hm.2 c hc)
          subst hnil
          simp at this
        · exact generateEnhancedTemplates_shape _ _ _
    · exact generateEnhancedTemplates_shape _ _ _

end CaptionGenerator


/-! ## Facts about the string primitives and the matchers -/

namespace JS

theorem isPrefixOf_iff (p s : Str) : p.isPrefixOf s = true ↔ p <+: s := by
  simp

theorem splitFirst_mem (sep : Str) : ∀ (s b a : Str), splitFirst sep s = some (b, a) →
    (∀ c ∈ b, c ∈ s) ∧ (∀ c ∈ a, c ∈ s) := by
  intro s
  induction s with
  | nil => intro b a h; simp [splitFirst] at h
  | cons x xs ih =>
    intro b a h
    unfold splitFirst at h
    split at h
    · injection h with h
      injection h with h1 h2
      subst h1
      subst h2
      refine ⟨by simp, ?_⟩
      intro c hc
      exact List.mem_of_mem_drop hc
    · cases hrec : splitFirst sep xs with
      | none => simp [hrec] at h
      | some p =>
        obtain ⟨b1, a1⟩ := p
        obtain ⟨ihb, iha⟩ := ih b1 a1 hrec
        simp [hrec] at h
        obtain ⟨h1, h2⟩ := h
        subst h1
        subst h2
        refine ⟨?_, ?_⟩
        · intro c hc
          rcases List.mem_cons.mp hc with h | h
          · simp [h]
          · exact List.mem_cons_of_mem _ (ihb c h)
        · intro c hc
          exact List.mem_cons_of_mem _ (iha c hc)

theorem splitSecond_mem (sep s x : Str) (h : splitSecond sep s = some x) :
    ∀ c ∈ x, c ∈ s := by
  unfold splitSecond at h
  cases h1 : splitFirst sep s with
  | none => simp [h1] at h
  | some p =>
    obtain ⟨b, a⟩ := p
    have ha := (splitFirst_mem sep s b a h1).2
    simp only [h1] at h
    cases h2 : splitFirst sep a with
    | none =>
      simp only [h2] at h
      injection h with h
      subst h
      exact ha
    | some p2 =>
      obtain ⟨b2, a2⟩ := p2
      simp only [h2] at h
      injection h with h
      subst h
      intro c hc
      exact ha c ((splitFirst_mem sep a _ _ h2).1 c hc)

theorem splitFirst_none (sep : Str) : ∀ s : Str, ¬ sep <:+: s → splitFirst sep s = none := by
  intro s
  induction s with
  | nil => intro _; rfl
  | cons x xs ih =>
    intro h
    unfold splitFirst
    have hp : sep.isPrefixOf (x :: xs) = false := by
      cases hq : sep.isPrefixOf (x :: xs) with
      | false => rfl
      | true => exact absurd ((isPrefixOf_iff _ _).mp hq).isInfix h
    have hx : ¬ sep <:+: xs := fun hi => h (hi.trans (List.suffix_cons x xs).isInfix)
    simp [hp, ih hx]

theorem splitFirst_append (sep rest : Str) (hsep : sep ≠ []) : ∀ pre : Str,
    ¬ sep <:+: pre ++ sep.dropLast → splitFirst sep (pre ++ (sep ++ rest)) = some (pre, rest) := by
  intro pre
  induction pre with
  | nil =>
    intro _
    cases sep with
    | nil => exact absurd rfl hsep
    | cons a as =>
      show splitFirst (a :: as) (a :: (as ++ rest)) = _
      unfold splitFirst
      have hp2 : (a :: as).isPrefixOf (a :: (as ++ rest)) = true := by simp
      rw [if_pos hp2]
      simp
  | cons x xs ih =>
    intro h
    have hx : ¬ sep <:+: xs ++ sep.dropLast := by
      intro hi
      apply h
      have : xs ++ sep.dropLast <:+ (x :: xs) ++ sep.dropLast := by
        simp
      exact hi.trans this.isInfix
    have hp : sep.isPrefixOf (x :: (xs ++ (sep ++ rest))) = false := by
      cases hq : sep.isPrefixOf (x :: (xs ++ (sep ++ rest))) with
      | false => rfl
      | true =>
        exfalso
        apply h
        have h1 : sep <+: x :: (xs ++ (sep ++ rest)) := (isPrefixOf_iff _ _).mp hq
        have h2 : x :: xs ++ sep.dropLast <+: x :: (xs ++ (sep ++ rest)) := by
          refine ⟨[sep.getLast hsep] ++ rest, ?_⟩
          have := List.dropLast_append_getLast hsep
          calc x :: xs ++ sep.dropLast ++ ([sep.getLast hsep] ++ rest)
              = x :: (xs ++ ((sep.dropLast ++ [sep.getLast hsep]) ++ rest)) := by simp
            _ = x :: (xs ++ (sep ++ rest)) := by rw [this]
        have h3 : sep.length ≤ (x :: xs ++ sep.dropLast).length := by
          simp
          omega
        exact (List.prefix_of_prefix_length_le h1 h2 h3).isInfix
    show splitFirst sep (x :: (xs ++ (sep ++ rest))) = _
    unfold splitFirst
    rw [if_neg (by simp [hp]), ih hx]
    rfl

theorem splitOnChar_of_not_mem (d : Nat) : ∀ s : Str, d ∉ s → splitOnChar d s = [s] := by
  intro s
  induction s with
  | nil => intro _; rfl
  | cons x xs ih =>
    intro h
    have hx : d ∉ xs := fun hm => h (List.mem_cons_of_mem _ hm)
    have hne : x ≠ d := fun he => h (by simp [he])
    simp [splitOnChar, ih hx, hne]

theorem splitWsAux_of_no_ws : ∀ (s : Str) (b : Bool), (∀ c ∈ s, isWhiteSpace c = false) →
    splitWsAux b s = [s] := by
  intro s
  induction s with
  | nil => intro _ _; rfl
  | cons x xs ih =>
    intro b h
    have hx : isWhiteSpace x = false := h x (by simp)
    have hxs : ∀ c ∈ xs, isWhiteSpace c = false := fun c hc => h c (List.mem_cons_of_mem _ hc)
    simp [splitWsAux, hx, ih false hxs]

theorem removeAll_mem (pat : Str) : ∀ (s : Str) (k : Nat) (c : Nat),
    c ∈ removeAll pat k s → c ∈ s := by
  intro s
  induction s with
  | nil => intro k c h; cases k <;> simp [removeAll] at h
  | cons x xs ih =>
    intro k c h
    cases k with
    | succ k =>
      simp only [removeAll] at h
      exact List.mem_cons_of_mem _ (ih _ _ h)
    | zero =>
      simp only [removeAll] at h
      split at h
      · exact List.mem_cons_of_mem _ (ih _ _ h)
      · rcases List.mem_cons.mp h with h | h
        · simp [h]
        · exact List.mem_cons_of_mem _ (ih _ _ h)

end JS

namespace Rx

theorem firstMatch_none {α : Type} (m : Str → Option α) : ∀ s : Str,
    (∀ t, t <:+ s → m t = none) → firstMatch m s = none := by
  intro s
  induction s with
  | nil => intro h; exact h [] (List.suffix_refl _)
  | cons x xs ih =>
    intro h
    unfold firstMatch
    rw [h (x :: xs) (List.suffix_refl _)]
    exact ih fun t ht => h t (ht.trans (List.suffix_cons x xs))

theorem firstMatch_some {α : Type} (m : Str → Option α) : ∀ (s : Str) (r : α),
    firstMatch m s = some r → ∃ t, t <:+ s ∧ m t = some r := by
  intro s
  induction s with
  | nil => intro r h; exact ⟨[], List.suffix_refl _, h⟩
  | cons x xs ih =>
    intro r h
    unfold firstMatch at h
    split at h
    · rename_i r2 h2
      injection h with h
      subst h
      exact ⟨x :: xs, List.suffix_refl _, h2⟩
    · obtain ⟨t, ht, hm⟩ := ih r h
      exact ⟨t, ht.trans (List.suffix_cons x xs), hm⟩

theorem firstMatch_cons_of_some {α : Type} (m : Str → Option α) (x : Nat) (xs : Str) (r : α)
    (h : m (x :: xs) = some r) : firstMatch m (x :: xs) = some r := by
  unfold firstMatch
  rw [h]

theorem matchAll_eq_nil (m : Matcher) : ∀ (s : Str) (k : Nat),
    (∀ t, t <:+ s → m t = none) → matchAll m k s = [] := by
  intro s
  induction s with
  | nil => intro k _; cases k <;> rfl
  | cons x xs ih =>
    intro k h
    have hxs : ∀ t, t <:+ xs → m t = none := fun t ht => h t (ht.trans (List.suffix_cons x xs))
    cases k with
    | succ k => simp only [matchAll]; exact ih k hxs
    | zero =>
      simp only [matchAll]
      rw [h (x :: xs) (List.suffix_refl _)]
      exact ih 0 hxs

theorem matchAll_skip (m : Matcher) (t : Str) : ∀ xs : Str,
    matchAll m xs.length (xs ++ t) = matchAll m 0 t := by
  intro xs
  induction xs with
  | nil => rfl
  | cons x xs ih => simp [matchAll, ih]

theorem matchAll_pass (m : Matcher) (t : Str) : ∀ xs : Str,
    (∀ u v, v ≠ [] → u ++ v = xs → m (v ++ t) = none) →
    matchAll m 0 (xs ++ t) = matchAll m 0 t := by
  intro xs
  induction xs with
  | nil => intro _; rfl
  | cons x xs ih =>
    intro h
    have h0 : m (x :: xs ++ t) = none := h [] (x :: xs) (by simp) rfl
    have hxs : ∀ u v, v ≠ [] → u ++ v = xs → m (v ++ t) = none := by
      intro u v hv huv
      exact h (x :: u) v hv (by simp [huv])
    show matchAll m 0 (x :: (xs ++ t)) = _
    simp only [matchAll]
    have h0b : m (x :: (xs ++ t)) = none := by simpa using h0
    rw [h0b]
    exact ih hxs

theorem matchAll_cons_of_some (m : Matcher) (x : Nat) (xs ys r t : Str)
    (h : m (x :: xs ++ t) = some (x :: ys, r)) (hl : ys.length = xs.length) :
    matchAll m 0 (x :: xs ++ t) = (x :: ys) :: matchAll m 0 t := by
  show matchAll m 0 (x :: (xs ++ t)) = _
  simp only [matchAll]
  have h2 : m (x :: (xs ++ t)) = some (x :: ys, r) := by simpa using h
  rw [h2]
  simp only [List.length_cons, Nat.add_sub_cancel, hl]
  rw [matchAll_skip]

end Rx

namespace Rx

theorem takeWhile_append_stop (f : Nat → Bool) (s : Str) (hs : ∀ c ∈ s.head?, f c = false) :
    ∀ xs : Str, (∀ c ∈ xs, f c = true) →
      (xs ++ s).takeWhile f = xs ∧ (xs ++ s).dropWhile f = s := by
  intro xs
  induction xs with
  | nil =>
    intro _
    cases s with
    | nil => simp
    | cons c cs =>
      have hc : f c = false := hs c (by simp)
      simp [List.takeWhile, List.dropWhile, hc]
  | cons x xs ih =>
    intro h
    have hx : f x = true := h x (by simp)
    have hxs : ∀ c ∈ xs, f c = true := fun c hc => h c (List.mem_cons_of_mem _ hc)
    obtain ⟨h1, h2⟩ := ih hxs
    simp [List.takeWhile, List.dropWhile, hx, h1, h2]

theorem lit_append (p s : Str) : lit p (p ++ s) = some (p, s) := by
  simp [lit]

theorem lit_sound (p : Str) : Sound (lit p) := by
  intro s t r h
  unfold lit at h
  split at h
  · rename_i hp
    injection h with h
    injection h with h1 h2
    subst h1
    subst h2
    have := List.prefix_iff_eq_append.mp ((JS.isPrefixOf_iff _ _).mp hp)
    exact this.symm
  · simp at h

theorem optLit_sound (p : Str) : Sound (optLit p) := by
  intro s t r h
  unfold optLit at h
  split at h
  · rename_i hp
    injection h with h
    injection h with h1 h2
    subst h1
    subst h2
    have := List.prefix_iff_eq_append.mp ((JS.isPrefixOf_iff _ _).mp hp)
    exact this.symm
  · injection h with h
    injection h with h1 h2
    subst h1
    subst h2
    rfl

theorem many_sound (f : Nat → Bool) : Sound (many f) := by
  intro s t r h
  unfold many at h
  injection h with h
  injection h with h1 h2
  subst h1
  subst h2
  exact (List.takeWhile_append_dropWhile f s).symm

theorem many1_sound (f : Nat → Bool) : Sound (many1 f) := by
  intro s t r h
  unfold many1 at h
  split at h
  · simp at h
  · injection h with h
    injection h with h1 h2
    subst h1
    subst h2
    exact (List.takeWhile_append_dropWhile f s).symm

theorem seq_sound (a b : Matcher) (ha : Sound a) (hb : Sound b) : Sound (seq a b) := by
  intro s t r h
  unfold seq at h
  cases h1 : a s with
  | none => simp [h1] at h
  | some p1 =>
    obtain ⟨m1, r1⟩ := p1
    simp only [h1] at h
    cases h2 : b r1 with
    | none => simp [h2] at h
    | some p2 =>
      obtain ⟨m2, r2⟩ := p2
      simp only [h2] at h
      injection h with h
      injection h with h3 h4
      subst h3
      subst h4
      rw [ha s m1 r1 h1, hb r1 m2 r2 h2, List.append_assoc]

theorem seqAll_sound : ∀ ms : List Matcher, (∀ m ∈ ms, Sound m) → Sound (seqAll ms) := by
  intro ms
  induction ms with
  | nil =>
    intro _ s t r h
    simp [seqAll] at h
    obtain ⟨h1, h2⟩ := h
    subst h1
    subst h2
    rfl
  | cons m ms ih =>
    intro h
    exact seq_sound m (seqAll ms) (h m (by simp))
      (ih fun m2 hm2 => h m2 (List.mem_cons_of_mem _ hm2))

theorem lit_needs (ch : Nat) (p : Str) (h : ch ∈ p) : Needs ch (lit p) := by
  intro s hs
  unfold lit
  split
  · rename_i hp
    exact absurd (((JS.isPrefixOf_iff _ _).mp hp).subset h) hs
  · rfl

theorem seq_needs_left (ch : Nat) (a b : Matcher) (ha : Needs ch a) : Needs ch (seq a b) := by
  intro s hs
  unfold seq
  rw [ha s hs]

theorem seq_needs_right (ch : Nat) (a b : Matcher) (ha : Sound a) (hb : Needs ch b) :
    Needs ch (seq a b) := by
  intro s hs
  unfold seq
  cases h1 : a s with
  | none => rfl
  | some p1 =>
    obtain ⟨m1, r1⟩ := p1
    have hr : ch ∉ r1 := by
      intro hc
      apply hs
      rw [ha s m1 r1 h1]
      exact List.mem_append_right _ hc
    simp only [hb r1 hr]

theorem seq_lit_cons_ne (c d : Nat) (cs : Str) (b : Matcher) (h : c ≠ d) :
    seq (lit [d]) b (c :: cs) = none := by
  have : lit [d] (c :: cs) = none := by
    simp [lit, List.isPrefixOf, h.symm]
  simp [seq, this]

theorem seq_lit_nil (d : Nat) (b : Matcher) : seq (lit [d]) b [] = none := by
  simp [seq, lit, List.isPrefixOf]

end Rx

namespace CaptionGenerator

open JS Rx

theorem quotedRx_cons_ne (c : Nat) (cs : Str) (h : c ≠ quote) : quotedRx (c :: cs) = none := by
  unfold quotedRx
  simp only [seqAll]
  exact seq_lit_cons_ne c quote cs _ h

theorem quotedRx_nil : quotedRx [] = none := by
  unfold quotedRx
  simp only [seqAll]
  exact seq_lit_nil quote _

theorem notQuote_of_not_mem (x : Str) (h : quote ∉ x) : ∀ c ∈ x, notQuote c = true := by
  intro c hc
  have : c ≠ quote := fun he => h (he ▸ hc)
  simp [notQuote, this]

theorem quotedRx_quoted (x t : Str) (hq : quote ∉ x) (h1 : 20 ≤ x.length)
    (h2 : x.length ≤ 200) : quotedRx (quoted x ++ t) = some (quoted x, t) := by
  have hstop : ∀ c ∈ (quote :: t).head?, notQuote c = false := by
    intro c hc
    simp at hc
    subst hc
    simp [notQuote]
  obtain ⟨htw, _⟩ := takeWhile_append_stop notQuote (quote :: t) hstop x (notQuote_of_not_mem x hq)
  have hr : repeatRange notQuote 20 200 (x ++ quote :: t) = some (x, quote :: t) := by
    unfold repeatRange
    rw [htw, List.take_of_length_le h2]
    simp [h1]
  have hl : lit [quote] (quote :: (x ++ quote :: t)) = some ([quote], x ++ quote :: t) :=
    lit_append [quote] _
  have hl2 : lit [quote] (quote :: t) = some ([quote], t) := lit_append [quote] t
  show seq (lit [quote]) (seq (repeatRange notQuote 20 200) (seq (lit [quote]) (seqAll [])))
    (quoted x ++ t) = _
  have hin : quoted x ++ t = quote :: (x ++ quote :: t) := by simp [quoted]
  rw [hin]
  simp [seq, hl, hr, hl2, seqAll, quoted]

theorem matchAll_quoted_nil (s : Str) (k : Nat) (h : quote ∉ s) :
    matchAll quotedRx k s = [] := by
  apply matchAll_eq_nil
  intro t ht
  cases t with
  | nil => exact quotedRx_nil
  | cons c cs =>
    apply quotedRx_cons_ne
    intro he
    exact h (ht.subset (by simp [he]))

theorem matchAll_quoted_step (g x t : Str) (hg : quote ∉ g) (hq : quote ∉ x)
    (h1 : 20 ≤ x.length) (h2 : x.length ≤ 200) :
    matchAll quotedRx 0 (g ++ (quoted x ++ t)) = quoted x :: matchAll quotedRx 0 t := by
  rw [matchAll_pass quotedRx (quoted x ++ t) g]
  · have h := quotedRx_quoted x t hq h1 h2
    have hm := matchAll_cons_of_some quotedRx quote (x ++ [quote]) (x ++ [quote]) t t
      (by simpa [quoted] using h) rfl
    simpa [quoted] using hm
  · intro u v hv huv
    cases v with
    | nil => exact absurd rfl hv
    | cons c cs =>
      apply quotedRx_cons_ne
      intro he
      apply hg
      rw [← huv]
      exact List.mem_append_right _ (by simp [he])

theorem removeQuotes_quoted (x : Str) (hq : quote ∉ x) : removeQuotes (quoted x) = x := by
  have h := notQuote_of_not_mem x hq
  show List.filter notQuote ((quote :: x) ++ [quote]) = x
  rw [List.filter_append, List.filter_cons_of_neg (by simp [notQuote]),
    List.filter_eq_self.mpr h]
  simp [notQuote]

theorem numberedRx_needs_lbrack : Needs lbrack numberedRx :=
  seq_needs_left lbrack _ _ (lit_needs lbrack [lbrack] (by simp))

theorem numberedRx_needs_quote : Needs quote numberedRx := by
  unfold numberedRx
  simp only [seqAll]
  apply seq_needs_right _ _ _ (lit_sound _)
  apply seq_needs_right _ _ _ (many1_sound _)
  apply seq_needs_right _ _ _ (lit_sound _)
  apply seq_needs_right _ _ _ (many_sound _)
  apply seq_needs_right _ _ _ (lit_sound _)
  apply seq_needs_right _ _ _ (many1_sound _)
  apply seq_needs_right _ _ _ (lit_sound _)
  apply seq_needs_right _ _ _ (many_sound _)
  exact seq_needs_left quote _ _ (lit_needs quote [quote] (by simp))

theorem matchAll_of_needs (m : Matcher) (ch : Nat) (hm : Needs ch m) (s : Str) (k : Nat)
    (h : ch ∉ s) : matchAll m k s = [] := by
  apply matchAll_eq_nil
  intro t ht
  exact hm t fun hc => h (ht.subset hc)

theorem tierNumbered_none_of_needs (ch : Nat) (hm : Needs ch numberedRx) (sec : Str)
    (h : ch ∉ sec) : tierNumbered sec = none := by
  simp [tierNumbered, matchAll_of_needs numberedRx ch hm sec 0 h]

theorem codeBlockOpen_sound : Sound codeBlockOpen := by
  apply seqAll_sound
  intro m hm
  simp only [List.mem_cons, List.mem_singleton, List.not_mem_nil, or_false] at hm
  rcases hm with h | h | h | h <;> subst h
  · exact lit_sound _
  · exact optLit_sound _
  · exact many_sound _
  · exact lit_sound _

theorem codeBlockOpen_needs_lbrack : Needs lbrack codeBlockOpen := by
  unfold codeBlockOpen
  simp only [seqAll]
  apply seq_needs_right _ _ _ (lit_sound _)
  apply seq_needs_right _ _ _ (optLit_sound _)
  apply seq_needs_right _ _ _ (many_sound _)
  exact seq_needs_left lbrack _ _ (lit_needs lbrack [lbrack] (by simp))

theorem matchCodeBlock_none_of_no_lbrack (closed : Bool) (t : Str) (h : lbrack ∉ t) :
    matchCodeBlock closed t = none := by
  simp [matchCodeBlock, codeBlockOpen_needs_lbrack t h]

theorem matchCodeBlock_subset (closed : Bool) (t g : Str)
    (h : matchCodeBlock closed t = some g) : ∀ c ∈ g, c ∈ t := by
  unfold matchCodeBlock at h
  cases h1 : codeBlockOpen t with
  | none => simp [h1] at h
  | some p1 =>
    obtain ⟨m1, r1⟩ := p1
    simp only [h1] at h
    cases h2 : many1 notRBrack r1 with
    | none => simp [h2] at h
    | some p2 =>
      obtain ⟨g2, r2⟩ := p2
      simp only [h2] at h
      have hg : g = g2 := by
        split at h
        · split at h
          · injection h with h; exact h.symm
          · simp at h
        · injection h with h; exact h.symm
      subst hg
      intro c hc
      rw [codeBlockOpen_sound t m1 r1 h1, many1_sound notRBrack r1 g r2 h2]
      exact List.mem_append_right _ (List.mem_append_left _ hc)

theorem matchCodeBlock_closed_none (t : Str) (h : rbrack ∉ t) :
    matchCodeBlock true t = none := by
  unfold matchCodeBlock
  cases h1 : codeBlockOpen t with
  | none => rfl
  | some p1 =>
    obtain ⟨m1, r1⟩ := p1
    simp only
    cases h2 : many1 notRBrack r1 with
    | none => rfl
    | some p2 =>
      obtain ⟨g2, r2⟩ := p2
      simp only
      have hr2 : rbrack ∉ r2 := by
        intro hc
        apply h
        rw [codeBlockOpen_sound t m1 r1 h1, many1_sound notRBrack r1 g2 r2 h2]
        exact List.mem_append_right _ (List.mem_append_right _ hc)
      have : lit (rbrack :: fence) r2 = none :=
        lit_needs rbrack (rbrack :: fence) (by simp) r2 hr2
      simp [this]

theorem tierCodeBlock_none_of_no_lbrack (closed : Bool) (sec : Str) (h : lbrack ∉ sec) :
    tierCodeBlock closed sec = none := by
  unfold tierCodeBlock
  rw [firstMatch_none (matchCodeBlock closed) sec
    (fun t ht => matchCodeBlock_none_of_no_lbrack closed t fun hc => h (ht.subset hc))]

theorem tierCodeBlock_closed_none (sec : Str) (h : rbrack ∉ sec) :
    tierCodeBlock true sec = none := by
  unfold tierCodeBlock
  rw [firstMatch_none (matchCodeBlock true) sec
    (fun t ht => matchCodeBlock_closed_none t fun hc => h (ht.subset hc))]

theorem tierCodeBlock_none_of_no_quote (closed : Bool) (sec : Str) (h : quote ∉ sec) :
    tierCodeBlock closed sec = none := by
  unfold tierCodeBlock
  cases h1 : firstMatch (matchCodeBlock closed) sec with
  | none => rfl
  | some g =>
    obtain ⟨t, ht, hm⟩ := firstMatch_some _ _ _ h1
    have hg : quote ∉ g := fun hc => h (ht.subset (matchCodeBlock_subset closed t g hm _ hc))
    simp [matchAll_quoted_nil g 0 hg]

theorem tierQuoted_none_of_no_quote (sec : Str) (h : quote ∉ sec) : tierQuoted sec = none := by
  simp [tierQuoted, matchAll_quoted_nil sec 0 h]

end CaptionGenerator

namespace CaptionGenerator

open JS Rx

theorem tierLines_none_of_no_newline (sec : Str) (h : newline ∉ sec) : tierLines sec = none := by
  unfold tierLines
  simp only [splitOnChar_of_not_mem newline sec h]
  have h1 : (List.filterMap lineCaption
      (List.filter (fun line => !(trim line).isEmpty) [sec])).length ≤ 1 := by
    calc _ ≤ (List.filter (fun line => !(trim line).isEmpty) [sec]).length :=
          List.length_filterMap_le _ _
      _ ≤ [sec].length := List.length_filter_le _ _
      _ = 1 := rfl
  rw [if_neg (by omega)]

theorem tierWindow_none_of_no_ws (sec : Str) (h : ∀ c ∈ sec, isWhiteSpace c = false) :
    tierWindow sec = none := by
  unfold tierWindow
  have hall : ∀ c ∈ (removeAll fence 0 sec).filter (fun c => c != lbrack && c != rbrack),
      isWhiteSpace c = false := by
    intro c hc
    exact h c (removeAll_mem fence sec 0 c (List.mem_filter.mp hc).1)
  simp [splitWs, splitWsAux_of_no_ws _ false hall]

/-- A text without white space and without double quotes yields no caption. -/
theorem parseFromSection_plain (sec : Str) (hws : ∀ c ∈ sec, isWhiteSpace c = false)
    (hq : quote ∉ sec) : parseFromSection sec = [] := by
  have hn : newline ∉ sec := by
    intro hc
    have := hws newline hc
    simp [isWhiteSpace, newline] at this
  simp [parseFromSection, tierCodeBlock_none_of_no_quote _ sec hq,
    tierNumbered_none_of_needs quote numberedRx_needs_quote sec hq,
    tierQuoted_none_of_no_quote sec hq, tierLines_none_of_no_newline sec hn,
    tierWindow_none_of_no_ws sec hws]

theorem sectionAfter_mem (marker response x : Str) (h : sectionAfter marker response = some x) :
    ∀ c ∈ x, c ∈ response := by
  unfold sectionAfter at h
  split at h
  · rename_i c cs h1
    injection h with h
    subst h
    exact splitSecond_mem marker response _ h1
  · simp at h

theorem parseCaptionsFromResponse_plain (response : Str)
    (hws : ∀ c ∈ response, isWhiteSpace c = false) (hq : quote ∉ response) :
    parseCaptionsFromResponse response = [] := by
  have hsub : ∀ marker x, sectionAfter marker response = some x → parseFromSection x = [] := by
    intro marker x hx
    have hm := sectionAfter_mem marker response x hx
    exact parseFromSection_plain x (fun c hc => hws c (hm c hc)) (fun hc => hq (hm _ hc))
  unfold parseCaptionsFromResponse
  split
  · rename_i x hx
    exact hsub _ x hx
  · split
    · rename_i x hx
      obtain ⟨marker, _, hmk⟩ := List.exists_of_findSome?_eq_some hx
      exact hsub marker x hmk
    · exact parseFromSection_plain response hws hq

end CaptionGenerator

namespace CaptionGenerator

open JS Rx

theorem fence_eq : fence = [96, 96, 96] := by decide

theorem json_eq : utf16 "json" = [106, 115, 111, 110] := by decide

theorem trim_length_le (s : Str) : (trim s).length ≤ s.length := by
  unfold trim
  rw [List.length_reverse]
  calc ((s.dropWhile isWhiteSpace).reverse.dropWhile isWhiteSpace).length
      ≤ (s.dropWhile isWhiteSpace).reverse.length := (List.dropWhile_sublist _).length_le
    _ = (s.dropWhile isWhiteSpace).length := List.length_reverse _
    _ ≤ s.length := (List.dropWhile_sublist _).length_le

theorem take_three_of_ok (p : Str → Bool) (a b c : Str) (more : List Str)
    (ha : p a = true) (hb : p b = true) (hc : p c = true) :
    ((a :: b :: c :: more).filter p).take 3 = [a, b, c] := by
  simp [List.filter_cons, ha, hb, hc]

theorem matchAll_quoted_three (g0 s1 g1 s2 g2 s3 rest : Str)
    (hg0 : quote ∉ g0) (hg1 : quote ∉ g1) (hg2 : quote ∉ g2)
    (hs1 : quote ∉ s1) (hs2 : quote ∉ s2) (hs3 : quote ∉ s3)
    (h1 : 20 ≤ s1.length ∧ s1.length ≤ 200) (h2 : 20 ≤ s2.length ∧ s2.length ≤ 200)
    (h3 : 20 ≤ s3.length ∧ s3.length ≤ 200) :
    matchAll quotedRx 0
        (g0 ++ (quoted s1 ++ (g1 ++ (quoted s2 ++ (g2 ++ (quoted s3 ++ rest))))))
      = quoted s1 :: quoted s2 :: quoted s3 :: matchAll quotedRx 0 rest := by
  rw [matchAll_quoted_step g0 s1 _ hg0 hs1 h1.1 h1.2,
    matchAll_quoted_step g1 s2 _ hg1 hs2 h2.1 h2.2,
    matchAll_quoted_step g2 s3 _ hg2 hs3 h3.1 h3.2]

theorem tierQuoted_three (g0 s1 g1 s2 g2 s3 rest : Str)
    (hg0 : quote ∉ g0) (hg1 : quote ∉ g1) (hg2 : quote ∉ g2)
    (hs1 : quote ∉ s1) (hs2 : quote ∉ s2) (hs3 : quote ∉ s3)
    (h1 : 20 < s1.length ∧ s1.length < 200) (h2 : 20 < s2.length ∧ s2.length < 200)
    (h3 : 20 < s3.length ∧ s3.length < 200) :
    tierQuoted (g0 ++ (quoted s1 ++ (g1 ++ (quoted s2 ++ (g2 ++ (quoted s3 ++ rest))))))
      = some [s1, s2, s3] := by
  unfold tierQuoted
  simp only
  rw [matchAll_quoted_three g0 s1 g1 s2 g2 s3 rest hg0 hg1 hg2 hs1 hs2 hs3
    ⟨by omega, by omega⟩ ⟨by omega, by omega⟩ ⟨by omega, by omega⟩]
  rw [if_pos (by simp)]
  simp only [List.map_cons, removeQuotes_quoted _ hs1, removeQuotes_quoted _ hs2,
    removeQuotes_quoted _ hs3]
  rw [take_three_of_ok lengthOk s1 s2 s3 _ ((lengthOk_iff _).mpr h1) ((lengthOk_iff _).mpr h2)
    ((lengthOk_iff _).mpr h3)]

theorem codeBlockOpen_at (tag ws z : Str) (htag : tag = [] ∨ tag = utf16 "json")
    (hws : ∀ c ∈ ws, isWhiteSpace c = true) :
    ∃ m, codeBlockOpen (fence ++ (tag ++ (ws ++ (lbrack :: z)))) = some (m, z) := by
  have hstop : ∀ c ∈ (lbrack :: z).head?, isWhiteSpace c = false := by
    intro c hc
    simp at hc
    subst hc
    decide
  obtain ⟨htw, hdw⟩ := takeWhile_append_stop isWhiteSpace (lbrack :: z) hstop ws hws
  have h3 : many isWhiteSpace (ws ++ (lbrack :: z)) = some (ws, lbrack :: z) := by
    simp [many, htw, hdw]
  have h4 : lit [lbrack] (lbrack :: z) = some ([lbrack], z) := lit_append [lbrack] z
  have h1 : lit fence (fence ++ (tag ++ (ws ++ (lbrack :: z))))
      = some (fence, tag ++ (ws ++ (lbrack :: z))) := lit_append fence _
  have h2 : ∃ t, optLit (utf16 "json") (tag ++ (ws ++ (lbrack :: z)))
      = some (t, ws ++ (lbrack :: z)) := by
    rcases htag with h | h
    · subst h
      refine ⟨[], ?_⟩
      have hp : (utf16 "json").isPrefixOf (ws ++ (lbrack :: z)) = false := by
        rw [json_eq]
        cases ws with
        | nil => simp [List.isPrefixOf, lbrack]
        | cons w ws2 =>
          have hw : isWhiteSpace w = true := hws w (by simp)
          have : w ≠ 106 := by
            intro he
            subst he
            simp [isWhiteSpace] at hw
          simp [List.isPrefixOf, Ne.symm this]
      simp [optLit, hp]
    · subst h
      refine ⟨utf16 "json", ?_⟩
      simp [optLit]
  obtain ⟨t, h2⟩ := h2
  refine ⟨fence ++ (t ++ (ws ++ ([lbrack] ++ []))), ?_⟩
  simp [codeBlockOpen, seqAll, seq, h1, h2, h3, h4]

theorem many1_notRBrack_at (body closing : Str) (hb : body ≠ []) (hr : rbrack ∉ body)
    (hc : closing = [] ∨ ∃ tail, closing = rbrack :: tail) :
    many1 notRBrack (body ++ closing) = some (body, closing) := by
  have hstop : ∀ c ∈ closing.head?, notRBrack c = false := by
    intro c hcm
    rcases hc with h | ⟨tail, h⟩
    · subst h
      simp at hcm
    · subst h
      simp at hcm
      subst hcm
      simp [notRBrack]
  have hall : ∀ c ∈ body, notRBrack c = true := by
    intro c hcm
    have : c ≠ rbrack := fun he => hr (he ▸ hcm)
    simp [notRBrack, this]
  obtain ⟨htw, hdw⟩ := takeWhile_append_stop notRBrack closing hstop body hall
  unfold many1
  rw [htw, hdw]
  cases body with
  | nil => exact absurd rfl hb
  | cons x xs => simp

theorem matchCodeBlock_open_at (tag ws body closing : Str) (htag : tag = [] ∨ tag = utf16 "json")
    (hws : ∀ c ∈ ws, isWhiteSpace c = true) (hb : body ≠ []) (hr : rbrack ∉ body)
    (hc : closing = [] ∨ ∃ tail, closing = rbrack :: tail) :
    matchCodeBlock false (fence ++ (tag ++ (ws ++ (lbrack :: (body ++ closing))))) = some body := by
  obtain ⟨m, hm⟩ := codeBlockOpen_at tag ws (body ++ closing) htag hws
  simp [matchCodeBlock, hm, many1_notRBrack_at body closing hb hr hc]

theorem matchCodeBlock_closed_at (tag ws body tail : Str) (htag : tag = [] ∨ tag = utf16 "json")
    (hws : ∀ c ∈ ws, isWhiteSpace c = true) (hb : body ≠ []) (hr : rbrack ∉ body) :
    matchCodeBlock true
      (fence ++ (tag ++ (ws ++ (lbrack :: (body ++ (rbrack :: (fence ++ tail))))))) = some body := by
  obtain ⟨m, hm⟩ := codeBlockOpen_at tag ws (body ++ (rbrack :: (fence ++ tail))) htag hws
  have hl : lit (rbrack :: fence) (rbrack :: (fence ++ tail)) = some (rbrack :: fence, tail) :=
    lit_append (rbrack :: fence) tail
  simp [matchCodeBlock, hm,
    many1_notRBrack_at body (rbrack :: (fence ++ tail)) hb hr (Or.inr ⟨_, rfl⟩), hl]

theorem firstMatch_fence {α : Type} (m : Str → Option α) (x : Str) (r : α)
    (h : m (fence ++ x) = some r) : firstMatch m (fence ++ x) = some r := by
  rw [fence_eq] at h ⊢
  exact firstMatch_cons_of_some m 96 _ r h

theorem trim_removeQuotes_quoted (x : Str) (hq : quote ∉ x) :
    trim (removeQuotes (quoted x)) = trim x := by
  rw [removeQuotes_quoted x hq]

/-- The captions that the fenced-block tiers draw from a block whose content
starts with three quoted strings. -/
theorem codeBlock_captions (g0 s1 g1 s2 g2 s3 rest : Str)
    (hg0 : quote ∉ g0) (hg1 : quote ∉ g1) (hg2 : quote ∉ g2)
    (hs1 : quote ∉ s1) (hs2 : quote ∉ s2) (hs3 : quote ∉ s3)
    (h1 : s1.length ≤ 200 ∧ lengthOk (trim s1) = true)
    (h2 : s2.length ≤ 200 ∧ lengthOk (trim s2) = true)
    (h3 : s3.length ≤ 200 ∧ lengthOk (trim s3) = true) :
    (if 3 ≤ (matchAll quotedRx 0
          (g0 ++ (quoted s1 ++ (g1 ++ (quoted s2 ++ (g2 ++ (quoted s3 ++ rest))))))).length then
        some ((((matchAll quotedRx 0
          (g0 ++ (quoted s1 ++ (g1 ++ (quoted s2 ++ (g2 ++ (quoted s3 ++ rest))))))).map
            fun m => trim (removeQuotes m)).filter lengthOk).take 3)
      else none) = some [trim s1, trim s2, trim s3] := by
  have e1 := (lengthOk_iff _).mp h1.2
  have e2 := (lengthOk_iff _).mp h2.2
  have e3 := (lengthOk_iff _).mp h3.2
  have l1 := trim_length_le s1
  have l2 := trim_length_le s2
  have l3 := trim_length_le s3
  rw [matchAll_quoted_three g0 s1 g1 s2 g2 s3 rest hg0 hg1 hg2 hs1 hs2 hs3
    ⟨by omega, h1.1⟩ ⟨by omega, h2.1⟩ ⟨by omega, h3.1⟩]
  rw [if_pos (by simp)]
  simp only [List.map_cons, trim_removeQuotes_quoted _ hs1, trim_removeQuotes_quoted _ hs2,
    trim_removeQuotes_quoted _ hs3]
  rw [take_three_of_ok lengthOk _ _ _ _ h1.2 h2.2 h3.2]

theorem sectionAfter_once (marker pre rest : Str) (hm : marker ≠ [])
    (hpre : ¬ marker <:+: pre ++ marker.dropLast) (hrest : ¬ marker <:+: rest)
    (hne : rest ≠ []) : sectionAfter marker (pre ++ (marker ++ rest)) = some rest := by
  unfold sectionAfter splitSecond
  rw [splitFirst_append marker rest hm pre hpre]
  simp only [splitFirst_none marker rest hrest]
  cases rest with
  | nil => exact absurd rfl hne
  | cons c cs => rfl

end CaptionGenerator

namespace CaptionGenerator

open JS Rx

theorem initializeKeys_frame (geminiKeys : Option Str) (st st1 : GenState)
    (h : initializeKeys geminiKeys st = some st1) :
    st1.modelCalls = st.modelCalls ∧ st1.currentKeyIndex = st.currentKeyIndex := by
  unfold initializeKeys at h
  split at h
  · injection h with h
    subst h
    exact ⟨rfl, rfl⟩
  · split at h
    · simp at h
    · injection h with h
      subst h
      exact ⟨rfl, rfl⟩

theorem generateCaptions_shape (toLowerCase : Str → Str) (b : Boundary)
    (geminiKeys : Option Str) (st : GenState) (imageUrl mood username : Str) :
    (generateCaptions toLowerCase b geminiKeys st imageUrl mood username).1.length = 3 ∧
      ∀ c ∈ (generateCaptions toLowerCase b geminiKeys st imageUrl mood username).1,
        c ≠ [] := by
  unfold generateCaptions
  split
  · exact generateWithRealImageAnalysis_shape _ _ _ _ _ _
  · have h := generateWithRealImageAnalysis_shape toLowerCase b (rotateKey geminiKeys st)
      imageUrl mood username
    simp only
    rw [if_pos (by rw [h.1]; decide)]
    exact h

end CaptionGenerator

/-! ## The claims -/

namespace CaptionGenerator

open JS Rx

/-- C1: for every mood and username and every behaviour of the model boundary
(no keys, a failed download, a throwing model, any raw text), in every state of
the generator, `generateCaptions` returns exactly 3 captions and none of them
is the empty string. -/
theorem generateCaptions_three_nonempty (toLowerCase : Str → Str) (b : Boundary)
    (geminiKeys : Option Str) (st : GenState) (imageUrl mood username : Str) :
    (generateCaptions toLowerCase b geminiKeys st imageUrl mood username).1.length = 3 ∧
      ∀ c ∈ (generateCaptions toLowerCase b geminiKeys st imageUrl mood username).1,
        c ≠ [] :=
  generateCaptions_shape toLowerCase b geminiKeys st imageUrl mood username

set_option maxRecDepth 100000 in
/-- C2, evaluated at a failing input: on three quoted strings of 21, 20 and 20
code units the quoted-string tier finds three matches, keeps only the one longer
than 20 and returns it, so the extractor returns a list of one string. -/
theorem parse_returns_one_caption :
    parseFromSection (utf16
      "\"123456789012345678901\" \"12345678901234567890\" \"12345678901234567890\"")
      = [utf16 "123456789012345678901"] ∧
    parseCaptionsFromResponse (utf16
      "\"123456789012345678901\" \"12345678901234567890\" \"12345678901234567890\"")
      = [utf16 "123456789012345678901"] := by
  decide

set_option maxRecDepth 100000 in
/-- C6, refuted as stated: three quoted strings of exactly 20 code units after
the section marker are all dropped by the length test; and a quoted string in
front of a fenced array is passed over in favour of the strings of the array. -/
theorem parse_quoted_counterexample :
    (utf16 "12345678901234567890").length = 20 ∧
    parseCaptionsFromResponse (utf16
      "**STEP 3: CAPTIONS** \"12345678901234567890\" \"12345678901234567890\" \"12345678901234567890\"")
      = [] ∧
    parseCaptionsFromResponse (utf16
      "**STEP 3: CAPTIONS** \"caption zero is right here\" ```[\"caption one is right here\", \"caption two is right here\", \"caption three is right here\"]```")
      = [utf16 "caption one is right here", utf16 "caption two is right here",
         utf16 "caption three is right here"] := by
  decide

/-- C6, amended: when the text after the first section marker holds no further
marker and no opening square bracket, and its first three double-quoted strings
(the quote characters paired from the left) are each longer than 20 and shorter
than 200 code units, the extractor returns exactly these three strings, in
source order. -/
theorem parse_first_three_quoted (pre sec g0 s1 g1 s2 g2 s3 rest : Str)
    (hpre : ¬ stepMarker <:+: pre ++ stepMarker.dropLast)
    (hsec : sec = g0 ++ quoted s1 ++ g1 ++ quoted s2 ++ g2 ++ quoted s3 ++ rest)
    (hmark : ¬ stepMarker <:+: sec) (hbr : lbrack ∉ sec)
    (hg0 : quote ∉ g0) (hg1 : quote ∉ g1) (hg2 : quote ∉ g2)
    (hs1 : quote ∉ s1) (hs2 : quote ∉ s2) (hs3 : quote ∉ s3)
    (h1 : 20 < s1.length ∧ s1.length < 200) (h2 : 20 < s2.length ∧ s2.length < 200)
    (h3 : 20 < s3.length ∧ s3.length < 200) :
    parseCaptionsFromResponse (pre ++ stepMarker ++ sec) = [s1, s2, s3] := by
  have hform : sec = g0 ++ (quoted s1 ++ (g1 ++ (quoted s2 ++ (g2 ++ (quoted s3 ++ rest))))) := by
    rw [hsec]
    simp only [List.append_assoc]
  have hne : sec ≠ [] := by
    rw [hform]
    cases g0 <;> simp [quoted]
  have hsa : sectionAfter stepMarker (pre ++ stepMarker ++ sec) = some sec := by
    rw [List.append_assoc]
    exact sectionAfter_once stepMarker pre sec (by decide) hpre hmark hne
  have hq := tierQuoted_three g0 s1 g1 s2 g2 s3 rest hg0 hg1 hg2 hs1 hs2 hs3 h1 h2 h3
  rw [← hform] at hq
  unfold parseCaptionsFromResponse
  rw [hsa]
  simp [parseFromSection, tierCodeBlock_none_of_no_lbrack _ sec hbr,
    tierNumbered_none_of_needs lbrack numberedRx_needs_lbrack sec hbr, hq]

set_option maxRecDepth 100000 in
theorem parse_first_three_quoted_witness :
    parseCaptionsFromResponse (utf16 "Here you go. " ++ stepMarker ++
      (utf16 "1. " ++ quoted (utf16 "Golden light on the mountains") ++ utf16 " 2. " ++
        quoted (utf16 "This view hits different today") ++ utf16 " 3. " ++
        quoted (utf16 "Living that mountain life now") ++ utf16 " Enjoy!"))
      = [utf16 "Golden light on the mountains", utf16 "This view hits different today",
         utf16 "Living that mountain life now"] :=
  parse_first_three_quoted (utf16 "Here you go. ") _ (utf16 "1. ")
    (utf16 "Golden light on the mountains") (utf16 " 2. ")
    (utf16 "This view hits different today") (utf16 " 3. ")
    (utf16 "Living that mountain life now") (utf16 " Enjoy!")
    (by decide) rfl (by decide) (by decide) (by decide) (by decide) (by decide)
    (by decide) (by decide) (by decide) (by decide) (by decide) (by decide)

set_option maxRecDepth 100000 in
/-- C7: on the fenced array of the scenario the extractor returns the three
quoted strings, in order. -/
theorem parse_json_fence_scenario :
    parseCaptionsFromResponse (utf16
      "```json [\"Caption one is here and long enough\", \"Caption two is here and long enough\", \"Caption three is here and long\"]```")
      = [utf16 "Caption one is here and long enough",
         utf16 "Caption two is here and long enough",
         utf16 "Caption three is here and long"] := by
  decide

/-- C8: on a text without white space and without double quotes (the empty
string, a single word) the extractor returns the empty list, and
`generateWithRealImageAnalysis`, given that text by the model, returns the
three enhanced templates, none of them empty. -/
theorem parse_plain_word_fails (toLowerCase : Str → Str) (b : Boundary) (st : GenState)
    (key imageUrl mood username raw : Str)
    (hraw : ∀ c ∈ raw, isWhiteSpace c = false ∧ c ≠ quote)
    (hgen : st.genAI = some key) (hd : b.download imageUrl = true)
    (hinfer : b.infer st.modelCalls key = some raw) :
    parseCaptionsFromResponse [] = [] ∧
    parseCaptionsFromResponse raw = [] ∧
    (generateWithRealImageAnalysis toLowerCase b st imageUrl mood username).1
      = generateEnhancedTemplates toLowerCase mood username ∧
    (generateEnhancedTemplates toLowerCase mood username).length = 3 ∧
    ∀ c ∈ generateEnhancedTemplates toLowerCase mood username, c ≠ [] := by
  have hp : parseCaptionsFromResponse raw = [] :=
    parseCaptionsFromResponse_plain raw (fun c hc => (hraw c hc).1)
      (fun hc => (hraw _ hc).2 rfl)
  refine ⟨parseCaptionsFromResponse_plain [] (by simp) (by simp), hp, ?_,
    generateEnhancedTemplates_shape _ _ _⟩
  simp [generateWithRealImageAnalysis, hgen, hd, hinfer, hp]

theorem parse_plain_word_fails_witness :
    parseCaptionsFromResponse (utf16 "hello") = [] ∧
    (generateWithRealImageAnalysis asciiLower (modelSaying (utf16 "hello"))
        { GenState.new with genAI := some (utf16 "key-one") }
        (utf16 "http://img") (utf16 "fun") (utf16 "ann")).1
      = generateEnhancedTemplates asciiLower (utf16 "fun") (utf16 "ann") ∧
    (generateEnhancedTemplates asciiLower (utf16 "fun") (utf16 "ann")).length = 3 :=
  ⟨(parse_plain_word_fails asciiLower (modelSaying (utf16 "hello"))
      { GenState.new with genAI := some (utf16 "key-one") } (utf16 "key-one")
      (utf16 "http://img") (utf16 "fun") (utf16 "ann") (utf16 "hello")
      (by decide) rfl rfl rfl).2.1,
   (parse_plain_word_fails asciiLower (modelSaying (utf16 "hello"))
      { GenState.new with genAI := some (utf16 "key-one") } (utf16 "key-one")
      (utf16 "http://img") (utf16 "fun") (utf16 "ann") (utf16 "hello")
      (by decide) rfl rfl rfl).2.2.1,
   (parse_plain_word_fails asciiLower (modelSaying (utf16 "hello"))
      { GenState.new with genAI := some (utf16 "key-one") } (utf16 "key-one")
      (utf16 "http://img") (utf16 "fun") (utf16 "ann") (utf16 "hello")
      (by decide) rfl rfl rfl).2.2.2.1⟩

/-- C9, evaluated at the failing input: with two keys configured and a model
that always throws, `generateCaptions` returns the enhanced templates after a
single call of the model, and the key index is still 0: the error is caught
inside `generateWithRealImageAnalysis`, so the rotation and the retry of the
`catch` block of `generateCaptions` are not reached. -/
theorem generateCaptions_throwing_model (toLowerCase : Str → Str)
    (imageUrl mood username : Str) :
    (generateCaptions toLowerCase throwingModel twoKeys GenState.new imageUrl mood username).1
      = generateEnhancedTemplates toLowerCase mood username ∧
    (generateCaptions toLowerCase throwingModel twoKeys GenState.new imageUrl mood
      username).2.modelCalls = 1 ∧
    (generateCaptions toLowerCase throwingModel twoKeys GenState.new imageUrl mood
      username).2.currentKeyIndex = 0 := by
  have hk : keyArrayOf twoKeys = some [utf16 "key-one", utf16 "key-two"] := by decide
  simp [generateCaptions, initializeKeys, GenState.new, hk, generateWithRealImageAnalysis,
    throwingModel]

/-- C10: when initialisation succeeds, the download and the model call succeed
and the extractor draws fewer than 3 captions from the text, `generateCaptions`
returns the enhanced templates, the model has been called exactly once more
and the key index is unchanged. -/
theorem generateCaptions_parse_failure (toLowerCase : Str → Str) (b : Boundary)
    (geminiKeys : Option Str) (st st1 : GenState) (key imageUrl mood username text : Str)
    (hinit : initializeKeys geminiKeys st = some st1) (hkey : st1.genAI = some key)
    (hd : b.download imageUrl = true) (hinfer : b.infer st1.modelCalls key = some text)
    (hparse : (parseCaptionsFromResponse text).length < 3) :
    (generateCaptions toLowerCase b geminiKeys st imageUrl mood username).1
      = generateEnhancedTemplates toLowerCase mood username ∧
    (generateCaptions toLowerCase b geminiKeys st imageUrl mood username).2.modelCalls
      = st.modelCalls + 1 ∧
    (generateCaptions toLowerCase b geminiKeys st imageUrl mood username).2.currentKeyIndex
      = st.currentKeyIndex := by
  obtain ⟨hm, hi⟩ := initializeKeys_frame geminiKeys st st1 hinit
  have hn : ¬ 3 ≤ (parseCaptionsFromResponse text).length := by omega
  rw [hm] at hinfer
  simp [generateCaptions, hinit, generateWithRealImageAnalysis, hkey, hd, hinfer, hn, hm, hi]

theorem generateCaptions_parse_failure_witness :
    (generateCaptions asciiLower (modelSaying (utf16 "hello")) twoKeys GenState.new
        (utf16 "http://img") (utf16 "fun") (utf16 "ann")).1
      = generateEnhancedTemplates asciiLower (utf16 "fun") (utf16 "ann") ∧
    (generateCaptions asciiLower (modelSaying (utf16 "hello")) twoKeys GenState.new
        (utf16 "http://img") (utf16 "fun") (utf16 "ann")).2.modelCalls
      = GenState.new.modelCalls + 1 ∧
    (generateCaptions asciiLower (modelSaying (utf16 "hello")) twoKeys GenState.new
        (utf16 "http://img") (utf16 "fun") (utf16 "ann")).2.currentKeyIndex
      = GenState.new.currentKeyIndex :=
  generateCaptions_parse_failure asciiLower (modelSaying (utf16 "hello")) twoKeys GenState.new
    { GenState.new with geminiKey := some (utf16 "key-one"), genAI := some (utf16 "key-one"),
                        initialized := true }
    (utf16 "key-one") (utf16 "http://img") (utf16 "fun") (utf16 "ann") (utf16 "hello")
    (by decide) rfl rfl rfl (by decide)

end CaptionGenerator

namespace RateLimiter

theorem contains_false_of_not_mem (wl : List Str) (u : Str) (h : u ∉ wl) :
    wl.contains u = false := by
  simpa using h

theorem contains_true_of_mem (wl : List Str) (u : Str) (h : u ∈ wl) :
    wl.contains u = true := by
  simpa using h

theorem canMakeRequest_of_count (rl : Limiter) (store : Store) (zone : TimeZone) (now : Int) (userId : Str)
    (limit : Int) (used : Nat) (hw : userId ∉ rl.whitelist)
    (hs : store.countDocuments userId (startOfDay zone now)
      (startOfDay zone now + rl.resetTime) = some used) :
    canMakeRequest rl store zone now userId limit =
      { allowed := decide (max 0 (limit - (used : Int)) > 0),
        remaining := max 0 (limit - (used : Int)), limit := limit,
        resetTime := startOfDay zone now + rl.resetTime, todayRequests := used,
        whitelisted := some false } := by
  unfold canMakeRequest
  rw [contains_false_of_not_mem _ _ hw]
  simp only [hs]
  rfl

/-- C3: for a user outside the whitelist and a store whose count query reports
`used` records in today's window, `canMakeRequest` returns
`remaining = max(0, limit - used)` and `allowed = (remaining > 0)`; with
`used = limit` that is `allowed = false, remaining = 0`, and with
`used = limit - 1` it is `allowed = true, remaining = 1`. -/
theorem canMakeRequest_remaining (rl : Limiter) (store : Store) (zone : TimeZone) (now : Int) (userId : Str)
    (limit : Int) (used : Nat) (hw : userId ∉ rl.whitelist)
    (hs : store.countDocuments userId (startOfDay zone now)
      (startOfDay zone now + rl.resetTime) = some used) :
    (canMakeRequest rl store zone now userId limit).remaining = max 0 (limit - (used : Int)) ∧
    (canMakeRequest rl store zone now userId limit).allowed
      = decide ((canMakeRequest rl store zone now userId limit).remaining > 0) ∧
    ((used : Int) = limit →
      (canMakeRequest rl store zone now userId limit).allowed = false ∧
      (canMakeRequest rl store zone now userId limit).remaining = 0) ∧
    ((used : Int) = limit - 1 →
      (canMakeRequest rl store zone now userId limit).allowed = true ∧
      (canMakeRequest rl store zone now userId limit).remaining = 1) := by
  rw [canMakeRequest_of_count rl store zone now userId limit used hw hs]
  refine ⟨rfl, rfl, ?_, ?_⟩
  · intro h
    simp [h]
  · intro h
    have : limit - (used : Int) = 1 := by omega
    simp [this]

theorem canMakeRequest_remaining_witness :
    (canMakeRequest Limiter.new store24 (fixedOffset 0) 1000 (utf16 "user42") 25).allowed = true ∧
    (canMakeRequest Limiter.new store24 (fixedOffset 0) 1000 (utf16 "user42") 25).remaining = 1 :=
  (canMakeRequest_remaining Limiter.new store24 (fixedOffset 0) 1000 (utf16 "user42") 25 24
    (by decide) rfl).2.2.2 (by decide)

/-- C4: for a user in the whitelist, `canMakeRequest` returns `allowed = true`
and `whitelisted = true` for every limit, and the whole result is the same for
any two stores (the store is not consulted), a throwing one included. -/
theorem canMakeRequest_whitelisted (rl : Limiter) (store store2 : Store) (zone : TimeZone) (now : Int)
    (userId : Str) (limit : Int) (hw : userId ∈ rl.whitelist) :
    (canMakeRequest rl store zone now userId limit).allowed = true ∧
    (canMakeRequest rl store zone now userId limit).whitelisted = some true ∧
    canMakeRequest rl store zone now userId limit
      = canMakeRequest rl store2 zone now userId limit := by
  unfold canMakeRequest
  rw [contains_true_of_mem _ _ hw]
  simp

theorem canMakeRequest_whitelisted_witness :
    (canMakeRequest Limiter.new store24 (fixedOffset 0) 1000 (utf16 "1310471160072241172") 25).allowed = true ∧
    (canMakeRequest Limiter.new store24 (fixedOffset 0) 1000 (utf16 "1310471160072241172") 25).whitelisted
      = some true ∧
    canMakeRequest Limiter.new store24 (fixedOffset 0) 1000 (utf16 "1310471160072241172") 25
      = canMakeRequest Limiter.new storeDown (fixedOffset 0) 1000 (utf16 "1310471160072241172") 25 :=
  canMakeRequest_whitelisted Limiter.new store24 storeDown (fixedOffset 0) 1000
    (utf16 "1310471160072241172") 25 (by decide)

/-- C5: for a user outside the whitelist, when the count query throws,
`canMakeRequest` still returns a result, with `allowed = true` and
`remaining = limit`; with the default limit of the constructor that is 25. -/
theorem canMakeRequest_fail_open (rl : Limiter) (store : Store) (zone : TimeZone) (now : Int) (userId : Str)
    (limit : Int) (hw : userId ∉ rl.whitelist)
    (hs : store.countDocuments userId (startOfDay zone now)
      (startOfDay zone now + rl.resetTime) = none) :
    (canMakeRequest rl store zone now userId limit).allowed = true ∧
    (canMakeRequest rl store zone now userId limit).remaining = limit ∧
    (rl.defaultLimit = 25 →
      (canMakeRequest rl store zone now userId rl.defaultLimit).remaining = 25) := by
  unfold canMakeRequest
  rw [contains_false_of_not_mem _ _ hw]
  simp only [hs]
  simp

theorem canMakeRequest_fail_open_witness :
    (canMakeRequest Limiter.new storeDown (fixedOffset 0) 1000 (utf16 "user42") 25).allowed = true ∧
    (canMakeRequest Limiter.new storeDown (fixedOffset 0) 1000 (utf16 "user42") 25).remaining = 25 ∧
    (Limiter.new.defaultLimit = 25 →
      (canMakeRequest Limiter.new storeDown (fixedOffset 0) 1000 (utf16 "user42")
        Limiter.new.defaultLimit).remaining = 25) :=
  canMakeRequest_fail_open Limiter.new storeDown (fixedOffset 0) 1000 (utf16 "user42") 25 (by decide) rfl

end RateLimiter

namespace RateLimiter

theorem clearUserRecords_no_records (db : Db) (userId : Str) (gte lt : Int) :
    ((clearUserRecords db userId).2.filter (inQuery userId gte lt)).length = 0 := by
  simp only [clearUserRecords, List.length_eq_zero, List.filter_filter]
  apply List.filter_eq_nil_iff.mpr
  intro r _
  simp only [inQuery]
  cases h : (r.userId == userId) <;> simp

/-- C11: over a store that is an explicit collection of records, for a user
outside the whitelist, after `clearUserRecords(userId)` no record of the user is
left, and `canMakeRequest(userId)` with the default limit (25 after the
constructor, any positive value in general) returns `allowed = true` with
`todayRequests = 0`. -/
theorem canMakeRequest_after_clear (rl : Limiter) (db : Db) (zone : TimeZone) (now : Int) (userId : Str)
    (hw : userId ∉ rl.whitelist) (hlimit : 0 < rl.defaultLimit) :
    (∀ r ∈ (clearUserRecords db userId).2, r.userId ≠ userId) ∧
    (canMakeRequest rl (dbStore (clearUserRecords db userId).2) zone now userId
      rl.defaultLimit).allowed = true ∧
    (canMakeRequest rl (dbStore (clearUserRecords db userId).2) zone now userId
      rl.defaultLimit).todayRequests = 0 := by
  refine ⟨?_, ?_⟩
  · intro r hr
    have := (List.mem_filter.mp hr).2
    simpa using this
  · rw [canMakeRequest_of_count rl (dbStore (clearUserRecords db userId).2) zone now userId
      rl.defaultLimit 0 hw
      (by simp only [dbStore]; rw [clearUserRecords_no_records])]
    refine ⟨?_, rfl⟩
    simp
    omega

theorem canMakeRequest_after_clear_witness :
    (canMakeRequest Limiter.new (dbStore (clearUserRecords sampleDb (utf16 "user42")).2) (fixedOffset 0) 5000
      (utf16 "user42") Limiter.new.defaultLimit).allowed = true ∧
    (canMakeRequest Limiter.new (dbStore (clearUserRecords sampleDb (utf16 "user42")).2) (fixedOffset 0) 5000
      (utf16 "user42") Limiter.new.defaultLimit).todayRequests = 0 :=
  (canMakeRequest_after_clear Limiter.new sampleDb (fixedOffset 0) 5000 (utf16 "user42")
    (by decide) (by decide)).2

/-- At a fixed offset the start of the day is the instant `now` less the time
elapsed since the local midnight. -/
theorem startOfDay_fixedOffset (tz now : Int) :
    startOfDay (fixedOffset tz) now = now - (now + tz) % 86400000 := by
  simp only [startOfDay, fixedOffset]
  omega

theorem inQuery_iff_same_day (tz now : Int) (userId : Str) (r : Record) :
    inQuery userId (startOfDay (fixedOffset tz) now)
        (startOfDay (fixedOffset tz) now + 86400000) r = true ↔
      r.userId = userId ∧ localDay tz r.createdAt = localDay tz now := by
  rw [startOfDay_fixedOffset]
  simp only [inQuery, localDay, Bool.and_eq_true, beq_iff_eq, decide_eq_true_eq]
  constructor
  · rintro ⟨⟨h1, h2⟩, h3⟩
    exact ⟨h1, by omega⟩
  · rintro ⟨h1, h2⟩
    exact ⟨⟨h1, by omega⟩, by omega⟩

/-- C12: with integer millisecond time stamps and a fixed offset `tz` of the
local time from UTC, `startOfDay` is the local midnight at or before the
current time, `canMakeRequest` counts exactly the user's records created in
`[startOfDay, startOfDay + 24h)`, these are the user's records of the current
local day, and so a record created at 23:59:59 of a day is counted at every
current time of that day and at no current time of the next day. -/
theorem canMakeRequest_counts_today (rl : Limiter) (db : Db) (tz now : Int) (userId : Str)
    (limit : Int) (hw : userId ∉ rl.whitelist) (hreset : rl.resetTime = 24 * 60 * 60 * 1000) :
    (startOfDay (fixedOffset tz) now + tz) % 86400000 = 0 ∧
    startOfDay (fixedOffset tz) now ≤ now ∧ now < startOfDay (fixedOffset tz) now + 86400000 ∧
    (canMakeRequest rl (dbStore db) (fixedOffset tz) now userId limit).todayRequests
      = (db.filter fun r => r.userId == userId &&
          decide (startOfDay (fixedOffset tz) now ≤ r.createdAt) &&
          decide (r.createdAt < startOfDay (fixedOffset tz) now + 86400000)).length ∧
    (canMakeRequest rl (dbStore db) (fixedOffset tz) now userId limit).todayRequests
      = (db.filter fun r => r.userId == userId &&
          decide (localDay tz r.createdAt = localDay tz now)).length ∧
    (∀ r : Record, r.userId = userId → (r.createdAt + tz) % 86400000 = 86399000 →
      (localDay tz now = localDay tz r.createdAt →
        inQuery userId (startOfDay (fixedOffset tz) now)
          (startOfDay (fixedOffset tz) now + rl.resetTime) r = true) ∧
      (localDay tz now = localDay tz r.createdAt + 1 →
        inQuery userId (startOfDay (fixedOffset tz) now)
          (startOfDay (fixedOffset tz) now + rl.resetTime) r = false)) := by
  have hreset2 : rl.resetTime = 86400000 := by rw [hreset]; norm_num
  refine ⟨by rw [startOfDay_fixedOffset]; omega, by rw [startOfDay_fixedOffset]; omega,
    by rw [startOfDay_fixedOffset]; omega, ?_, ?_, ?_⟩
  · rw [canMakeRequest_of_count rl (dbStore db) (fixedOffset tz) now userId limit _ hw rfl, hreset2]
    rfl
  · rw [canMakeRequest_of_count rl (dbStore db) (fixedOffset tz) now userId limit _ hw rfl, hreset2]
    simp only
    congr 1
    apply List.filter_congr
    intro r _
    have h := inQuery_iff_same_day tz now userId r
    cases hq : inQuery userId (startOfDay (fixedOffset tz) now)
      (startOfDay (fixedOffset tz) now + 86400000) r
    · have : ¬ (r.userId = userId ∧ localDay tz r.createdAt = localDay tz now) := by
        rw [← h, hq]; simp
      by_cases hu : r.userId = userId
      · have hd : ¬ localDay tz r.createdAt = localDay tz now := fun hd => this ⟨hu, hd⟩
        simp [hu, hd]
      · simp [hu]
    · obtain ⟨hu, hd⟩ := h.mp hq
      simp [hu, hd]
  · intro r hu _
    rw [hreset2]
    constructor
    · intro hday
      exact (inQuery_iff_same_day tz now userId r).mpr ⟨hu, hday.symm⟩
    · intro hday
      cases hq : inQuery userId (startOfDay (fixedOffset tz) now)
        (startOfDay (fixedOffset tz) now + 86400000) r
      · rfl
      · have := ((inQuery_iff_same_day tz now userId r).mp hq).2
        omega

theorem canMakeRequest_counts_today_witness :
    (canMakeRequest Limiter.new (dbStore sampleDb) (fixedOffset 0) 5000 (utf16 "user42") 25).todayRequests
      = (sampleDb.filter fun r => r.userId == utf16 "user42" &&
          decide (localDay 0 r.createdAt = localDay 0 5000)).length :=
  (canMakeRequest_counts_today Limiter.new sampleDb 0 5000 (utf16 "user42") 25
    (by decide) rfl).2.2.2.2.1

/-- C16: for a user outside the whitelist, `resetUserLimit(userId)` leaves the
limiter (its whitelist) and the stored records as they were and returns the
status that `getUserStatus(userId)` returns with the default limit; the used
count read after the call is the one read before it. -/
theorem resetUserLimit_reports (rl : Limiter) (db : Db) (zone : TimeZone) (now : Int) (userId : Str)
    (hw : userId ∉ rl.whitelist) :
    (resetUserLimit rl db zone now userId).2.1 = rl ∧
    (resetUserLimit rl db zone now userId).2.2 = db ∧
    (resetUserLimit rl db zone now userId).1
      = getUserStatus rl (dbStore db) zone now userId rl.defaultLimit ∧
    (getUserStatus (resetUserLimit rl db zone now userId).2.1
        (dbStore (resetUserLimit rl db zone now userId).2.2) zone now userId rl.defaultLimit).used
      = (getUserStatus rl (dbStore db) zone now userId rl.defaultLimit).used := by
  unfold resetUserLimit
  rw [contains_false_of_not_mem _ _ hw]
  simp

theorem resetUserLimit_reports_witness :
    (resetUserLimit Limiter.new sampleDb (fixedOffset 0) 5000 (utf16 "user42")).2.1 = Limiter.new ∧
    (resetUserLimit Limiter.new sampleDb (fixedOffset 0) 5000 (utf16 "user42")).2.2 = sampleDb ∧
    (resetUserLimit Limiter.new sampleDb (fixedOffset 0) 5000 (utf16 "user42")).1
      = getUserStatus Limiter.new (dbStore sampleDb) (fixedOffset 0) 5000 (utf16 "user42")
          Limiter.new.defaultLimit :=
  ⟨(resetUserLimit_reports Limiter.new sampleDb (fixedOffset 0) 5000 (utf16 "user42") (by decide)).1,
   (resetUserLimit_reports Limiter.new sampleDb (fixedOffset 0) 5000 (utf16 "user42") (by decide)).2.1,
   (resetUserLimit_reports Limiter.new sampleDb (fixedOffset 0) 5000 (utf16 "user42") (by decide)).2.2.1⟩

/-- On every array `addToWhitelist` twice is `addToWhitelist` once and
`removeFromWhitelist` of an id that is not listed changes nothing; on an array
without a repeated id `removeFromWhitelist` twice is `removeFromWhitelist` once. -/
theorem whitelist_mutation_of_nodup (rl : Limiter) (userId : Str) :
    addToWhitelist (addToWhitelist rl userId) userId = addToWhitelist rl userId ∧
    (userId ∉ rl.whitelist → removeFromWhitelist rl userId = rl) ∧
    (rl.whitelist.Nodup →
      removeFromWhitelist (removeFromWhitelist rl userId) userId
        = removeFromWhitelist rl userId) := by
  refine ⟨?_, ?_, ?_⟩
  · by_cases h : userId ∈ rl.whitelist
    · simp [addToWhitelist, h]
    · simp [addToWhitelist, h]
  · intro h
    simp [removeFromWhitelist, List.erase_of_not_mem h]
  · intro h
    have hn : userId ∉ rl.whitelist.erase userId := fun hm => (List.Nodup.mem_erase_iff h).mp hm |>.1 rfl
    simp [removeFromWhitelist, List.erase_of_not_mem hn]

end RateLimiter

namespace Routes

open CaptionGenerator RateLimiter

theorem countToday_append_le (db : Db) (u : Str) (s : Int) (r : Record) :
    countToday (db ++ [r]) u s ≤ countToday db u s + 1 := by
  simp only [countToday, List.filter_append, List.length_append]
  have := List.length_filter_le (inQuery u s (s + 86400000)) [r]
  simp only [List.length_singleton] at this
  omega

theorem postGenerate_denied (toLowerCase : Str → Str) (b : Boundary)
    (geminiKeys : Option Str) (rl : Limiter) (zone : TimeZone) (sv : Server) (req : GenerateRequest)
    (hurl : req.imageUrl ≠ []) (hmood : req.mood ≠ [])
    (hden : (canMakeRequest rl (dbStore sv.db) zone req.now
      (orElseStr req.userId req.ip) 25).allowed = false) :
    postGenerate toLowerCase b geminiKeys rl zone sv req =
      (Response.rateLimited
        (canMakeRequest rl (dbStore sv.db) zone req.now (orElseStr req.userId req.ip) 25).remaining
        (canMakeRequest rl (dbStore sv.db) zone req.now (orElseStr req.userId req.ip) 25).resetTime,
       sv) := by
  unfold postGenerate
  rw [if_neg (by simp [hurl, hmood])]
  simp only
  rw [if_pos hden]

theorem postGenerate_keeps_quota (toLowerCase : Str → Str) (b : Boundary)
    (geminiKeys : Option Str) (rl : Limiter) (zone : TimeZone) (u : Str) (s : Int)
    (hreset : rl.resetTime = 24 * 60 * 60 * 1000) (hw : u ∉ rl.whitelist)
    (sv : Server) (req : GenerateRequest) (hreq : InDay zone u s req)
    (hcount : countToday sv.db u s ≤ 25) :
    countToday (postGenerate toLowerCase b geminiKeys rl zone sv req).2.db u s ≤ 25 := by
  obtain ⟨hu, hs, _, _⟩ := hreq
  have hreset2 : rl.resetTime = 86400000 := by rw [hreset]; norm_num
  have hchk := canMakeRequest_of_count rl (dbStore sv.db) zone req.now u 25
    (countToday sv.db u s) hw (by simp only [dbStore, countToday, hs, hreset2])
  unfold postGenerate
  split
  · exact hcount
  · simp only [hu, hchk]
    split
    · exact hcount
    · rename_i hallow
      have hlt : countToday sv.db u s < 25 := by
        simp at hallow
        omega
      split
      · exact hcount
      · split
        · exact hcount
        · have := countToday_append_le sv.db u s
            (Record.mk u req.imageUrl (orElseStr req.imageName (utf16 "uploaded_image"))
              req.mood
              (generateCaptions toLowerCase b geminiKeys sv.gen req.imageUrl req.mood
                (orElseStr req.userId (utf16 "anonymous"))).1 req.savedAt)
          simp only
          omega

theorem run_keeps_quota (toLowerCase : Str → Str) (b : Boundary)
    (geminiKeys : Option Str) (rl : Limiter) (zone : TimeZone) (u : Str) (s : Int)
    (hreset : rl.resetTime = 24 * 60 * 60 * 1000) (hw : u ∉ rl.whitelist) :
    ∀ (reqs : List GenerateRequest) (sv : Server), (∀ req ∈ reqs, InDay zone u s req) →
      countToday sv.db u s ≤ 25 →
      countToday (run toLowerCase b geminiKeys rl zone sv reqs).db u s ≤ 25 := by
  intro reqs
  induction reqs with
  | nil => intro sv _ h; exact h
  | cons req reqs ih =>
    intro sv hall h
    show countToday (run toLowerCase b geminiKeys rl zone
      (postGenerate toLowerCase b geminiKeys rl zone sv req).2 reqs).db u s ≤ 25
    exact ih _ (fun r hr => hall r (List.mem_cons_of_mem _ hr))
      (postGenerate_keeps_quota toLowerCase b geminiKeys rl zone u s hreset hw sv req
        (hall req (by simp)) h)

/-- The quota of the 24-hour window, in every time zone: in a sequential run of
`POST /generate` requests of one user outside the whitelist, all checked against
the day that starts at the local midnight `s`, over a store that never fails and
starts with at most 25 records of the user in `[s, s + 24h)`, the number of the
user's records in `[s, s + 24h)` is at most 25 after every request of the run;
and a request for which `canMakeRequest` reports `allowed = false` is answered
429 and leaves the generator and the records as they were. -/
theorem generate_window_quota (toLowerCase : Str → Str) (b : Boundary)
    (geminiKeys : Option Str) (rl : Limiter) (zone : TimeZone) (u : Str) (s : Int)
    (sv : Server) (reqs : List GenerateRequest)
    (hreset : rl.resetTime = 24 * 60 * 60 * 1000) (hw : u ∉ rl.whitelist)
    (hreqs : ∀ req ∈ reqs, InDay zone u s req) (hstart : countToday sv.db u s ≤ 25) :
    (∀ k, countToday (run toLowerCase b geminiKeys rl zone sv (reqs.take k)).db u s ≤ 25) ∧
    (∀ (sv2 : Server) (req : GenerateRequest), req.imageUrl ≠ [] → req.mood ≠ [] →
      (canMakeRequest rl (dbStore sv2.db) zone req.now
        (orElseStr req.userId req.ip) 25).allowed = false →
      ∃ remaining resetTime, postGenerate toLowerCase b geminiKeys rl zone sv2 req
        = (Response.rateLimited remaining resetTime, sv2)) := by
  refine ⟨?_, ?_⟩
  · intro k
    exact run_keeps_quota toLowerCase b geminiKeys rl zone u s hreset hw (reqs.take k) sv
      (fun r hr => hreqs r (List.mem_of_mem_take hr)) hstart
  · intro sv2 req hurl hmood hden
    exact ⟨_, _, postGenerate_denied toLowerCase b geminiKeys rl zone sv2 req hurl hmood hden⟩

theorem generate_window_quota_witness :
    countToday (run asciiLower (modelSaying (utf16 "hello")) twoKeys Limiter.new (fixedOffset 0)
      { gen := GenState.new, db := sampleDb } ([sampleRequest, sampleRequest].take 2)).db
      (utf16 "user42") 0 ≤ 25 :=
  (generate_window_quota asciiLower (modelSaying (utf16 "hello")) twoKeys Limiter.new
    (fixedOffset 0) (utf16 "user42") 0 { gen := GenState.new, db := sampleDb } [sampleRequest, sampleRequest]
    rfl (by decide) (by decide) (by decide)).1 2

end Routes

namespace CaptionGenerator

open JS Rx

theorem filter_dropWhile_ws (l : Str) :
    (l.dropWhile isWhiteSpace).filter (fun c => !isWhiteSpace c)
      = l.filter (fun c => !isWhiteSpace c) := by
  induction l with
  | nil => rfl
  | cons x xs ih =>
    cases h : isWhiteSpace x
    · simp [List.dropWhile, h]
    · simp [List.dropWhile, h, ih]

theorem filter_trim_ws (l : Str) :
    (trim l).filter (fun c => !isWhiteSpace c) = l.filter (fun c => !isWhiteSpace c) := by
  unfold trim
  rw [List.filter_reverse, filter_dropWhile_ws, List.filter_reverse, List.reverse_reverse,
    filter_dropWhile_ws]

theorem isLetter_not_ws (c : Nat) :
    ((isLetter c || isWhiteSpace c) && !isWhiteSpace c) = isLetter c := by
  cases hl : isLetter c
  · cases isWhiteSpace c <;> rfl
  · have hw : isWhiteSpace c = false := by
      simp only [isLetter, Bool.or_eq_true, Bool.and_eq_true, decide_eq_true_eq] at hl
      simp only [isWhiteSpace, Bool.or_eq_false_iff, beq_eq_false_iff_ne, ne_eq,
        Bool.and_eq_false_imp, decide_eq_true_eq, decide_eq_false_iff_not]
      omega
    simp [hw]

/-- The hashtag of the templates is the mood with every code unit that is not
an ASCII letter removed. -/
theorem hashtagOf_moodNameOf (mood : Str) : hashtagOf (moodNameOf mood) = mood.filter isLetter := by
  unfold hashtagOf moodNameOf
  rw [filter_trim_ws, List.filter_filter]
  apply List.filter_congr
  intro c _
  rw [Bool.and_comm]
  exact isLetter_not_ws c

theorem infix_skip (p l x : Str) (h : x <:+: l) : x <:+: p ++ l :=
  h.trans (List.suffix_append p l).isInfix

theorem infix_mid (a x y b : Str) : x ++ y <:+: a ++ (x ++ (y ++ b)) :=
  ⟨a, b, by simp⟩

/-- C14: for every mood and username `generateEnhancedTemplates` returns exactly
3 captions, and each of them contains the emoji `getMoodEmoji(mood)` and the
character `#` followed by the mood with every character that is not an ASCII
letter removed, the letters in their original order. -/
theorem templates_emoji_hashtag (toLowerCase : Str → Str) (mood username : Str) :
    (generateEnhancedTemplates toLowerCase mood username).length = 3 ∧
    ∀ c ∈ generateEnhancedTemplates toLowerCase mood username,
      getMoodEmoji toLowerCase mood <:+: c ∧
      utf16 "#" ++ mood.filter isLetter <:+: c := by
  refine ⟨rfl, ?_⟩
  intro c hc
  simp only [generateEnhancedTemplates, List.mem_cons, List.mem_singleton, List.not_mem_nil,
    or_false, hashtagOf_moodNameOf] at hc
  have e1 : utf16 " scene unfolds is pure visual poetry. Every element, from the lighting to the composition, tells its own story. #"
      = utf16 " scene unfolds is pure visual poetry. Every element, from the lighting to the composition, tells its own story. " ++ utf16 "#" := by
    decide
  have e2 : utf16 " that hits you right in the feels. This moment captures that energy perfectly. #"
      = utf16 " that hits you right in the feels. This moment captures that energy perfectly. " ++ utf16 "#" := by
    decide
  have e3 : utf16 " dream looks like. No filters, no faking - just pure authentic vibes. #"
      = utf16 " dream looks like. No filters, no faking - just pure authentic vibes. " ++ utf16 "#" := by
    decide
  rcases hc with h | h | h
  · rw [e1] at h
    simp only [List.append_assoc] at h
    subst h
    exact ⟨List.infix_append' _ _ _,
      infix_skip _ _ _ (infix_skip _ _ _ (infix_skip _ _ _ (infix_skip _ _ _
        (infix_mid _ _ _ _))))⟩
  · rw [e2] at h
    simp only [List.append_assoc] at h
    subst h
    exact ⟨List.infix_append' _ _ _,
      infix_skip _ _ _ (infix_skip _ _ _ (infix_skip _ _ _ (infix_skip _ _ _
        (infix_mid _ _ _ _))))⟩
  · rw [e3] at h
    simp only [List.append_assoc] at h
    subst h
    exact ⟨List.infix_append' _ _ _,
      infix_skip _ _ _ (infix_skip _ _ _ (infix_skip _ _ _ (infix_skip _ _ _
        (infix_mid _ _ _ _))))⟩

end CaptionGenerator

namespace CaptionGenerator

open JS Rx

set_option maxRecDepth 100000 in
/-- C18, evaluated at a failing input: the section holds three entries of the
form `[n] **label**: "text"` with short texts and, after them, three quoted
strings of valid length. The quoted-string tier on its own yields the three
captions, but the numbered tier matches three times, keeps no caption and
returns, so `parseFromSection` returns the empty list. -/
theorem parseFromSection_no_fall_through :
    tierQuoted (utf16
      "[1] **A**: \"short\" [2] **B**: \"short\" [3] **C**: \"short\" \"Golden light on the mountains\" \"This view hits different today\" \"Living that mountain life now\"")
      = some [utf16 "Golden light on the mountains", utf16 "This view hits different today",
              utf16 "Living that mountain life now"] ∧
    parseFromSection (utf16
      "[1] **A**: \"short\" [2] **B**: \"short\" [3] **C**: \"short\" \"Golden light on the mountains\" \"This view hits different today\" \"Living that mountain life now\"")
      = [] := by
  decide

set_option maxRecDepth 100000 in
/-- C19, refuted as stated: when the marker occurs a second time, only the text
between the two occurrences is parsed; here it holds two quoted strings and
gives nothing, while the whole text after the first marker gives three
captions. -/
theorem parse_second_marker_counterexample :
    parseCaptionsFromResponse (stepMarker ++ utf16
      " \"Golden light on the mountains\" \"This view hits different today\" **STEP 3: CAPTIONS** \"Living that mountain life now\"")
      = [] ∧
    parseFromSection (utf16
      " \"Golden light on the mountains\" \"This view hits different today\" **STEP 3: CAPTIONS** \"Living that mountain life now\"")
      = [utf16 "Golden light on the mountains", utf16 "This view hits different today",
         utf16 "Living that mountain life now"] := by
  decide

/-- C19, amended: for every raw text in which the marker occurs exactly once
and is followed by a non-empty text, `parseCaptionsFromResponse` equals
`parseFromSection` applied to the whole text after the marker. -/
theorem parse_after_single_marker (pre rest : Str)
    (hpre : ¬ stepMarker <:+: pre ++ stepMarker.dropLast) (hrest : ¬ stepMarker <:+: rest)
    (hne : rest ≠ []) :
    parseCaptionsFromResponse (pre ++ stepMarker ++ rest) = parseFromSection rest := by
  unfold parseCaptionsFromResponse
  rw [List.append_assoc, sectionAfter_once stepMarker pre rest (by decide) hpre hrest hne]

theorem parse_after_single_marker_witness :
    parseCaptionsFromResponse (utf16 "Here you go. " ++ stepMarker ++ utf16 " 1. one 2. two")
      = parseFromSection (utf16 " 1. one 2. two") :=
  parse_after_single_marker (utf16 "Here you go. ") (utf16 " 1. one 2. two")
    (by decide) (by decide) (by decide)

set_option maxRecDepth 100000 in
/-- C20, refuted as stated: when the quoted strings of the block hold a closing
square bracket, neither fenced-block tier yields three captions and the
quoted-string tier returns the strings as they are, not trimmed. -/
theorem parse_block_untrimmed_counterexample :
    parseFromSection (utf16
      "```[\" caption [one] is here and long \", \" caption [two] is here and long \", \" caption [three] is here and long \"]```")
      = [utf16 " caption [one] is here and long ", utf16 " caption [two] is here and long ",
         utf16 " caption [three] is here and long "] ∧
    trim (utf16 " caption [one] is here and long ") = utf16 "caption [one] is here and long" := by
  decide

/-- C20, amended: for every section made of an opening fence, an optional
`json` tag, white space, `[` and a block content without `]` whose first three
double-quoted strings are at most 200 code units long and, once trimmed, longer
than 20 and shorter than 200, `parseFromSection` returns these three strings,
trimmed, in order, both when the section stops there and when it goes on with
`]` and the closing fence. -/
theorem parse_block_truncated (tag ws body g0 s1 g1 s2 g2 s3 rest : Str)
    (htag : tag = [] ∨ tag = utf16 "json") (hws : ∀ c ∈ ws, isWhiteSpace c = true)
    (hbody : body = g0 ++ quoted s1 ++ g1 ++ quoted s2 ++ g2 ++ quoted s3 ++ rest)
    (hr : rbrack ∉ body)
    (hg0 : quote ∉ g0) (hg1 : quote ∉ g1) (hg2 : quote ∉ g2)
    (hs1 : quote ∉ s1) (hs2 : quote ∉ s2) (hs3 : quote ∉ s3)
    (h1 : s1.length ≤ 200 ∧ lengthOk (trim s1) = true)
    (h2 : s2.length ≤ 200 ∧ lengthOk (trim s2) = true)
    (h3 : s3.length ≤ 200 ∧ lengthOk (trim s3) = true) :
    parseFromSection (fence ++ tag ++ ws ++ [lbrack] ++ body) = [trim s1, trim s2, trim s3] ∧
    parseFromSection (fence ++ tag ++ ws ++ [lbrack] ++ body ++ [rbrack] ++ fence)
      = [trim s1, trim s2, trim s3] := by
  have hform : body = g0 ++ (quoted s1 ++ (g1 ++ (quoted s2 ++ (g2 ++ (quoted s3 ++ rest))))) := by
    rw [hbody]
    simp only [List.append_assoc]
  have hne : body ≠ [] := by
    rw [hform]
    cases g0 <;> simp [quoted]
  have hcap := codeBlock_captions g0 s1 g1 s2 g2 s3 rest hg0 hg1 hg2 hs1 hs2 hs3 h1 h2 h3
  rw [← hform] at hcap
  constructor
  · have hshape : fence ++ tag ++ ws ++ [lbrack] ++ body
        = fence ++ (tag ++ (ws ++ (lbrack :: (body ++ [])))) := by
      simp
    have hnr : rbrack ∉ fence ++ tag ++ ws ++ [lbrack] ++ body := by
      simp only [List.mem_append, List.mem_singleton, not_or]
      refine ⟨⟨⟨⟨by decide, ?_⟩, ?_⟩, by decide⟩, hr⟩
      · rcases htag with h | h <;> subst h <;> decide
      · intro hc
        have := hws rbrack hc
        simp [isWhiteSpace, rbrack] at this
    have hopen : firstMatch (matchCodeBlock false) (fence ++ tag ++ ws ++ [lbrack] ++ body)
        = some body := by
      rw [hshape]
      exact firstMatch_fence _ _ _
        (matchCodeBlock_open_at tag ws body [] htag hws hne hr (Or.inl rfl))
    unfold parseFromSection
    rw [tierCodeBlock_closed_none _ hnr]
    simp only
    unfold tierCodeBlock
    rw [hopen]
    simp only
    rw [hcap]
  · have hshape : fence ++ tag ++ ws ++ [lbrack] ++ body ++ [rbrack] ++ fence
        = fence ++ (tag ++ (ws ++ (lbrack :: (body ++ (rbrack :: (fence ++ [])))))) := by
      simp
    have hclosed : firstMatch (matchCodeBlock true)
        (fence ++ tag ++ ws ++ [lbrack] ++ body ++ [rbrack] ++ fence) = some body := by
      rw [hshape]
      exact firstMatch_fence _ _ _ (matchCodeBlock_closed_at tag ws body [] htag hws hne hr)
    unfold parseFromSection
    unfold tierCodeBlock
    rw [hclosed]
    simp only
    rw [hcap]

set_option maxRecDepth 100000 in
theorem parse_block_truncated_witness :
    parseFromSection (fence ++ utf16 "json" ++ utf16 " " ++ [lbrack] ++
      (quoted (utf16 " Golden light on the mountains") ++ utf16 ", " ++
        quoted (utf16 "This view hits different today") ++ utf16 ", " ++
        quoted (utf16 "Living that mountain life now ") ++ []))
      = [utf16 "Golden light on the mountains", utf16 "This view hits different today",
         utf16 "Living that mountain life now"] ∧
    parseFromSection (fence ++ utf16 "json" ++ utf16 " " ++ [lbrack] ++
      (quoted (utf16 " Golden light on the mountains") ++ utf16 ", " ++
        quoted (utf16 "This view hits different today") ++ utf16 ", " ++
        quoted (utf16 "Living that mountain life now ") ++ []) ++ [rbrack] ++ fence)
      = [utf16 "Golden light on the mountains", utf16 "This view hits different today",
         utf16 "Living that mountain life now"] :=
  parse_block_truncated (utf16 "json") (utf16 " ") _ []
    (utf16 " Golden light on the mountains") (utf16 ", ")
    (utf16 "This view hits different today") (utf16 ", ")
    (utf16 "Living that mountain life now ") []
    (Or.inr rfl) (by decide) rfl (by decide) (by decide) (by decide) (by decide)
    (by decide) (by decide) (by decide) (by decide) (by decide) (by decide)

end CaptionGenerator

namespace RateLimiter

theorem log2Aux_spec : ∀ (fuel n : Nat), 1 ≤ n → n ≤ fuel →
    2 ^ log2Aux fuel n ≤ n ∧ n < 2 ^ (log2Aux fuel n + 1) := by
  intro fuel
  induction fuel with
  | zero => intro n h1 h2; omega
  | succ f ih =>
    intro n h1 h2
    unfold log2Aux
    split
    · rename_i h
      obtain ⟨ha, hb⟩ := ih (n / 2) (by omega) (by omega)
      rw [pow_succ, pow_succ] at *
      constructor <;> omega
    · have : n = 1 := by omega
      subst this
      simp

theorem log2_spec (n : Nat) (h : 1 ≤ n) : 2 ^ log2 n ≤ n ∧ n < 2 ^ (log2 n + 1) :=
  log2Aux_spec n n h (le_refl n)

theorem roundHalfEven_spec (n d : Nat) (hd : 0 < d) :
    2 * (roundHalfEven n d * d) ≤ 2 * n + d ∧ 2 * n ≤ 2 * (roundHalfEven n d * d) + d := by
  have h1 := Nat.div_add_mod n d
  have h2 := Nat.mod_lt n hd
  have h3 : (n / d + 1) * d = d * (n / d) + d := by ring
  have h4 : n / d * d = d * (n / d) := by ring
  unfold roundHalfEven
  split
  · rw [h4]; omega
  · split
    · rw [h3]; omega
    · split
      · rw [h4]; omega
      · rw [h3]; omega

/-- The bound `2 ^ e ≤ a / b` for `e = floorLog2 a b`, without division. -/
theorem floorLog2_le (a b : Nat) (ha : 0 < a) (hb : 0 < b) :
    ∃ k : Nat, (floorLog2 a b = (k : Int) ∧ b * 2 ^ k ≤ a) ∨
      (floorLog2 a b = -(k : Int) ∧ b ≤ a * 2 ^ k) := by
  obtain ⟨a1, a2⟩ := log2_spec a ha
  obtain ⟨b1, b2⟩ := log2_spec b hb
  unfold floorLog2
  split
  · rename_i hle
    split
    · rename_i h
      exact ⟨log2 a - log2 b, Or.inl ⟨rfl, h⟩⟩
    · rename_i h
      by_cases h0 : log2 a - log2 b = 0
      · refine ⟨1, Or.inr ⟨by rw [h0]; simp, ?_⟩⟩
        have : log2 a = log2 b := by omega
        rw [this] at a1 a2
        rw [pow_succ] at b2
        simp
        omega
      · refine ⟨log2 a - log2 b - 1, Or.inl ⟨by omega, ?_⟩⟩
        have e1 : log2 a = (log2 a - log2 b - 1) + (log2 b + 1) := by omega
        have : b * 2 ^ (log2 a - log2 b - 1) ≤ 2 ^ (log2 b + 1) * 2 ^ (log2 a - log2 b - 1) :=
          Nat.mul_le_mul_right _ (le_of_lt b2)
        calc b * 2 ^ (log2 a - log2 b - 1)
            ≤ 2 ^ (log2 b + 1) * 2 ^ (log2 a - log2 b - 1) := this
          _ = 2 ^ log2 a := by rw [← pow_add]; congr 1; omega
          _ ≤ a := a1
  · rename_i hlt
    split
    · rename_i h
      exact ⟨log2 b - log2 a, Or.inr ⟨rfl, h⟩⟩
    · rename_i h
      refine ⟨log2 b - log2 a + 1, Or.inr ⟨by push_cast; omega, ?_⟩⟩
      have e1 : log2 b + 1 = log2 a + (log2 b - log2 a + 1) := by omega
      calc b ≤ 2 ^ (log2 b + 1) := le_of_lt b2
        _ = 2 ^ log2 a * 2 ^ (log2 b - log2 a + 1) := by rw [← pow_add, e1]
        _ ≤ a * 2 ^ (log2 b - log2 a + 1) := Nat.mul_le_mul_right _ a1


theorem rounded_scaled (N D : Nat) (hD : 0 < D) (h : 2 ^ 52 * D ≤ N) :
    0 < roundHalfEven N D ∧
      |((roundHalfEven N D : Nat) : ℚ) - (N : ℚ) / D| ≤ (N : ℚ) / D / 2 ^ 53 := by
  obtain ⟨h1, h2⟩ := roundHalfEven_spec N D hD
  have hDq : (0 : ℚ) < D := by exact_mod_cast hD
  have hpos : 0 < roundHalfEven N D := by
    rcases Nat.eq_zero_or_pos (roundHalfEven N D) with h0 | h0
    · rw [h0] at h2
      omega
    · exact h0
  refine ⟨hpos, ?_⟩
  have q1 : (2 : ℚ) * ((roundHalfEven N D : ℚ) * D) ≤ 2 * N + D := by exact_mod_cast h1
  have q2 : (2 : ℚ) * N ≤ 2 * ((roundHalfEven N D : ℚ) * D) + D := by exact_mod_cast h2
  have q3 : (2 : ℚ) ^ 52 * D ≤ N := by exact_mod_cast h
  have hA : (N : ℚ) / D ≤ (roundHalfEven N D : ℚ) + 1 / 2 := by
    rw [div_le_iff₀ hDq]
    linarith
  have hB : (roundHalfEven N D : ℚ) - 1 / 2 ≤ (N : ℚ) / D := by
    rw [le_div_iff₀ hDq]
    linarith
  have hhalf : |((roundHalfEven N D : Nat) : ℚ) - (N : ℚ) / D| ≤ 1 / 2 := by
    rw [abs_le]
    constructor <;> linarith
  have hbig : (1 : ℚ) / 2 ≤ (N : ℚ) / D / 2 ^ 53 := by
    rw [le_div_iff₀ (by positivity), le_div_iff₀ hDq]
    have : (1 : ℚ) / 2 * 2 ^ 53 = 2 ^ 52 := by norm_num
    rw [this]
    exact q3
  exact le_trans hhalf hbig

/-- The double nearest to `a / b` is positive and within a relative error of
`2 ^ (-53)`. -/
theorem toDouble_spec (a b : Nat) (ha : 0 < a) (hb : 0 < b) :
    0 < (toDouble a b).1 ∧ 0 < (toDouble a b).2 ∧
      |((toDouble a b).1 : ℚ) / (toDouble a b).2 - (a : ℚ) / b| ≤ (a : ℚ) / b / 2 ^ 53 := by
  have hbq : (0 : ℚ) < b := by exact_mod_cast hb
  have caseA : ∀ j : Nat, 2 ^ 52 * b ≤ a * 2 ^ j →
      0 < roundHalfEven (a * 2 ^ j) b ∧ 0 < 2 ^ j ∧
      |((roundHalfEven (a * 2 ^ j) b : Nat) : ℚ) / ((2 ^ j : Nat) : ℚ) - (a : ℚ) / b|
        ≤ (a : ℚ) / b / 2 ^ 53 := by
    intro j hj
    obtain ⟨hp, he⟩ := rounded_scaled (a * 2 ^ j) b hb hj
    refine ⟨hp, by positivity, ?_⟩
    have h2 : (0 : ℚ) < 2 ^ j := by positivity
    have e1 : ((roundHalfEven (a * 2 ^ j) b : Nat) : ℚ) / ((2 ^ j : Nat) : ℚ) - (a : ℚ) / b
        = (((roundHalfEven (a * 2 ^ j) b : Nat) : ℚ) - ((a * 2 ^ j : Nat) : ℚ) / b) / 2 ^ j := by
      push_cast
      field_simp
      ring
    have e2 : (a : ℚ) / b / 2 ^ 53 = ((a * 2 ^ j : Nat) : ℚ) / b / 2 ^ 53 / 2 ^ j := by
      push_cast
      field_simp
      ring
    rw [e1, e2, abs_div, abs_of_pos h2]
    exact div_le_div_of_nonneg_right he (le_of_lt h2)
  have caseB : ∀ j : Nat, 2 ^ 52 * (b * 2 ^ j) ≤ a →
      0 < roundHalfEven a (b * 2 ^ j) * 2 ^ j ∧ 0 < 1 ∧
      |((roundHalfEven a (b * 2 ^ j) * 2 ^ j : Nat) : ℚ) / ((1 : Nat) : ℚ) - (a : ℚ) / b|
        ≤ (a : ℚ) / b / 2 ^ 53 := by
    intro j hj
    obtain ⟨hp, he⟩ := rounded_scaled a (b * 2 ^ j) (by positivity) hj
    refine ⟨by positivity, by norm_num, ?_⟩
    have h2 : (0 : ℚ) < 2 ^ j := by positivity
    have e1 : ((roundHalfEven a (b * 2 ^ j) * 2 ^ j : Nat) : ℚ) / ((1 : Nat) : ℚ) - (a : ℚ) / b
        = (((roundHalfEven a (b * 2 ^ j) : Nat) : ℚ) - (a : ℚ) / ((b * 2 ^ j : Nat) : ℚ)) * 2 ^ j := by
      push_cast
      field_simp
      ring
    have e2 : (a : ℚ) / b / 2 ^ 53 = (a : ℚ) / ((b * 2 ^ j : Nat) : ℚ) / 2 ^ 53 * 2 ^ j := by
      push_cast
      field_simp
      ring
    rw [e1, e2, abs_mul, abs_of_pos h2]
    exact mul_le_mul_of_nonneg_right he (le_of_lt h2)
  obtain ⟨k, hk⟩ := floorLog2_le a b ha hb
  unfold toDouble
  rcases hk with ⟨he, hle⟩ | ⟨he, hle⟩
  · rw [he]
    by_cases h52 : k ≤ 52
    · rw [if_pos (by omega)]
      have hj : (52 - (k : Int)).toNat = 52 - k := by omega
      simp only [hj]
      apply caseA
      calc 2 ^ 52 * b = b * 2 ^ k * 2 ^ (52 - k) := by
            rw [mul_assoc, ← pow_add, mul_comm]; congr 2; omega
        _ ≤ a * 2 ^ (52 - k) := Nat.mul_le_mul_right _ hle
    · rw [if_neg (by omega)]
      have hj : ((k : Int) - 52).toNat = k - 52 := by omega
      simp only [hj]
      apply caseB
      calc 2 ^ 52 * (b * 2 ^ (k - 52)) = b * 2 ^ k := by
            rw [mul_comm, mul_assoc, ← pow_add]; congr 2; omega
        _ ≤ a := hle
  · rw [he]
    rw [if_pos (by omega)]
    have hj : (52 - -(k : Int)).toNat = 52 + k := by omega
    simp only [hj]
    apply caseA
    calc 2 ^ 52 * b ≤ 2 ^ 52 * (a * 2 ^ k) := Nat.mul_le_mul_left _ hle
      _ = a * 2 ^ (52 + k) := by rw [pow_add]; ring


theorem percent_nat (a b : Nat) (ha : 0 < a) (hb : 0 < b) (hu : a < 2 ^ 43)
    (hhalf : (200 * a + b) % (2 * b) ≠ 0) :
    (2 * (toDouble ((toDouble a b).1 * 100) (toDouble a b).2).1
        + (toDouble ((toDouble a b).1 * 100) (toDouble a b).2).2)
      / (2 * (toDouble ((toDouble a b).1 * 100) (toDouble a b).2).2)
      = (200 * a + b) / (2 * b) := by
  obtain ⟨hx1, hx2, hx⟩ := toDouble_spec a b ha hb
  generalize toDouble a b = x at hx1 hx2 hx ⊢
  obtain ⟨n1, d1⟩ := x
  simp only at hx1 hx2 hx ⊢
  obtain ⟨hy1, hy2, hy⟩ := toDouble_spec (n1 * 100) d1 (by positivity) hx2
  generalize toDouble (n1 * 100) d1 = y at hy1 hy2 hy ⊢
  obtain ⟨n2, d2⟩ := y
  simp only at hy1 hy2 hy ⊢
  have hbq : (0 : ℚ) < b := by exact_mod_cast hb
  have haq : (0 : ℚ) < a := by exact_mod_cast ha
  have hd1 : (0 : ℚ) < d1 := by exact_mod_cast hx2
  have hd2 : (0 : ℚ) < d2 := by exact_mod_cast hy2
  have huq : (a : ℚ) < 2 ^ 43 := by exact_mod_cast hu
  -- the three values
  set X : ℚ := (n1 : ℚ) / d1 with hX
  set Y : ℚ := (n2 : ℚ) / d2 with hY
  set q : ℚ := (a : ℚ) / b with hq
  have hqpos : 0 < q := div_pos haq hbq
  have hy' : |Y - 100 * X| ≤ 100 * X / 2 ^ 53 := by
    have e : ((n1 * 100 : Nat) : ℚ) / d1 = 100 * X := by
      rw [hX]; push_cast; ring
    rw [e] at hy
    exact hy
  obtain ⟨hx_lo, hx_hi⟩ := abs_le.mp hx
  obtain ⟨hy_lo, hy_hi⟩ := abs_le.mp hy'
  have hXle : X ≤ q + q / 2 ^ 53 := by linarith
  -- the distance of `Y` from the exact percentage
  have hqb : q * b = a := by rw [hq]; field_simp
  have hsmall : 100 * (q + q / 2 ^ 53) / 2 ^ 53 + 100 * (q / 2 ^ 53) < 1 / (2 * b) := by
    have e : 100 * (q + q / 2 ^ 53) / 2 ^ 53 + 100 * (q / 2 ^ 53)
        = (a : ℚ) * (100 * (1 + 1 / 2 ^ 53) / 2 ^ 53 + 100 / 2 ^ 53) / b := by
      rw [hq]; field_simp; ring
    rw [e, div_lt_div_iff₀ hbq (by positivity)]
    have : (a : ℚ) * (100 * (1 + 1 / 2 ^ 53) / 2 ^ 53 + 100 / 2 ^ 53) < 1 / 2 := by
      have h1 : (a : ℚ) * (100 * (1 + 1 / 2 ^ 53) / 2 ^ 53 + 100 / 2 ^ 53)
          < 2 ^ 43 * (100 * (1 + 1 / 2 ^ 53) / 2 ^ 53 + 100 / 2 ^ 53) :=
        mul_lt_mul_of_pos_right huq (by positivity)
      have h2 : (2 : ℚ) ^ 43 * (100 * (1 + 1 / 2 ^ 53) / 2 ^ 53 + 100 / 2 ^ 53) < 1 / 2 := by
        norm_num
      linarith
    nlinarith
  have hY_lo : 100 * q - 1 / (2 * b) < Y := by
    have : 100 * X / 2 ^ 53 ≤ 100 * (q + q / 2 ^ 53) / 2 ^ 53 := by
      apply div_le_div_of_nonneg_right _ (by positivity)
      linarith
    linarith
  have hY_hi : Y < 100 * q + 1 / (2 * b) := by
    have : 100 * X / 2 ^ 53 ≤ 100 * (q + q / 2 ^ 53) / 2 ^ 53 := by
      apply div_le_div_of_nonneg_right _ (by positivity)
      linarith
    linarith
  -- the exact percentage plus one half, between two integers
  have hdm := Nat.div_add_mod (200 * a + b) (2 * b)
  have hr2 := Nat.mod_lt (200 * a + b) (show 0 < 2 * b by omega)
  set K := (200 * a + b) / (2 * b) with hK
  set r := (200 * a + b) % (2 * b) with hr
  have hr1 : 1 ≤ r := Nat.one_le_iff_ne_zero.mpr hhalf
  have hdmq : (200 : ℚ) * a + b = 2 * b * K + r := by exact_mod_cast hdm.symm
  have hr1q : (1 : ℚ) ≤ r := by exact_mod_cast hr1
  have hr2q : (r : ℚ) + 1 ≤ 2 * b := by exact_mod_cast hr2
  have hE : 100 * q + 1 / 2 = K + r / (2 * b) := by
    rw [hq]
    field_simp
    linear_combination (2 * (b : ℚ)) * hdmq
  have hfr1 : 1 / (2 * (b : ℚ)) ≤ r / (2 * b) :=
    div_le_div_of_nonneg_right hr1q (by positivity)
  have hfr2 : (r : ℚ) / (2 * b) ≤ 1 - 1 / (2 * b) := by
    rw [div_le_iff₀ (by positivity)]
    have : (1 - 1 / (2 * (b : ℚ))) * (2 * b) = 2 * b - 1 := by
      rw [sub_mul, one_mul, one_div, inv_mul_cancel₀ (by positivity)]
    rw [this]
    linarith
  have hlo : (K : ℚ) < Y + 1 / 2 := by linarith
  have hhi : Y + 1 / 2 < K + 1 := by linarith
  apply Nat.div_eq_of_lt_le
  · have : (K : ℚ) * (2 * d2) ≤ 2 * n2 + d2 := by
      have e : Y + 1 / 2 = (2 * n2 + d2) / (2 * d2) := by rw [hY]; field_simp; ring
      rw [e, lt_div_iff₀ (by positivity)] at hlo
      exact le_of_lt hlo
    exact_mod_cast this
  · have : (2 : ℚ) * n2 + d2 < (K + 1) * (2 * d2) := by
      have e : Y + 1 / 2 = (2 * n2 + d2) / (2 * d2) := by rw [hY]; field_simp; ring
      rw [e, div_lt_iff₀ (by positivity)] at hhi
      exact hhi
    exact_mod_cast this

/-- In double arithmetic `Math.round((used / limit) * 100)` is the exact
quotient `100 * used / limit` rounded half up, whenever `used` is below
`2 ^ 43` and the exact quotient is not half-way between two integers. -/
theorem percentageUsed_exact (used : Nat) (limit : Int) (hl : 0 < limit) (hu : used < 2 ^ 43)
    (hhalf : (200 * (used : Int) + limit) % (2 * limit) ≠ 0) :
    percentageUsed used limit = some ((200 * (used : Int) + limit) / (2 * limit)) := by
  obtain ⟨b, hb⟩ : ∃ b : Nat, limit = (b : Int) := ⟨limit.toNat, by omega⟩
  subst hb
  have hbpos : 0 < b := by omega
  unfold percentageUsed
  rw [if_neg (by omega)]
  by_cases h0 : used = 0
  · subst h0
    rw [if_pos rfl]
    congr 1
    simp only [Nat.cast_zero, mul_zero, zero_add]
    rw [Int.ediv_eq_zero_of_lt (by omega) (by omega)]
  · rw [if_neg h0]
    have hhalf2 : (200 * used + b) % (2 * b) ≠ 0 := by
      intro h
      apply hhalf
      exact_mod_cast h
    have hn := percent_nat used b (Nat.pos_of_ne_zero h0) hbpos hu hhalf2
    simp only [Int.natAbs_ofNat, Int.sign_eq_one_of_pos hl, one_mul]
    congr 1
    exact_mod_cast hn


theorem getUserStatus_of_count (rl : Limiter) (store : Store) (zone : TimeZone) (now : Int) (userId : Str)
    (limit : Int) (used : Nat) (hw : userId ∉ rl.whitelist)
    (hs : store.countDocuments userId (startOfDay zone now)
      (startOfDay zone now + rl.resetTime) = some used) :
    getUserStatus rl store zone now userId limit =
      { userId := userId, used := used, remaining := max 0 (limit - (used : Int)),
        limit := limit, resetTime := startOfDay zone now + rl.resetTime,
        percentageUsed := percentageUsed used limit,
        isLimited := decide (max 0 (limit - (used : Int)) = 0), whitelisted := some false } := by
  unfold getUserStatus
  rw [contains_false_of_not_mem _ _ hw]
  simp only [hs]
  rfl

/-- C15, refuted as stated: with 23 records and a limit of 40 the exact
percentage is 57.5, which rounds half up to 58, but the double `23 / 40` times
100 is `57.49999999999999` and `Math.round` gives 57. -/
theorem percentageUsed_counterexample :
    (getUserStatus Limiter.new (storeReporting 23) (fixedOffset 0) 1000 (utf16 "user42") 40).percentageUsed
      = some 57 ∧
    (200 * ((23 : Nat) : Int) + 40) / (2 * 40) = 58 ∧
    (200 * ((23 : Nat) : Int) + 40) % (2 * 40) = 0 := by
  decide

/-- C15, amended: for a user outside the whitelist, a limit above 0 and a store
that reports `used` records today, `isLimited` is `remaining = 0`, which holds
exactly when `used ≥ limit`; and `percentageUsed` is `100 * used / limit`
rounded to the nearest integer, provided `used` is below `2 ^ 43` and the exact
quotient is not half-way between two integers. -/
theorem getUserStatus_percentage (rl : Limiter) (store : Store) (zone : TimeZone) (now : Int) (userId : Str)
    (limit : Int) (used : Nat) (hw : userId ∉ rl.whitelist)
    (hs : store.countDocuments userId (startOfDay zone now)
      (startOfDay zone now + rl.resetTime) = some used)
    (hl : 0 < limit) :
    (getUserStatus rl store zone now userId limit).isLimited
      = decide ((getUserStatus rl store zone now userId limit).remaining = 0) ∧
    ((getUserStatus rl store zone now userId limit).isLimited = true ↔ limit ≤ (used : Int)) ∧
    (used < 2 ^ 43 → (200 * (used : Int) + limit) % (2 * limit) ≠ 0 →
      (getUserStatus rl store zone now userId limit).percentageUsed
        = some ((200 * (used : Int) + limit) / (2 * limit))) := by
  rw [getUserStatus_of_count rl store zone now userId limit used hw hs]
  refine ⟨rfl, ?_, ?_⟩
  · simp only [decide_eq_true_eq]
    omega
  · intro hu hhalf
    exact percentageUsed_exact used limit hl hu hhalf

theorem getUserStatus_percentage_witness :
    (getUserStatus Limiter.new store24 (fixedOffset 0) 1000 (utf16 "user42") 25).percentageUsed
      = some ((200 * ((24 : Nat) : Int) + 25) / (2 * 25)) :=
  (getUserStatus_percentage Limiter.new store24 (fixedOffset 0) 1000 (utf16 "user42") 25 24
    (by decide) rfl (by decide)).2.2 (by decide) (by decide)

end RateLimiter

namespace CaptionGenerator

open JS Rx

/-- C24: every string that `parseFromSection` returns, from whichever tier, is
longer than 20 and shorter than 200 code units; a string of exactly 20 or
exactly 200 code units is never returned. -/
theorem parseFromSection_length_bounds (sec c : Str) (h : c ∈ parseFromSection sec) :
    20 < c.length ∧ c.length < 200 ∧ c.length ≠ 20 ∧ c.length ≠ 200 := by
  have hb := (lengthOk_iff c).mp ((parseFromSection_mem sec).2 c h)
  omega

set_option maxRecDepth 100000 in
theorem parseFromSection_length_bounds_witness :
    20 < (utf16 "123456789012345678901").length ∧
    (utf16 "123456789012345678901").length < 200 :=
  ⟨(parseFromSection_length_bounds
      (utf16 "\"123456789012345678901\" \"12345678901234567890\" \"12345678901234567890\"")
      (utf16 "123456789012345678901") (by decide)).1,
   (parseFromSection_length_bounds
      (utf16 "\"123456789012345678901\" \"12345678901234567890\" \"12345678901234567890\"")
      (utf16 "123456789012345678901") (by decide)).2.1⟩

theorem templates_head (toLowerCase : Str → Str) (mood username : Str) :
    ((generateEnhancedTemplates toLowerCase mood username).head?.bind List.head?) = some 55357 ∧
    ((generateFallbackCaptions toLowerCase mood username).head?.bind List.head?) = some 65 := by
  have e1 : utf16 "📸 " = [55357, 56568, 32] := by decide
  have e2 : utf16 "Amazing " = [65, 109, 97, 122, 105, 110, 103, 32] := by decide
  simp [generateEnhancedTemplates, generateFallbackCaptions, e1, e2]

theorem templates_ne_fallback (toLowerCase : Str → Str) (mood username : Str) :
    generateEnhancedTemplates toLowerCase mood username
      ≠ generateFallbackCaptions toLowerCase mood username := by
  intro h
  have h1 := (templates_head toLowerCase mood username).1
  have h2 := (templates_head toLowerCase mood username).2
  rw [h, h2] at h1
  simp at h1

theorem generateWithRealImageAnalysis_cases (toLowerCase : Str → Str) (b : Boundary)
    (st : GenState) (imageUrl mood username : Str) :
    (generateWithRealImageAnalysis toLowerCase b st imageUrl mood username).1
        = generateEnhancedTemplates toLowerCase mood username ∨
    ∃ n key text, b.infer n key = some text ∧
      (generateWithRealImageAnalysis toLowerCase b st imageUrl mood username).1
        = parseCaptionsFromResponse text ∧
      (parseCaptionsFromResponse text).length = 3 := by
  unfold generateWithRealImageAnalysis
  split
  · exact Or.inl rfl
  · rename_i key _
    split
    · split
      · exact Or.inl rfl
      · rename_i text htext
        simp only
        split
        · rename_i h3
          have hle := (parseCaptionsFromResponse_mem text).1
          exact Or.inr ⟨_, key, text, htext, rfl, by omega⟩
        · exact Or.inl rfl
    · exact Or.inl rfl

theorem generateCaptions_eq (toLowerCase : Str → Str) (b : Boundary)
    (geminiKeys : Option Str) (st : GenState) (imageUrl mood username : Str) :
    generateCaptions toLowerCase b geminiKeys st imageUrl mood username
      = generateWithRealImageAnalysis toLowerCase b
          ((initializeKeys geminiKeys st).getD (rotateKey geminiKeys st))
          imageUrl mood username := by
  unfold generateCaptions
  cases h : initializeKeys geminiKeys st with
  | some st1 => rfl
  | none =>
    have hs := generateWithRealImageAnalysis_shape toLowerCase b (rotateKey geminiKeys st)
      imageUrl mood username
    simp only [Option.getD_none]
    rw [if_pos (by rw [hs.1]; decide)]

/-- C26: the result of `generateCaptions` is either 3 captions parsed from a
text that the model returned or exactly
`generateEnhancedTemplates(mood, username)`; it is the templates when the model
throws, when initialisation fails for lack of keys, and when parsing yields
fewer than 3 captions. The branch that returns `generateFallbackCaptions` is
never taken: `generateCaptions` returns what `generateWithRealImageAnalysis`
returns, and the enhanced templates differ from the fallback captions. -/
theorem generateCaptions_templates_or_parsed (toLowerCase : Str → Str) (b : Boundary)
    (geminiKeys : Option Str) (st : GenState) (imageUrl mood username : Str) :
    ((generateCaptions toLowerCase b geminiKeys st imageUrl mood username).1
        = generateEnhancedTemplates toLowerCase mood username ∨
      ∃ n key text, b.infer n key = some text ∧
        (generateCaptions toLowerCase b geminiKeys st imageUrl mood username).1
          = parseCaptionsFromResponse text ∧
        (parseCaptionsFromResponse text).length = 3) ∧
    ((∀ n key, b.infer n key = none) →
      (generateCaptions toLowerCase b geminiKeys st imageUrl mood username).1
        = generateEnhancedTemplates toLowerCase mood username) ∧
    ((∀ n key text, b.infer n key = some text → (parseCaptionsFromResponse text).length < 3) →
      (generateCaptions toLowerCase b geminiKeys st imageUrl mood username).1
        = generateEnhancedTemplates toLowerCase mood username) ∧
    (initializeKeys geminiKeys st = none → st.genAI = none →
      (generateCaptions toLowerCase b geminiKeys st imageUrl mood username).1
        = generateEnhancedTemplates toLowerCase mood username) ∧
    generateCaptions toLowerCase b geminiKeys st imageUrl mood username
      = generateWithRealImageAnalysis toLowerCase b
          ((initializeKeys geminiKeys st).getD (rotateKey geminiKeys st))
          imageUrl mood username ∧
    generateEnhancedTemplates toLowerCase mood username
      ≠ generateFallbackCaptions toLowerCase mood username := by
  have heq := generateCaptions_eq toLowerCase b geminiKeys st imageUrl mood username
  have hc := generateWithRealImageAnalysis_cases toLowerCase b
    ((initializeKeys geminiKeys st).getD (rotateKey geminiKeys st)) imageUrl mood username
  rw [← heq] at hc
  refine ⟨hc, ?_, ?_, ?_, heq, templates_ne_fallback toLowerCase mood username⟩
  · intro hthrow
    rcases hc with h | ⟨n, key, text, h1, _, _⟩
    · exact h
    · rw [hthrow n key] at h1
      exact absurd h1 (by simp)
  · intro hshort
    rcases hc with h | ⟨n, key, text, h1, _, h3⟩
    · exact h
    · have := hshort n key text h1
      omega
  · intro hinit hgen
    rw [heq, hinit]
    simp only [Option.getD_none]
    have hrot : (rotateKey geminiKeys st).genAI = none := by
      unfold initializeKeys at hinit
      split at hinit
      · simp at hinit
      · split at hinit
        · rename_i hk
          simp [rotateKey, hk, hgen]
        · simp at hinit
    simp [generateWithRealImageAnalysis, hrot]

theorem generateCaptions_templates_or_parsed_witness :
    (generateCaptions asciiLower throwingModel twoKeys GenState.new
        (utf16 "http://img") (utf16 "fun") (utf16 "ann")).1
      = generateEnhancedTemplates asciiLower (utf16 "fun") (utf16 "ann") :=
  (generateCaptions_templates_or_parsed asciiLower throwingModel twoKeys GenState.new
    (utf16 "http://img") (utf16 "fun") (utf16 "ann")).2.1 (fun _ _ => rfl)

end CaptionGenerator

namespace RateLimiter

/-- C25: for every user, limit, store (a throwing one included) and time,
`canMakeRequest(userId, limit).allowed` is true exactly when
`getUserStatus(userId, limit).isLimited` is false. -/
theorem allowed_iff_not_limited (rl : Limiter) (store : Store) (zone : TimeZone) (now : Int) (userId : Str)
    (limit : Int) :
    (canMakeRequest rl store zone now userId limit).allowed = true ↔
      (getUserStatus rl store zone now userId limit).isLimited = false := by
  unfold canMakeRequest getUserStatus
  cases hw : rl.whitelist.contains userId
  · simp only [Bool.false_eq_true, if_false]
    cases hs : store.countDocuments userId (startOfDay zone now) (startOfDay zone now + rl.resetTime)
    · simp
    · simp only [decide_eq_true_eq, decide_eq_false_iff_not]
      omega
  · simp

theorem whitelist_call_nodup (rl : Limiter) (call : WhitelistCall) (h : rl.whitelist.Nodup) :
    (applyCall rl call).whitelist.Nodup := by
  cases call with
  | add userId =>
    simp only [applyCall, addToWhitelist]
    split
    · exact h
    · rename_i hc
      have hn : userId ∉ rl.whitelist := by simpa using hc
      simp only
      rw [List.nodup_append]
      refine ⟨h, List.nodup_singleton _, ?_⟩
      intro a ha hb
      rw [List.mem_singleton] at hb
      subst hb
      exact hn ha
  | remove userId =>
    simp only [applyCall, removeFromWhitelist]
    exact h.erase _

theorem whitelist_calls_nodup (calls : List WhitelistCall) :
    ∀ rl : Limiter, rl.whitelist.Nodup → (applyCalls rl calls).whitelist.Nodup := by
  induction calls with
  | nil => intro rl h; exact h
  | cons c cs ih =>
    intro rl h
    exact ih (applyCall rl c) (whitelist_call_nodup rl c h)

/-- C17: on every whitelist that the constructor and a sequence of
`addToWhitelist` and `removeFromWhitelist` calls build, and for every user id,
`addToWhitelist` twice leaves the whitelist that one call leaves,
`removeFromWhitelist` twice leaves the whitelist that one call leaves, and
`removeFromWhitelist` of an id that is not listed leaves the whitelist as it
was. -/
theorem whitelist_idempotent (calls : List WhitelistCall) (userId : Str) :
    addToWhitelist (addToWhitelist (applyCalls Limiter.new calls) userId) userId
      = addToWhitelist (applyCalls Limiter.new calls) userId ∧
    removeFromWhitelist (removeFromWhitelist (applyCalls Limiter.new calls) userId) userId
      = removeFromWhitelist (applyCalls Limiter.new calls) userId ∧
    (userId ∉ (applyCalls Limiter.new calls).whitelist →
      removeFromWhitelist (applyCalls Limiter.new calls) userId
        = applyCalls Limiter.new calls) := by
  have h := whitelist_mutation_of_nodup (applyCalls Limiter.new calls) userId
  exact ⟨h.1, h.2.2 (whitelist_calls_nodup calls Limiter.new (by decide)), h.2.1⟩

theorem whitelist_idempotent_witness :
    utf16 "u" ∉ (applyCalls Limiter.new
        [WhitelistCall.add (utf16 "u"), WhitelistCall.remove (utf16 "u")]).whitelist ∧
    removeFromWhitelist (applyCalls Limiter.new
        [WhitelistCall.add (utf16 "u"), WhitelistCall.remove (utf16 "u")]) (utf16 "u")
      = applyCalls Limiter.new
        [WhitelistCall.add (utf16 "u"), WhitelistCall.remove (utf16 "u")] :=
  ⟨by decide,
   (whitelist_idempotent [WhitelistCall.add (utf16 "u"), WhitelistCall.remove (utf16 "u")]
     (utf16 "u")).2.2 (by decide)⟩

/-- C27: after any sequence of `addToWhitelist` and `removeFromWhitelist`
calls on the whitelist of the constructor, no user id is listed twice; so right
after `removeFromWhitelist(u)` the id `u` is not listed and `canMakeRequest(u)`
does not return the `whitelisted: true` result of the bypass. -/
theorem whitelist_no_duplicates (calls : List WhitelistCall) (store : Store) (zone : TimeZone) (now : Int)
    (u : Str) (limit : Int) :
    (applyCalls Limiter.new calls).whitelist.Nodup ∧
    u ∉ (removeFromWhitelist (applyCalls Limiter.new calls) u).whitelist ∧
    (canMakeRequest (removeFromWhitelist (applyCalls Limiter.new calls) u) store zone now u
      limit).whitelisted ≠ some true := by
  have hn := whitelist_calls_nodup calls Limiter.new (by decide)
  have hu : u ∉ (removeFromWhitelist (applyCalls Limiter.new calls) u).whitelist := by
    intro hm
    exact ((List.Nodup.mem_erase_iff hn).mp hm).1 rfl
  refine ⟨hn, hu, ?_⟩
  unfold canMakeRequest
  rw [contains_false_of_not_mem _ _ hu]
  simp only [Bool.false_eq_true, if_false]
  split <;> simp

/-- C29: with `d = resetTime - now` in integer milliseconds,
`getTimeUntilReset` returns `(0, 0, 0)` when `d ≤ 0`, and otherwise hours,
minutes and seconds with `0 ≤ minutes < 60`, `0 ≤ seconds < 60` and
`0 ≤ d - (hours*3600000 + minutes*60000 + seconds*1000) < 1000`. -/
theorem getTimeUntilReset_spec (resetTime now : Int) :
    (resetTime - now ≤ 0 →
      getTimeUntilReset resetTime now = { hours := 0, minutes := 0, seconds := 0 }) ∧
    (0 < resetTime - now →
      0 ≤ (getTimeUntilReset resetTime now).hours ∧
      0 ≤ (getTimeUntilReset resetTime now).minutes ∧
      (getTimeUntilReset resetTime now).minutes < 60 ∧
      0 ≤ (getTimeUntilReset resetTime now).seconds ∧
      (getTimeUntilReset resetTime now).seconds < 60 ∧
      0 ≤ resetTime - now - ((getTimeUntilReset resetTime now).hours * 3600000
        + (getTimeUntilReset resetTime now).minutes * 60000
        + (getTimeUntilReset resetTime now).seconds * 1000) ∧
      resetTime - now - ((getTimeUntilReset resetTime now).hours * 3600000
        + (getTimeUntilReset resetTime now).minutes * 60000
        + (getTimeUntilReset resetTime now).seconds * 1000) < 1000) := by
  constructor
  · intro h
    simp [getTimeUntilReset, h]
  · intro h
    have hn : ¬ resetTime - now ≤ 0 := by omega
    simp only [getTimeUntilReset, if_neg hn]
    norm_num
    omega

theorem getTimeUntilReset_spec_witness :
    (getTimeUntilReset 3725999 0).minutes < 60 ∧
    (getTimeUntilReset 3725999 0).seconds < 60 ∧
    getTimeUntilReset 0 5 = { hours := 0, minutes := 0, seconds := 0 } :=
  ⟨((getTimeUntilReset_spec 3725999 0).2 (by decide)).2.2.1,
   ((getTimeUntilReset_spec 3725999 0).2 (by decide)).2.2.2.2.1,
   (getTimeUntilReset_spec 0 5).1 (by decide)⟩

end RateLimiter

namespace Routes

open CaptionGenerator RateLimiter

theorem countToday_append_in (db : Db) (u : Str) (s : Int) (r : Record)
    (h : inQuery u s (s + 86400000) r = true) :
    countToday (db ++ [r]) u s = countToday db u s + 1 := by
  simp [countToday, List.filter_append, h]

theorem postGenerate_ok (toLowerCase : Str → Str) (b : Boundary)
    (geminiKeys : Option Str) (rl : Limiter) (zone : TimeZone) (sv : Server) (req : GenerateRequest)
    (captions : List Str) (remaining : Int)
    (hok : (postGenerate toLowerCase b geminiKeys rl zone sv req).1
      = Response.ok captions remaining) :
    (canMakeRequest rl (dbStore sv.db) zone req.now (orElseStr req.userId req.ip) 25).allowed
      = true ∧
    remaining
      = (canMakeRequest rl (dbStore sv.db) zone req.now (orElseStr req.userId req.ip) 25).remaining ∧
    (postGenerate toLowerCase b geminiKeys rl zone sv req).2.db
      = sv.db ++ [Record.mk (orElseStr req.userId req.ip) req.imageUrl
          (orElseStr req.imageName (utf16 "uploaded_image")) req.mood
          (generateCaptions toLowerCase b geminiKeys sv.gen req.imageUrl req.mood
            (orElseStr req.userId (utf16 "anonymous"))).1 req.savedAt] := by
  unfold postGenerate at hok ⊢
  by_cases h1 : req.imageUrl = [] ∨ req.mood = []
  · rw [if_pos h1] at hok
    simp at hok
  · rw [if_neg h1] at hok ⊢
    simp only at hok ⊢
    by_cases h2 : (canMakeRequest rl (dbStore sv.db) zone req.now
        (orElseStr req.userId req.ip) 25).allowed = false
    · rw [if_pos h2] at hok
      simp at hok
    · rw [if_neg h2] at hok ⊢
      by_cases h3 : (generateCaptions toLowerCase b geminiKeys sv.gen req.imageUrl req.mood
          (orElseStr req.userId (utf16 "anonymous"))).1 = []
      · rw [if_pos h3] at hok
        simp at hok
      · rw [if_neg h3] at hok ⊢
        by_cases h4 : orElseStr req.userId req.ip = []
        · rw [if_pos h4] at hok
          simp at hok
        · rw [if_neg h4] at hok ⊢
          simp only [Response.ok.injEq] at hok
          refine ⟨by simpa using h2, hok.2.symm, rfl⟩

/-- The answer within the 24-hour window, in every time zone: with a working
store, for a user outside the whitelist whose request is checked against the day
that starts at the local midnight `s` and whose record is created in
`[s, s + 24h)`, the `remaining` value of a successful `POST /generate` response
is the one computed by the quota check before the record was saved, and it is
exactly one more than the `remaining` that `canMakeRequest` reports at a later
instant of the day that starts at `s`. -/
theorem generate_remaining_in_window (toLowerCase : Str → Str) (b : Boundary)
    (geminiKeys : Option Str) (rl : Limiter) (zone : TimeZone) (u : Str) (s : Int)
    (sv : Server) (req : GenerateRequest) (captions : List Str) (remaining now2 : Int)
    (hreset : rl.resetTime = 24 * 60 * 60 * 1000) (hw : u ∉ rl.whitelist)
    (hreq : InDay zone u s req) (hnow2 : startOfDay zone now2 = s)
    (hok : (postGenerate toLowerCase b geminiKeys rl zone sv req).1
      = Response.ok captions remaining) :
    remaining = (canMakeRequest rl (dbStore sv.db) zone req.now u 25).remaining ∧
    remaining = (canMakeRequest rl
      (dbStore (postGenerate toLowerCase b geminiKeys rl zone sv req).2.db) zone now2 u 25).remaining
      + 1 := by
  obtain ⟨hu, hs, hs1, hs2⟩ := hreq
  have hreset2 : rl.resetTime = 86400000 := by rw [hreset]; norm_num
  obtain ⟨hallow, hrem, hdb⟩ :=
    postGenerate_ok toLowerCase b geminiKeys rl zone sv req captions remaining hok
  rw [hu] at hallow hrem hdb
  have hchk := canMakeRequest_of_count rl (dbStore sv.db) zone req.now u 25
    (countToday sv.db u s) hw (by simp only [dbStore, countToday, hs, hreset2])
  have hin : inQuery u s (s + 86400000)
      (Record.mk u req.imageUrl (orElseStr req.imageName (utf16 "uploaded_image"))
        req.mood
        (generateCaptions toLowerCase b geminiKeys sv.gen req.imageUrl req.mood
          (orElseStr req.userId (utf16 "anonymous"))).1 req.savedAt) = true := by
    simp [inQuery, hs1, hs2]
  have hafter := canMakeRequest_of_count rl
    (dbStore (postGenerate toLowerCase b geminiKeys rl zone sv req).2.db) zone now2 u 25
    (countToday sv.db u s + 1) hw
    (by simp only [dbStore, hnow2, hreset2, hdb]
        rw [← countToday_append_in sv.db u s _ hin]
        rfl)
  rw [hchk] at hallow hrem
  simp only [decide_eq_true_eq] at hallow
  rw [hafter, hchk]
  simp only at hrem ⊢
  refine ⟨hrem, ?_⟩
  rw [hrem]
  push_cast
  omega

set_option maxRecDepth 100000 in
theorem generate_remaining_in_window_witness :
    (24 : Int) = (canMakeRequest Limiter.new
      (dbStore [Record.mk (utf16 "user42") (utf16 "u1") (utf16 "a.png") (utf16 "fun") [] 1000])
      (fixedOffset 0) 5000 (utf16 "user42") 25).remaining ∧
    (24 : Int) = (canMakeRequest Limiter.new
      (dbStore (postGenerate asciiLower (modelSaying (utf16 "hello")) twoKeys Limiter.new (fixedOffset 0)
        { gen := GenState.new,
          db := [Record.mk (utf16 "user42") (utf16 "u1") (utf16 "a.png") (utf16 "fun") [] 1000] }
        sampleRequest).2.db) (fixedOffset 0) 7000 (utf16 "user42") 25).remaining + 1 :=
  generate_remaining_in_window asciiLower (modelSaying (utf16 "hello")) twoKeys Limiter.new
    (fixedOffset 0) (utf16 "user42") 0
    { gen := GenState.new,
      db := [Record.mk (utf16 "user42") (utf16 "u1") (utf16 "a.png") (utf16 "fun") [] 1000] }
    sampleRequest
    (generateEnhancedTemplates asciiLower (utf16 "fun") (utf16 "user42")) 24 7000
    rfl (by decide) (by decide) (by decide) (by decide)

/-- The hours of 2 November 2025 in New York: the day starts at 04:00 UTC, the
24-hour window of the limiter ends at 04:00 UTC of 3 November, which is 23:00
local time of the same calendar day, and the next calendar day starts an hour
later. -/
theorem newYork_long_day :
    startOfDay newYork 1762144200000 = 1762056000000 ∧
    startOfDay newYork 1762144200000 + Limiter.new.resetTime = 1762142400000 ∧
    calendarDay newYork 1762142400000 = 20394 ∧
    calendarDay newYork 1762145999999 = 20394 ∧
    calendarDay newYork 1762146000000 = 20395 ∧
    startOfDay newYork 1762146000000 = 1762146000000 := by
  decide

set_option maxRecDepth 100000 in
/-- C13, the code on a day of 25 hours: on a host in the zone of New York,
`user42` (outside the whitelist) has 24 records of 2 November 2025, 10:00 local
time, and sends five requests between 23:30 and 23:35 local time of that day.
Every check and every record of the run falls on that calendar day; every
request is answered 200 with `remaining` 1, as the window read by
`canMakeRequest` ended at 23:00 and still holds 24 records; and 29 records of the
user are stored for that calendar day at the end of the run. -/
theorem generate_quota_exceeded_on_long_day :
    utf16 "user42" ∉ Limiter.new.whitelist ∧
    countOnDay newYork longDayServer.db (utf16 "user42") 20394 = 24 ∧
    lateRequests.map (fun req => (calendarDay newYork req.now, calendarDay newYork req.savedAt))
      = List.replicate 5 (20394, 20394) ∧
    (runResponses asciiLower (modelSaying (utf16 "hello")) twoKeys Limiter.new newYork
      longDayServer lateRequests).map okRemaining
      = [some 1, some 1, some 1, some 1, some 1] ∧
    countOnDay newYork (run asciiLower (modelSaying (utf16 "hello")) twoKeys Limiter.new newYork
      longDayServer lateRequests).db (utf16 "user42") 20394 = 29 ∧
    (canMakeRequest Limiter.new
      (dbStore (run asciiLower (modelSaying (utf16 "hello")) twoKeys Limiter.new newYork
        longDayServer lateRequests).db) newYork 1762144500000 (utf16 "user42") 25).todayRequests
      = 24 := by
  decide

set_option maxRecDepth 100000 in
/-- C30, the code on a day of 25 hours: on a host in the zone of New York,
`user42` (outside the whitelist) has 24 records of 2 November 2025 and sends a
request at 23:30 local time of that day. The answer is 200 with `remaining` 1,
the value computed before the record was saved; the record is created one second
later, on the same calendar day; and two seconds after the check, still on that
day, `canMakeRequest` reports `remaining` 1 again, not 0. -/
theorem generate_remaining_on_long_day :
    okRemaining (postGenerate asciiLower (modelSaying (utf16 "hello")) twoKeys Limiter.new
      newYork longDayServer (requestAt 1762144200000)).1 = some 1 ∧
    (canMakeRequest Limiter.new (dbStore longDayServer.db) newYork 1762144200000
      (utf16 "user42") 25).remaining = 1 ∧
    (postGenerate asciiLower (modelSaying (utf16 "hello")) twoKeys Limiter.new
      newYork longDayServer (requestAt 1762144200000)).2.db.length = 25 ∧
    calendarDay newYork (requestAt 1762144200000).now = 20394 ∧
    calendarDay newYork (requestAt 1762144200000).savedAt = 20394 ∧
    calendarDay newYork 1762144202000 = 20394 ∧
    (canMakeRequest Limiter.new
      (dbStore (postGenerate asciiLower (modelSaying (utf16 "hello")) twoKeys Limiter.new
        newYork longDayServer (requestAt 1762144200000)).2.db) newYork 1762144202000
      (utf16 "user42") 25).remaining = 1 := by
  decide

end Routes

namespace CaptionGenerator

open JS Rx

theorem splitOnChar_ne_nil (d : Nat) (s : Str) : splitOnChar d s ≠ [] := by
  cases s with
  | nil => simp [splitOnChar]
  | cons c cs =>
    unfold splitOnChar
    split
    · simp
    · split <;> simp

theorem keyArrayOf_length_pos (geminiKeys : Option Str) (keyArray : List Str)
    (h : keyArrayOf geminiKeys = some keyArray) : 1 ≤ keyArray.length := by
  unfold keyArrayOf at h
  split at h
  · rename_i c cs
    injection h with h
    subst h
    rw [List.length_map]
    exact Nat.one_le_iff_ne_zero.mpr
      (fun h0 => splitOnChar_ne_nil comma (c :: cs) (List.length_eq_zero.mp h0))
  · simp at h

theorem getD_eq_getElem? (l : List Str) (i : Nat) (h : i < l.length) :
    some (l.getD i []) = l[i]? := by
  rw [List.getD_eq_getElem?_getD, List.getElem?_eq_getElem h]
  rfl

theorem rotateKey_of_keys (geminiKeys : Option Str) (keyArray : List Str) (st : GenState)
    (h : keyArrayOf geminiKeys = some keyArray) :
    rotateKey geminiKeys st =
      { st with currentKeyIndex := (st.currentKeyIndex + 1) % keyArray.length,
                geminiKey := some (keyArray.getD ((st.currentKeyIndex + 1) % keyArray.length) []),
                genAI := some (keyArray.getD ((st.currentKeyIndex + 1) % keyArray.length) []) } := by
  simp [rotateKey, h]

theorem rotateKey_iterate (geminiKeys : Option Str) (keyArray : List Str)
    (h : keyArrayOf geminiKeys = some keyArray) : ∀ (k : Nat) (st : GenState),
    (Nat.iterate (rotateKey geminiKeys) (k + 1) st).currentKeyIndex
        = (st.currentKeyIndex + (k + 1)) % keyArray.length ∧
    (Nat.iterate (rotateKey geminiKeys) (k + 1) st).geminiKey
        = some (keyArray.getD ((st.currentKeyIndex + (k + 1)) % keyArray.length) []) := by
  intro k
  induction k with
  | zero =>
    intro st
    simp only [Function.iterate_succ, Function.iterate_zero, Function.comp_apply, id_eq]
    rw [rotateKey_of_keys geminiKeys keyArray st h]
    exact ⟨rfl, rfl⟩
  | succ k ih =>
    intro st
    rw [Function.iterate_succ, Function.comp_apply]
    obtain ⟨h1, h2⟩ := ih (rotateKey geminiKeys st)
    rw [h1, h2, rotateKey_of_keys geminiKeys keyArray st h]
    simp only
    have e : ((st.currentKeyIndex + 1) % keyArray.length + (k + 1)) % keyArray.length
        = (st.currentKeyIndex + (k + 1 + 1)) % keyArray.length := by
      rw [Nat.add_mod, Nat.mod_mod, ← Nat.add_mod]
      congr 1
      omega
    rw [e]
    exact ⟨rfl, rfl⟩

/-- C23: with `n ≥ 1` configured keys and `currentKeyIndex < n`, `rotateKey`
sets `currentKeyIndex` to `(old + 1) mod n` and selects the key at that index;
the index stays below `n`; and after `n` successive rotations the index is the
original one and the selected key is the key at the original index. -/
theorem rotateKey_round_robin (geminiKeys : Option Str) (keyArray : List Str) (st : GenState)
    (hkeys : keyArrayOf geminiKeys = some keyArray)
    (hidx : st.currentKeyIndex < keyArray.length) :
    1 ≤ keyArray.length ∧
    (rotateKey geminiKeys st).currentKeyIndex = (st.currentKeyIndex + 1) % keyArray.length ∧
    (rotateKey geminiKeys st).geminiKey = keyArray[(st.currentKeyIndex + 1) % keyArray.length]? ∧
    (rotateKey geminiKeys st).genAI = keyArray[(st.currentKeyIndex + 1) % keyArray.length]? ∧
    (rotateKey geminiKeys st).currentKeyIndex < keyArray.length ∧
    (Nat.iterate (rotateKey geminiKeys) keyArray.length st).currentKeyIndex
      = st.currentKeyIndex ∧
    (Nat.iterate (rotateKey geminiKeys) keyArray.length st).geminiKey
      = keyArray[st.currentKeyIndex]? := by
  have hpos := keyArrayOf_length_pos geminiKeys keyArray hkeys
  have hlt : (st.currentKeyIndex + 1) % keyArray.length < keyArray.length :=
    Nat.mod_lt _ (by omega)
  have hrot := rotateKey_of_keys geminiKeys keyArray st hkeys
  obtain ⟨n, hn⟩ : ∃ n, keyArray.length = n + 1 := ⟨keyArray.length - 1, by omega⟩
  obtain ⟨hi1, hi2⟩ := rotateKey_iterate geminiKeys keyArray hkeys n st
  have hback : (st.currentKeyIndex + (n + 1)) % keyArray.length = st.currentKeyIndex := by
    rw [← hn, Nat.add_mod_right, Nat.mod_eq_of_lt hidx]
  rw [hback] at hi1 hi2
  refine ⟨hpos, ?_, ?_, ?_, ?_, ?_, ?_⟩
  · rw [hrot]
  · rw [hrot, ← getD_eq_getElem? keyArray _ hlt]
  · rw [hrot, ← getD_eq_getElem? keyArray _ hlt]
  · rw [hrot]; exact hlt
  · rw [hn]; exact hi1
  · rw [hn, hi2]; exact getD_eq_getElem? keyArray _ hidx

theorem rotateKey_round_robin_witness :
    (rotateKey twoKeys GenState.new).currentKeyIndex = (0 + 1) % 2 ∧
    (rotateKey twoKeys GenState.new).geminiKey = some (utf16 "key-two") ∧
    (Nat.iterate (rotateKey twoKeys) 2 GenState.new).currentKeyIndex = 0 ∧
    (Nat.iterate (rotateKey twoKeys) 2 GenState.new).geminiKey = some (utf16 "key-one") :=
  ⟨(rotateKey_round_robin twoKeys [utf16 "key-one", utf16 "key-two"] GenState.new
      (by decide) (by decide)).2.1,
   (rotateKey_round_robin twoKeys [utf16 "key-one", utf16 "key-two"] GenState.new
      (by decide) (by decide)).2.2.1,
   (rotateKey_round_robin twoKeys [utf16 "key-one", utf16 "key-two"] GenState.new
      (by decide) (by decide)).2.2.2.2.2.1,
   (rotateKey_round_robin twoKeys [utf16 "key-one", utf16 "key-two"] GenState.new
      (by decide) (by decide)).2.2.2.2.2.2⟩

theorem getMoodEmoji_congr (f g : Str → Str) (mood : Str) (h : f mood = g mood) :
    getMoodEmoji f mood = getMoodEmoji g mood := by
  simp only [getMoodEmoji, h]

set_option maxRecDepth 1000000 in
set_option maxHeartbeats 4000000 in
theorem getMoodEmoji_offered_ascii :
    ∀ v ∈ coreMoods ++ seasonalMoods,
      v ∉ [utf16 "🎮 Gaming / Entertainment", utf16 "🚀 Modern / Futuristic",
           utf16 "🎯 Formal / Professional", utf16 "🎉 Celebration / Party",
           utf16 "🗺️ Adventure / Explore", utf16 "🎨 Artistic / Creative"] →
      getMoodEmoji asciiLower v = nameEmoji v := by
  decide

end CaptionGenerator

namespace CaptionGenerator

open JS Rx

set_option maxRecDepth 100000 in
/-- C28, refuted as stated: for the seasonal mood `🎉 Celebration / Party`
`getMoodEmoji` returns `🎪`, the emoji of the `party` / `celebration` row, not
the `🎉` that the name starts with. -/
theorem getMoodEmoji_celebration_counterexample :
    utf16 "🎉 Celebration / Party" ∈ seasonalMoods ∧
    nameEmoji (utf16 "🎉 Celebration / Party") = utf16 "🎉" ∧
    getMoodEmoji asciiLower (utf16 "🎉 Celebration / Party") = utf16 "🎪" := by
  decide

set_option maxRecDepth 100000 in
/-- C28, amended: for every lower-casing that acts on the offered values as the
ASCII one does, `getMoodEmoji` applied to the value of an offered mood returns
the emoji that the name starts with, for every core and seasonal entry other
than `🎮 Gaming / Entertainment`, `🚀 Modern / Futuristic`,
`🎯 Formal / Professional`, `🎉 Celebration / Party`, `🗺️ Adventure / Explore`
and `🎨 Artistic / Creative`; for the last three it returns `🎪`, `🌍` and `🎭`,
the emoji that the table gives to their keywords. -/
theorem getMoodEmoji_offered (toLowerCase : Str → Str)
    (hlower : ∀ v ∈ coreMoods ++ seasonalMoods, toLowerCase v = asciiLower v) :
    (∀ v ∈ coreMoods ++ seasonalMoods,
      v ∉ [utf16 "🎮 Gaming / Entertainment", utf16 "🚀 Modern / Futuristic",
           utf16 "🎯 Formal / Professional", utf16 "🎉 Celebration / Party",
           utf16 "🗺️ Adventure / Explore", utf16 "🎨 Artistic / Creative"] →
      getMoodEmoji toLowerCase v = nameEmoji v) ∧
    getMoodEmoji toLowerCase (utf16 "🎉 Celebration / Party") = utf16 "🎪" ∧
    getMoodEmoji toLowerCase (utf16 "🗺️ Adventure / Explore") = utf16 "🌍" ∧
    getMoodEmoji toLowerCase (utf16 "🎨 Artistic / Creative") = utf16 "🎭" := by
  refine ⟨?_, ?_, ?_, ?_⟩
  · intro v hv hnot
    rw [getMoodEmoji_congr toLowerCase asciiLower v (hlower v hv)]
    exact getMoodEmoji_offered_ascii v hv hnot
  · rw [getMoodEmoji_congr toLowerCase asciiLower _ (hlower _ (by decide))]
    decide
  · rw [getMoodEmoji_congr toLowerCase asciiLower _ (hlower _ (by decide))]
    decide
  · rw [getMoodEmoji_congr toLowerCase asciiLower _ (hlower _ (by decide))]
    decide

set_option maxRecDepth 100000 in
theorem getMoodEmoji_offered_witness :
    getMoodEmoji asciiLower (utf16 "🏃‍♂️ Fitness / Health")
      = nameEmoji (utf16 "🏃‍♂️ Fitness / Health") :=
  (getMoodEmoji_offered asciiLower (fun _ _ => rfl)).1 (utf16 "🏃‍♂️ Fitness / Health")
    (by decide) (by decide)

theorem includes_iff (s p : Str) : includes s p = true ↔ p <:+: s := by
  induction s with
  | nil =>
    simp only [includes, isPrefixOf_iff]
    constructor
    · intro h; exact h.isInfix
    · intro h
      have : p = [] := List.eq_nil_of_infix_nil h
      subst this
      exact List.prefix_refl _
  | cons c cs ih =>
    simp only [includes, Bool.or_eq_true, isPrefixOf_iff, ih, List.infix_cons_iff]

theorem windowOk_iff (c : Str) : windowOk c = true ↔
    30 < c.length ∧ c.length < 200 ∧ ¬ utf16 "STEP" <:+: c ∧ ¬ utf16 "CAPTIONS" <:+: c := by
  have h1 := includes_iff c (utf16 "STEP")
  have h2 := includes_iff c (utf16 "CAPTIONS")
  simp only [windowOk, Bool.and_eq_true, decide_eq_true_eq, Bool.not_eq_true',
    ← Bool.not_eq_true, h1, h2]
  tauto

theorem tierWindow_spec (sec : Str) (r : List Str) (h : tierWindow sec = some r) :
    r.length = 3 ∧ ∀ c ∈ r, ∃ i, i + 11 ≤ (windowWords sec).length ∧
      c = trim (joinSpace (((windowWords sec).drop i).take 15)) ∧
      11 ≤ (((windowWords sec).drop i).take 15).length ∧
      (((windowWords sec).drop i).take 15).length ≤ 15 ∧ windowOk c = true := by
  unfold tierWindow at h
  simp only at h
  split at h
  · rename_i h3
    injection h with h
    subst h
    have hle := List.length_take_le 3
      (List.filter windowOk (List.map (windowAt (windowWords sec))
        (List.range ((windowWords sec).length - 10))))
    refine ⟨?_, ?_⟩
    · rw [List.take_take]
      simp only [windowWords, Nat.min_self] at hle h3 ⊢
      omega
    · intro c hc
      have hm := List.mem_filter.mp (List.mem_of_mem_take (List.mem_of_mem_take hc))
      obtain ⟨i, hi, hci⟩ := List.mem_map.mp hm.1
      have hi2 : i < (windowWords sec).length - 10 := List.mem_range.mp hi
      refine ⟨i, by omega, hci.symm, ?_, ?_, hm.2⟩
      · rw [List.length_take, List.length_drop]
        omega
      · rw [List.length_take]
        omega
  · simp at h

end CaptionGenerator

namespace CaptionGenerator

open JS Rx

set_option maxRecDepth 100000 in
/-- C22, refuted as stated: a section of 13 words has no window of 15
consecutive words, yet the sliding-window tier returns three captions, the
joins of its last 13, 12 and 11 words. -/
theorem window_short_counterexample :
    (windowWords (utf16
      "alpha beta gamma delta epsilon zeta eta theta iota kappa lambda mu nu")).length = 13 ∧
    tierLines (utf16
      "alpha beta gamma delta epsilon zeta eta theta iota kappa lambda mu nu") = none ∧
    parseFromSection (utf16
      "alpha beta gamma delta epsilon zeta eta theta iota kappa lambda mu nu")
      = [utf16 "alpha beta gamma delta epsilon zeta eta theta iota kappa lambda mu nu",
         utf16 "beta gamma delta epsilon zeta eta theta iota kappa lambda mu nu",
         utf16 "gamma delta epsilon zeta eta theta iota kappa lambda mu nu"] := by
  decide

/-- C22, amended: whenever `parseFromSection` returns captions from its
sliding-window tier (every earlier tier fell through), it returns 3 captions,
and each of them is the trimmed single-space join of a window of at least 11
and at most 15 consecutive words of the section text (code fences and square
brackets removed), namely the words from some position `i` on, 15 of them or
all that are left; it is longer than 30 and shorter than 200 code units and
contains neither `STEP` nor `CAPTIONS`. -/
theorem window_tier_captions (sec : Str) (r : List Str)
    (h1 : tierCodeBlock true sec = none) (h2 : tierCodeBlock false sec = none)
    (h3 : tierNumbered sec = none) (h4 : tierQuoted sec = none) (h5 : tierLines sec = none)
    (h6 : tierWindow sec = some r) :
    parseFromSection sec = r ∧ r.length = 3 ∧
    ∀ c ∈ r, ∃ i, i + 11 ≤ (windowWords sec).length ∧
      c = trim (joinSpace (((windowWords sec).drop i).take 15)) ∧
      11 ≤ (((windowWords sec).drop i).take 15).length ∧
      (((windowWords sec).drop i).take 15).length ≤ 15 ∧
      30 < c.length ∧ c.length < 200 ∧
      ¬ utf16 "STEP" <:+: c ∧ ¬ utf16 "CAPTIONS" <:+: c := by
  obtain ⟨hl, hall⟩ := tierWindow_spec sec r h6
  refine ⟨by simp [parseFromSection, h1, h2, h3, h4, h5, h6], hl, ?_⟩
  intro c hc
  obtain ⟨i, hi, hci, ha, hb, hok⟩ := hall c hc
  obtain ⟨o1, o2, o3, o4⟩ := (windowOk_iff c).mp hok
  exact ⟨i, hi, hci, ha, hb, o1, o2, o3, o4⟩

set_option maxRecDepth 100000 in
theorem window_tier_captions_witness :
    parseFromSection (utf16
      "alpha beta gamma delta epsilon zeta eta theta iota kappa lambda mu nu")
      = [utf16 "alpha beta gamma delta epsilon zeta eta theta iota kappa lambda mu nu",
         utf16 "beta gamma delta epsilon zeta eta theta iota kappa lambda mu nu",
         utf16 "gamma delta epsilon zeta eta theta iota kappa lambda mu nu"] :=
  (window_tier_captions (utf16
      "alpha beta gamma delta epsilon zeta eta theta iota kappa lambda mu nu")
    [utf16 "alpha beta gamma delta epsilon zeta eta theta iota kappa lambda mu nu",
     utf16 "beta gamma delta epsilon zeta eta theta iota kappa lambda mu nu",
     utf16 "gamma delta epsilon zeta eta theta iota kappa lambda mu nu"]
    (by decide) (by decide) (by decide) (by decide) (by decide) (by decide)).1

theorem trim_dropWhile (l : Str) : trim (l.dropWhile isWhiteSpace) = trim l := by
  unfold trim
  rw [List.dropWhile_idempotent]

theorem dot_eq : utf16 "." = [46] := by decide

theorem lit_dot (s : Str) :
    lit [46] s = if s.head? = some 46 then some ([46], s.drop 1) else none := by
  cases s with
  | nil => simp [lit, List.isPrefixOf]
  | cons c cs =>
    by_cases h : c = 46
    · subst h
      simp [lit, List.isPrefixOf]
    · have h2 : ¬ (46 = c) := fun e => h e.symm
      simp [lit, List.isPrefixOf, h, h2]

/-- The caption that the loop of the line tier pushes for a line is the marked
text of the line when that text passes the length test. -/
theorem lineCaption_eq (line : Str) :
    lineCaption line = (markedText line).bind fun c => if lengthOk c then some c else none := by
  unfold lineCaption markedText
  simp only [stripNumber, stripBullet, dot_eq, seqAll, seq, many1, many, lit_dot, startsWith]
  generalize trim line = t
  by_cases hd : List.takeWhile isDigit t = []
  · simp only [hd, List.isEmpty_nil, if_true, ne_eq, not_true_eq_false, false_and, if_false]
    cases t with
    | nil => simp [List.isPrefixOf]
    | cons c cs =>
      by_cases h1 : c = dash
      · subst h1
        simp [List.isPrefixOf, trim_dropWhile]
      · by_cases h2 : c = bullet
        · subst h2
          simp [List.isPrefixOf, trim_dropWhile, h1]
        · have h1b : ¬ (dash = c) := fun e => h1 e.symm
          have h2b : ¬ (bullet = c) := fun e => h2 e.symm
          simp [List.isPrefixOf, h1, h2, h1b, h2b]
  · have hne : (List.takeWhile isDigit t).isEmpty = false := by
      cases hx : List.takeWhile isDigit t with
      | nil => exact absurd hx hd
      | cons a as => rfl
    simp only [hne, Bool.false_eq_true, if_false, ne_eq, hd, not_false_eq_true, true_and]
    by_cases h46 : (List.dropWhile isDigit t).head? = some 46
    · simp [h46, trim_dropWhile]
    · simp only [h46, if_false]
      cases t with
      | nil => simp at hd
      | cons c cs =>
        have hc : isDigit c = true := by
          by_contra hc
          simp [List.takeWhile, hc] at hd
        have hnd : c ≠ dash := by
          intro e; subst e; simp [isDigit, dash] at hc
        have hnb : c ≠ bullet := by
          intro e; subst e; simp [isDigit, bullet] at hc
        have h1b : ¬ (dash = c) := fun e => hnd e.symm
        have h2b : ¬ (bullet = c) := fun e => hnb e.symm
        simp [List.isPrefixOf, hnd, hnb, h1b, h2b]

theorem markedText_blank (line : Str) (h : trim line = []) : markedText line = none := by
  simp [markedText, h]

theorem tierLines_captions (sec : Str) :
    ((splitOnChar newline sec).filter fun line => !(trim line).isEmpty).filterMap lineCaption
      = ((splitOnChar newline sec).filterMap markedText).filter lengthOk := by
  rw [List.filterMap_filter, List.filter_filterMap]
  apply List.filterMap_congr
  intro line _
  by_cases hb : trim line = []
  · simp [hb, markedText_blank line hb]
  · have : (trim line).isEmpty = false := by
      cases hx : trim line with
      | nil => exact absurd hx hb
      | cons a as => rfl
    simp only [this, Bool.not_false, if_true, lineCaption_eq]
    cases markedText line with
    | none => rfl
    | some c => by_cases hc : lengthOk c = true <;> simp [Option.filter, hc]

set_option maxRecDepth 100000 in
/-- C21, refuted as stated: three numbered lines whose texts have exactly 20
code units are all dropped by the length test and nothing is returned. -/
theorem marked_lines_counterexample :
    (utf16 "12345678901234567890").length = 20 ∧
    markedText (utf16 "1. 12345678901234567890") = some (utf16 "12345678901234567890") ∧
    parseFromSection (utf16
      "1. 12345678901234567890\n2. 12345678901234567890\n3. 12345678901234567890") = [] := by
  decide

/-- C21, amended: for every section without double quotes that has at least 3
lines beginning, once trimmed, with a number and a dot or with a bullet marker
(`-` or `•`) whose text after the marker, trimmed, is longer than 20 and
shorter than 200 code units, `parseFromSection` returns the texts of the first
3 such lines, in order. -/
theorem parse_marked_lines (sec : Str) (hq : quote ∉ sec)
    (h3 : 3 ≤ (((splitOnChar newline sec).filterMap markedText).filter lengthOk).length) :
    parseFromSection sec
      = (((splitOnChar newline sec).filterMap markedText).filter lengthOk).take 3 := by
  have ht : tierLines sec
      = some ((((splitOnChar newline sec).filterMap markedText).filter lengthOk).take 3) := by
    unfold tierLines
    simp only [tierLines_captions]
    rw [if_pos h3]
  simp [parseFromSection, tierCodeBlock_none_of_no_quote _ sec hq,
    tierNumbered_none_of_needs quote numberedRx_needs_quote sec hq,
    tierQuoted_none_of_no_quote sec hq, ht]

set_option maxRecDepth 100000 in
theorem parse_marked_lines_witness :
    parseFromSection (utf16
      "Captions:\n1. Golden light on the mountains\n- This view hits different today\n• Living that mountain life now\n4. One more caption that is long enough")
      = [utf16 "Golden light on the mountains", utf16 "This view hits different today",
         utf16 "Living that mountain life now"] :=
  (parse_marked_lines (utf16
      "Captions:\n1. Golden light on the mountains\n- This view hits different today\n• Living that mountain life now\n4. One more caption that is long enough")
    (by decide) (by decide)).trans (by decide)

end CaptionGenerator
